import Mathlib

/-!
# Site audit pipeline: crawler and whole-site orchestrator

A shallow embedding of `src/services/crawler.js` and
`src/services/auditWholeSite.js`, with the issue extraction of
`src/services/runAudit.js` and the report cache of
`src/controller/auditController/audit.controller.js`.

* URL strings are `String`; the crawler compares them as strings, exactly as
  the JavaScript `Set`/`Array.includes` do.
* The platform `URL` class is not part of the repository.  It is taken as a
  parameter (`UrlLib`); `urlLite` is a small executable instance used for the
  concrete scenarios.
* The network (`axios.get` + `cheerio.load`) and the page auditor's browser
  are oracles.  They are indexed by the number of calls made before, so an
  oracle may answer differently each time it is asked.
* `maxPages` is a finite JavaScript number, here a fraction (`ℚ`): the loop
  compares `discoveredUrls.length` with it as numbers, and `multiPageAudit`
  passes `req.body.maxPages` on without looking at the result of the request
  validator (`isInt`), so a value such as 1.5 reaches the loop.  Comparing an
  array length with a finite double is exact, so the fraction orders as the
  double does.  `NaN` and the infinities are not modelled.
* The `while` loop of `crawlWebsite` is run with fuel; `Outcome.outOfFuel` is
  the only artefact of that, and enough fuel always exists
  (`crawlLoop_terminates`).
-/

namespace Xstreams

/-! ## String helpers -/

/-- The text `pat` occurs as a contiguous run inside the given text. -/
def includesChars (pat : List Char) : List Char → Bool
  | [] => pat.isPrefixOf []
  | c :: cs => pat.isPrefixOf (c :: cs) || includesChars pat cs

/-- JavaScript `s.includes(pat)`; also a regular expression that is a plain
literal, tested with `pattern.test(s)`. -/
def jsIncludes (s pat : String) : Bool :=
  includesChars pat.data s.data

/-- A regular expression `/lit$/`: the text ends with `lit`. -/
def endsWithLit (s lit : String) : Bool :=
  lit.data.isSuffixOf s.data

/-- A regular expression `/\.(e1|e2|...)$/i`: the text ends, ignoring ASCII
case, with a dot followed by one of the listed extensions. -/
def endsWithExt (s : String) (exts : List String) : Bool :=
  exts.any fun e => ('.' :: e.data).isSuffixOf (s.data.map Char.toLower)

/-! ## `isExcludedUrl` (crawler.js, lines 124-144) -/

/-- Extensions of the first extension pattern (documents and archives). -/
def documentExts : List String :=
  ["pdf", "doc", "docx", "xls", "xlsx", "ppt", "pptx", "zip", "rar", "tar", "gz"]

/-- Extensions of the second extension pattern (images). -/
def imageExts : List String :=
  ["jpg", "jpeg", "png", "gif", "svg", "ico", "webp"]

/-- Extensions of the third extension pattern (styles, scripts, data). -/
def assetExts : List String :=
  ["css", "js", "json", "xml", "txt"]

/-- `isExcludedUrl(url)`: some exclusion pattern matches the URL string. -/
def isExcludedUrl (url : String) : Bool :=
  jsIncludes url "/wp-admin/" ||
  jsIncludes url "/admin/" ||
  jsIncludes url "/login" ||
  jsIncludes url "/logout" ||
  jsIncludes url "/register" ||
  jsIncludes url "/cart" ||
  jsIncludes url "/checkout" ||
  jsIncludes url "/search?" ||
  endsWithExt url documentExts ||
  endsWithExt url imageExts ||
  endsWithExt url assetExts ||
  jsIncludes url "mailto:" ||
  jsIncludes url "tel:" ||
  jsIncludes url "javascript:" ||
  endsWithLit url "#"

/-! ## The platform `URL` class, as a parameter -/

/-- The operations of the platform `URL` class that the crawler uses. -/
structure UrlLib where
  /-- Parsed URL objects. -/
  Url : Type
  /-- The call `new URL(s)`; `none` when it throws. -/
  parse : String → Option Url
  /-- The call `new URL(href, base)`; `none` when it throws. -/
  resolve : String → String → Option Url
  /-- The getter `u.protocol`, colon included. -/
  protocol : Url → String
  /-- The getter `u.hostname`. -/
  hostname : Url → String
  /-- The assignment `u.hash = ''`. -/
  clearHash : Url → Url
  /-- The call `u.toString()`. -/
  href : Url → String

/-! ## The network, as an oracle -/

/-- What `axios.get` and `cheerio.load` give for a page that could be fetched:
the `content-type` header, if any, and the `href` attribute of every
`a[href]` element in document order. -/
structure Response where
  contentType : Option String
  hrefs : List String
deriving DecidableEq, Repr

/-- The network seen by one crawl.  `net k url` is the answer to the fetch of
`url` made after `k` earlier fetches; `none` stands for anything thrown inside
the `try` block of `extractLinksFromPage` (network error, timeout, non-2xx
status, parser failure). -/
abbrev Network := Nat → String → Option Response

/-! ## `extractLinksFromPage` (crawler.js, lines 62-117) -/

/-- The body of the `.each` callback: what one anchor does to `links`. -/
def linkStep (lib : UrlLib) (url baseDomain : String) (links : List String)
    (href : String) : List String :=
  if href = "" then links
  else
    match lib.resolve href url with
    | none => links
    | some absoluteUrl =>
      if (lib.protocol absoluteUrl = "http:" ∨ lib.protocol absoluteUrl = "https:") ∧
          lib.hostname absoluteUrl = baseDomain then
        let cleanUrl := lib.href (lib.clearHash absoluteUrl)
        if ¬ cleanUrl ∈ links ∧ isExcludedUrl cleanUrl = false then links ++ [cleanUrl]
        else links
      else links

/-- `extractLinksFromPage(url, baseDomain)`, given the network's answer to the
fetch of `url`. -/
def extractLinksFromPage (lib : UrlLib) (fetched : Option Response)
    (url baseDomain : String) : List String :=
  match fetched with
  | none => []
  | some response =>
    if jsIncludes (response.contentType.getD "") "text/html" = false then []
    else response.hrefs.foldl (linkStep lib url baseDomain) []

/-- The text `s` is a link that `extractLinksFromPage(url, base)` may return:
the clean form of an anchor of the page that passed all filters. -/
def IsCleanLink (lib : UrlLib) (url base s : String) : Prop :=
  ∃ href u, href ≠ "" ∧ lib.resolve href url = some u ∧
    (lib.protocol u = "http:" ∨ lib.protocol u = "https:") ∧
    lib.hostname u = base ∧ s = lib.href (lib.clearHash u) ∧ isExcludedUrl s = false

/-! ## The link extractor as the specification words it -/

/-- Spec side of `extractLinksFromPage`: the clean URL of one anchor when the
anchor is kept.  The `href` is resolved against the page URL; only http/https
URLs whose hostname is `baseHost` are kept; the fragment is stripped; URLs
matching the exclusion policy are dropped.  (An empty `href` is no link.) -/
def specCleanUrl (lib : UrlLib) (pageUrl baseHost href : String) : Option String :=
  if href = "" then none
  else
    match lib.resolve href pageUrl with
    | none => none
    | some u =>
      if (lib.protocol u = "http:" ∨ lib.protocol u = "https:") ∧ lib.hostname u = baseHost then
        if isExcludedUrl (lib.href (lib.clearHash u)) then none
        else some (lib.href (lib.clearHash u))
      else none

/-- Spec side: the list with later repeats removed, first occurrences kept in
their order. -/
def firstOccurrences : List String → List String
  | [] => []
  | x :: xs => x :: (firstOccurrences xs).filter fun y => decide (y ≠ x)

/-- Spec side of `extractLinksFromPage` for an HTML page with the given
anchors: the anchors mapped to clean URLs, filtered, later repeats removed. -/
def specExtractLinks (lib : UrlLib) (pageUrl baseHost : String) (hrefs : List String) :
    List String :=
  firstOccurrences (hrefs.filterMap (specCleanUrl lib pageUrl baseHost))

/-! ## `crawlWebsite` (crawler.js, lines 10-54) -/

/-- How a call ends. -/
inductive Outcome (α : Type) where
  /-- The promise resolves with a value. -/
  | returned (value : α)
  /-- The promise rejects with an error carrying this message. -/
  | threw (message : String)
  /-- The fuel given to the model ran out before the loop ended. -/
  | outOfFuel
deriving DecidableEq, Repr

/-- The three local variables of `crawlWebsite`. -/
structure CrawlState where
  visitedUrls : List String
  urlsToVisit : List String
  discoveredUrls : List String
deriving DecidableEq, Repr

/-- The inner `for (const link of links)` loop: push every link that is
neither visited nor already queued. -/
def enqueueLinks (visitedUrls : List String) (urlsToVisit links : List String) :
    List String :=
  links.foldl
    (fun queue link => if ¬ link ∈ visitedUrls ∧ ¬ link ∈ queue then queue ++ [link] else queue)
    urlsToVisit

/-- The `while` loop of `crawlWebsite`, one iteration per unit of fuel.
`none` means the fuel ran out while the loop condition still held. -/
def crawlLoop (lib : UrlLib) (net : Network) (baseDomain : String) (maxPages : ℚ) :
    Nat → CrawlState → Option (List String)
  | _, ⟨_, [], discoveredUrls⟩ => some discoveredUrls
  | 0, ⟨_, _ :: _, discoveredUrls⟩ =>
    if (discoveredUrls.length : ℚ) < maxPages then none else some discoveredUrls
  | fuel + 1, ⟨visitedUrls, currentUrl :: rest, discoveredUrls⟩ =>
    if (discoveredUrls.length : ℚ) < maxPages then
      if currentUrl ∈ visitedUrls then
        crawlLoop lib net baseDomain maxPages fuel ⟨visitedUrls, rest, discoveredUrls⟩
      else
        let links :=
          extractLinksFromPage lib (net discoveredUrls.length currentUrl) currentUrl baseDomain
        crawlLoop lib net baseDomain maxPages fuel
          ⟨currentUrl :: visitedUrls, enqueueLinks (currentUrl :: visitedUrls) rest links,
            discoveredUrls ++ [currentUrl]⟩
    else some discoveredUrls

/-- `crawlWebsite(startUrl, maxPages)`. -/
def crawlWebsite (lib : UrlLib) (net : Network) (fuel : Nat) (startUrl : String)
    (maxPages : ℚ) : Outcome (List String) :=
  match lib.parse startUrl with
  | none => Outcome.threw "Invalid URL"
  | some startUrlObj =>
    match crawlLoop lib net (lib.hostname startUrlObj) maxPages fuel ⟨[], [startUrl], []⟩ with
    | none => Outcome.outOfFuel
    | some discoveredUrls => Outcome.returned discoveredUrls

/-! ## The crawl loop, step by step -/

/-- The loop condition
`urlsToVisit.length > 0 && discoveredUrls.length < maxPages`. -/
def crawlContinues (maxPages : ℚ) (st : CrawlState) : Bool :=
  decide (st.urlsToVisit ≠ []) && decide ((st.discoveredUrls.length : ℚ) < maxPages)

/-- One iteration of the body of the `while` loop of `crawlWebsite`. -/
def crawlStep (lib : UrlLib) (net : Network) (baseDomain : String) (st : CrawlState) :
    CrawlState :=
  match st.urlsToVisit with
  | [] => st
  | currentUrl :: rest =>
    if currentUrl ∈ st.visitedUrls then ⟨st.visitedUrls, rest, st.discoveredUrls⟩
    else
      ⟨currentUrl :: st.visitedUrls,
        enqueueLinks (currentUrl :: st.visitedUrls) rest
          (extractLinksFromPage lib (net st.discoveredUrls.length currentUrl) currentUrl
            baseDomain),
        st.discoveredUrls ++ [currentUrl]⟩

/-- The state at the head of the loop after `n` iterations, or the final state
if the loop has ended before. -/
def crawlStateAt (lib : UrlLib) (net : Network) (baseDomain : String) (maxPages : ℚ) :
    Nat → CrawlState → CrawlState
  | 0, st => st
  | n + 1, st =>
    if crawlContinues maxPages st then
      crawlStateAt lib net baseDomain maxPages n (crawlStep lib net baseDomain st)
    else st

/-- The crawl invariant: discovered URLs followed by the queue list every URL
ever enqueued, without repeats, and the visited set holds the discovered
URLs. -/
def CrawlInv (st : CrawlState) : Prop :=
  (st.discoveredUrls ++ st.urlsToVisit).Nodup ∧
    ∀ s, s ∈ st.visitedUrls ↔ s ∈ st.discoveredUrls

/-! ## Page audit results (runAudit.js, lines 78-96 and `processAudit`) -/

/-- The `scores` object of a page audit; each score is `Math.round(x * 100)`,
an integer. -/
structure Scores where
  performance : Int
  accessibility : Int
  seo : Int
deriving DecidableEq, Repr

/-- One finding, as built by `processAudit`. -/
structure Issue where
  type : String
  category : String
  description : String
  impact : String
  suggestion : String
  wcagCriteria : String
  elements : List String
deriving DecidableEq, Repr

/-- The object `runAudit` resolves with. -/
structure PageAuditResult where
  url : String
  scores : Scores
  performance : List Issue
  accessibility : List Issue
  seo : List Issue
  timestamp : String
  totalIssues : Nat
deriving DecidableEq, Repr

/-- An entry of the `errors` array of `auditWholeSite`. -/
structure AuditError where
  url : String
  error : String
  timestamp : String
deriving DecidableEq, Repr

/-! ## `generateSiteSummary` (auditWholeSite.js, lines 121-181) -/

/-- The `totalIssues` object of a summary. -/
structure IssueCounts where
  critical : Nat
  moderate : Nat
  minor : Nat
deriving DecidableEq, Repr

/-- The `{ url, scores }` object naming the best or the worst page. -/
structure PageRef where
  url : String
  scores : Scores
deriving DecidableEq, Repr

/-- The object `generateSiteSummary` returns; the two page fields are absent
from the object built for an empty result list. -/
structure Summary where
  averageScores : Scores
  totalIssues : IssueCounts
  pageCount : Nat
  bestPerformingPage : Option PageRef
  worstPerformingPage : Option PageRef
deriving DecidableEq, Repr

/-- `Math.round(total / count)` for an integer `total` and a positive integer
`count`: the quotient rounded to the nearest integer, halves upwards.  (The
floating-point quotient of two such integers is never on the wrong side of a
half, so the rounding is the exact one.) -/
def roundDiv (total : Int) (count : Nat) : Int :=
  (2 * total + count) / (2 * count)

/-- The first `reduce`: add the three scores of a page to the accumulator. -/
def addScores (acc : Scores) (result : PageAuditResult) : Scores :=
  { performance := acc.performance + result.scores.performance
    accessibility := acc.accessibility + result.scores.accessibility
    seo := acc.seo + result.scores.seo }

/-- The `forEach` callback of the second `reduce`: count one issue. -/
def countIssue (acc : IssueCounts) (issue : Issue) : IssueCounts :=
  if issue.impact = "Critical" then { acc with critical := acc.critical + 1 }
  else if issue.impact = "Moderate" then { acc with moderate := acc.moderate + 1 }
  else if issue.impact = "Minor" then { acc with minor := acc.minor + 1 }
  else acc

/-- The second `reduce`: count the issues of one page. -/
def addIssues (acc : IssueCounts) (result : PageAuditResult) : IssueCounts :=
  (result.performance ++ result.accessibility ++ result.seo).foldl countIssue acc

/-- The mean of the three scores of a page, `(p + a + s) / 3`, as an exact
fraction.  (The scores are integers, so the floating-point quotients of the
source are ordered exactly as these fractions are.) -/
def meanScore (result : PageAuditResult) : ℚ :=
  ((result.scores.performance + result.scores.accessibility + result.scores.seo : Int) : ℚ) / 3

/-- The callback of the third `reduce`: keep the strictly better page. -/
def pickBest (best current : PageAuditResult) : PageAuditResult :=
  if meanScore current > meanScore best then current else best

/-- The callback of the fourth `reduce`: keep the strictly worse page. -/
def pickWorst (worst current : PageAuditResult) : PageAuditResult :=
  if meanScore current < meanScore worst then current else worst

/-- `generateSiteSummary(auditResults, errors)`. -/
def generateSiteSummary (auditResults : List PageAuditResult) (_errors : List AuditError) :
    Summary :=
  match auditResults with
  | [] =>
    { averageScores := ⟨0, 0, 0⟩
      totalIssues := ⟨0, 0, 0⟩
      pageCount := 0
      bestPerformingPage := none
      worstPerformingPage := none }
  | first :: others =>
    let totalScores := (first :: others).foldl addScores ⟨0, 0, 0⟩
    let count := (first :: others).length
    let bestPage := others.foldl pickBest first
    let worstPage := others.foldl pickWorst first
    { averageScores :=
        { performance := roundDiv totalScores.performance count
          accessibility := roundDiv totalScores.accessibility count
          seo := roundDiv totalScores.seo count }
      totalIssues := (first :: others).foldl addIssues ⟨0, 0, 0⟩
      pageCount := count
      bestPerformingPage := some ⟨bestPage.url, bestPage.scores⟩
      worstPerformingPage := some ⟨worstPage.url, worstPage.scores⟩ }

/-! ## `auditWholeSite` (auditWholeSite.js, lines 15-113) -/

/-- The `options` argument after destructuring with its defaults. -/
structure Options where
  maxPages : ℚ := 50
  saveToFile : Bool := false
  outputDir : String := "./output"
deriving DecidableEq, Repr

/-- The `options` object echoed in the metadata. -/
structure EchoedOptions where
  maxPages : ℚ
  saveToFile : Bool
deriving DecidableEq, Repr

/-- The `metadata` object of the report. -/
structure Metadata where
  startUrl : String
  totalPagesDiscovered : Nat
  totalPagesAudited : Nat
  totalErrors : Nat
  auditTimestamp : String
  options : EchoedOptions
deriving DecidableEq, Repr

/-- The object `auditWholeSite` resolves with (`finalResults`). -/
structure SiteAuditReport where
  summary : Summary
  auditResults : List PageAuditResult
  errors : List AuditError
  metadata : Metadata
deriving DecidableEq, Repr

/-- What the `try` block of `runAudit` computes when nothing throws: the three
scores and the issues returned by `extractIssues`. -/
structure AuditBody where
  scores : Scores
  issues : List Issue
deriving DecidableEq, Repr

/-- What surrounds the orchestrator.  `browser k url` is what the `try` block
of the call `runAudit(url)` made after `k` earlier calls does (browser launch,
navigation, Lighthouse): it gives scores and issues, or throws an error with
the given message.  `now k` is `new Date().toISOString()` read after `k`
calls.  `saveResults` is the file-system write of
`saveResults(results, outputDir)`, which gives the file path or throws. -/
structure AuditEnv where
  browser : Nat → String → Except String AuditBody
  now : Nat → String
  saveResults : SiteAuditReport → String → Except String String

/-- The message thrown by `runAudit` when the browser cannot be launched.  (The
closing `trim()` of the source only matters for a message that ends in white
space and is left out.) -/
def browserLaunchMessage (message : String) : String :=
  "Browser launch failed. This may be due to missing Chrome dependencies.\n\n" ++
  "For Ubuntu/Debian servers, install required packages:\n" ++
  "sudo apt-get update\n" ++
  "sudo apt-get install -y wget gnupg\n" ++
  "wget -q -O - https://dl-ssl.google.com/linux/linux_signing_key.pub | sudo apt-key add -\n" ++
  "sudo sh -c 'echo \"deb [arch=amd64] http://dl.google.com/linux/chrome/deb/ stable main\"" ++
  " >> /etc/apt/sources.list.d/google.list'\n" ++
  "sudo apt-get update\n" ++
  "sudo apt-get install -y google-chrome-stable\n\n" ++
  "Original error: " ++ message

/-- The message thrown by `runAudit` for an HTTP/2 protocol error. -/
def protocolMessage (url : String) : String :=
  "Website " ++ url ++ " has HTTP/2 protocol issues. This can happen with some websites " ++
  "that have misconfigured HTTP/2 servers or strict bot detection. Please try again later " ++
  "or contact the website administrator if the issue persists."

/-- The `catch` block of `runAudit` (runAudit.js, lines 101-130): the message
of the error it throws for an error with message `message`. -/
def auditFailureMessage (url message : String) : String :=
  if jsIncludes message "Failed to launch the browser process" then
    browserLaunchMessage message
  else if jsIncludes message "ERR_HTTP2_PROTOCOL_ERROR" ||
      jsIncludes message "ERR_SPDY_PROTOCOL_ERROR" ||
      jsIncludes message "Protocol error" then
    protocolMessage url
  else "Failed to audit " ++ url ++ ": " ++ message

/-- The call `runAudit(url)` made after `k` earlier calls (runAudit.js, lines
10-147): the result object, or the message of the error thrown. -/
def runAudit (env : AuditEnv) (k : Nat) (url : String) : Except String PageAuditResult :=
  match env.browser k url with
  | Except.ok body =>
    Except.ok
      { url := url
        scores := body.scores
        performance := body.issues.filter fun issue => issue.category = "Performance"
        accessibility := body.issues.filter fun issue => issue.category = "Accessibility"
        seo := body.issues.filter fun issue => issue.category = "SEO"
        timestamp := env.now k
        totalIssues := body.issues.length }
  | Except.error message => Except.error (auditFailureMessage url message)

/-- The variables of the audit loop.  `calls` is not in the source: it records,
in order, the argument of every `runAudit` call made so far. -/
structure AuditState where
  auditResults : List PageAuditResult
  errors : List AuditError
  completed : Nat
  calls : List String
deriving DecidableEq, Repr

/-- The body of `for (const url of urls)`: one attempt, and on failure one
retry; a failed retry appends to `errors`. -/
def auditPage (env : AuditEnv) (st : AuditState) (url : String) : AuditState :=
  match runAudit env st.calls.length url with
  | Except.ok auditResult =>
    { st with
      auditResults := st.auditResults ++ [auditResult]
      completed := st.completed + 1
      calls := st.calls ++ [url] }
  | Except.error _ =>
    match runAudit env (st.calls.length + 1) url with
    | Except.ok retryResult =>
      { st with
        auditResults := st.auditResults ++ [retryResult]
        completed := st.completed + 1
        calls := st.calls ++ [url, url] }
    | Except.error retryError =>
      { st with
        errors := st.errors ++ [⟨url, retryError, env.now (st.calls.length + 2)⟩]
        calls := st.calls ++ [url, url] }

/-- The whole `for` loop over the crawled URLs. -/
def auditLoop (env : AuditEnv) (urls : List String) : AuditState :=
  urls.foldl (auditPage env) ⟨[], [], 0, []⟩

/-- One run of `auditWholeSite`: how the call ends, and the `runAudit` calls
it made. -/
structure Run where
  outcome : Outcome SiteAuditReport
  calls : List String
deriving DecidableEq, Repr

/-- The message of the error thrown when the crawl gives no URL. -/
def noPagesMessage : String :=
  "No pages found to audit. Please check the URL and try again."

/-- Step 3 of `auditWholeSite`: the object `finalResults` compiled from the
crawl result and the state the audit loop ended in. -/
def finalResults (env : AuditEnv) (startUrl : String) (options : Options)
    (urls : List String) (st : AuditState) : SiteAuditReport :=
  { summary := generateSiteSummary st.auditResults st.errors
    auditResults := st.auditResults
    errors := st.errors
    metadata :=
      { startUrl := startUrl
        totalPagesDiscovered := urls.length
        totalPagesAudited := st.auditResults.length
        totalErrors := st.errors.length
        auditTimestamp := env.now st.calls.length
        options := ⟨options.maxPages, options.saveToFile⟩ } }

/-- `auditWholeSite(startUrl, options)`. -/
def auditWholeSite (lib : UrlLib) (net : Network) (fuel : Nat) (env : AuditEnv)
    (startUrl : String) (options : Options) : Run :=
  match crawlWebsite lib net fuel startUrl options.maxPages with
  | Outcome.outOfFuel => ⟨Outcome.outOfFuel, []⟩
  | Outcome.threw message => ⟨Outcome.threw message, []⟩
  | Outcome.returned urls =>
    if urls.length = 0 then ⟨Outcome.threw noPagesMessage, []⟩
    else
      let st := auditLoop env urls
      if options.saveToFile then
        match env.saveResults (finalResults env startUrl options urls st) options.outputDir with
        | Except.error message => ⟨Outcome.threw message, st.calls⟩
        | Except.ok _ => ⟨Outcome.returned (finalResults env startUrl options urls st), st.calls⟩
      else ⟨Outcome.returned (finalResults env startUrl options urls st), st.calls⟩

/-! ## `urlLite`: an executable fragment of the platform `URL` class

It accepts absolute URLs `http(s)://host[/path][?query][#fragment]` whose host
is made of lower-case letters and dots and whose path, query and fragment use
plain characters without dot segments, and it resolves path-absolute (`/...`)
and fragment-only (`#...`) references against such a base.  These are inputs
that the platform class leaves as they are, apart from the root path it adds
to a URL without path; every other input is refused (`none`). -/

/-- A parsed URL of the fragment. -/
structure LiteUrl where
  /-- The scheme, `http` or `https`, no colon. -/
  scheme : List Char
  host : List Char
  /-- The path, always starting with a slash. -/
  path : List Char
  /-- The query without its question mark, if there is one. -/
  query : Option (List Char)
  /-- The fragment without its hash sign, if there is one. -/
  fragment : Option (List Char)
deriving DecidableEq, Repr

/-- Characters accepted in a host. -/
def hostChar (c : Char) : Bool :=
  c.isLower || c == '.'

/-- Characters accepted in a path. -/
def pathChar (c : Char) : Bool :=
  c.isAlphanum || c == '/' || c == '-' || c == '_' || c == '~' || c == '.' ||
    c == '=' || c == '&' || c == '+'

/-- Characters accepted in a query or a fragment. -/
def tailChar (c : Char) : Bool :=
  pathChar c || c == '?'

/-- Remove `pre` from the front of the text, if it is there. -/
def stripFront : List Char → List Char → Option (List Char)
  | [], cs => some cs
  | _ :: _, [] => none
  | p :: ps, c :: cs => if p = c then stripFront ps cs else none

/-- Split path, query and fragment: input is everything after the host. -/
def splitTail (cs : List Char) :
    List Char × Option (List Char) × Option (List Char) :=
  let path := cs.takeWhile fun c => c != '?' && c != '#'
  let r := cs.dropWhile fun c => c != '?' && c != '#'
  match r with
  | '?' :: q =>
    let query := q.takeWhile fun c => c != '#'
    match q.dropWhile fun c => c != '#' with
    | '#' :: f => (path, some query, some f)
    | _ => (path, some query, none)
  | '#' :: f => (path, none, some f)
  | _ => (path, none, none)

/-- The well-formedness conditions of the fragment on path, query, fragment. -/
def tailOk (path : List Char) (query fragment : Option (List Char)) : Bool :=
  path.head? == some '/' && path.all pathChar && !includesChars ['/', '.'] path &&
    (query.getD []).all tailChar && (fragment.getD []).all tailChar

/-- An empty path is the root path. -/
def orRoot (path : List Char) : List Char :=
  if path.isEmpty then ['/'] else path

/-- Parse what follows `scheme://`. -/
def parseAfterScheme (scheme : List Char) (cs : List Char) : Option LiteUrl :=
  let host := cs.takeWhile hostChar
  let parts := splitTail (cs.dropWhile hostChar)
  if !host.isEmpty && tailOk (orRoot parts.1) parts.2.1 parts.2.2 then
    some ⟨scheme, host, orRoot parts.1, parts.2.1, parts.2.2⟩
  else none

/-- The call `new URL(s)` on the fragment. -/
def LiteUrl.parse (s : String) : Option LiteUrl :=
  match stripFront "https://".data s.data with
  | some cs => parseAfterScheme "https".data cs
  | none =>
    match stripFront "http://".data s.data with
    | some cs => parseAfterScheme "http".data cs
    | none => none

/-- Resolve a reference that is not an absolute URL against the base `b`:
a path-absolute reference replaces path, query and fragment; a fragment-only
reference replaces the fragment. -/
def resolveRelative (b : LiteUrl) (ref : List Char) : Option LiteUrl :=
  if ref.head? = some '/' then
    let parts := splitTail ref
    if ref.tail.head? != some '/' && tailOk parts.1 parts.2.1 parts.2.2 then
      some { b with path := parts.1, query := parts.2.1, fragment := parts.2.2 }
    else none
  else if ref.head? = some '#' then
    if ref.tail.all tailChar then some { b with fragment := some ref.tail } else none
  else none

/-- The call `new URL(href, base)` on the fragment: the base is parsed first,
then the reference, absolute or relative to the base. -/
def LiteUrl.resolve (href base : String) : Option LiteUrl :=
  match LiteUrl.parse base with
  | none => none
  | some b =>
    match LiteUrl.parse href with
    | some u => some u
    | none => resolveRelative b href.data

/-- The text of an optional component, led by its mark. -/
def markedPart (mark : Char) : Option (List Char) → List Char
  | some text => mark :: text
  | none => []

/-- The call `u.toString()`. -/
def LiteUrl.href (u : LiteUrl) : String :=
  String.mk (u.scheme ++ "://".data ++ u.host ++ u.path ++
    markedPart '?' u.query ++ markedPart '#' u.fragment)

/-- The fragment of the platform `URL` class, as a `UrlLib`. -/
def urlLite : UrlLib where
  Url := LiteUrl
  parse := LiteUrl.parse
  resolve := LiteUrl.resolve
  protocol u := String.mk (u.scheme ++ [':'])
  hostname u := String.mk u.host
  clearHash u := { u with fragment := none }
  href := LiteUrl.href

/-- The well-formedness that `urlLite` guarantees of every URL it builds. -/
def LiteUrl.WellFormed (u : LiteUrl) : Prop :=
  (u.scheme = "https".data ∨ u.scheme = "http".data) ∧ u.host ≠ [] ∧
    (∀ c ∈ u.host, hostChar c = true) ∧ tailOk u.path u.query u.fragment = true

/-! ## Hostname and normal form of a URL string -/

/-- The hostname of a URL string, `new URL(s).hostname`, when `s` parses. -/
def hostOf (lib : UrlLib) (s : String) : Option String :=
  (lib.parse s).map lib.hostname

/-- The normal form of a URL string: parse it, clear the fragment, print it
(scheme, host, path and query are kept). -/
def normalizeUrl (lib : UrlLib) (s : String) : Option String :=
  (lib.parse s).map fun u => lib.href (lib.clearHash u)

/-! ## Scenario networks -/

/-- An HTML page with the given anchors. -/
def htmlPage (hrefs : List String) : Option Response :=
  some ⟨some "text/html; charset=utf-8", hrefs⟩

/-- Scenario A: the seed page links to `/a`, `/b`, `/a` again and to another
host; the pages `/a` and `/b` have no links. -/
def scenarioANet : Network := fun _ url =>
  if url = "https://example.com" then
    htmlPage ["/a", "/b", "/a", "https://other.com/x"]
  else if url = "https://example.com/a" then htmlPage []
  else if url = "https://example.com/b" then htmlPage []
  else none

/-- The failing input of C4: every page has one anchor, a link to `/`. -/
def homeLinkNet : Network := fun _ _ => htmlPage ["/"]

/-- The URLs of scenario A, in crawl order. -/
def scenarioAUrls : List String :=
  ["https://example.com", "https://example.com/a", "https://example.com/b"]

/-- A page result with the given scores and no issues. -/
def pageWith (url : String) (p a s : Int) : PageAuditResult :=
  ⟨url, ⟨p, a, s⟩, [], [], [], "t", 0⟩

/-- A network on which no page can be fetched. -/
def deadNet : Network := fun _ _ => none

/-- The scores and issues of a healthy page. -/
def healthyBody : AuditBody :=
  ⟨⟨90, 80, 70⟩, []⟩

/-- The timestamp every scenario clock shows. -/
def scenarioTime : String := "2024-01-01T00:00:00.000Z"

/-- An audit environment for scenario A: the first audit of the seed times
out and its retry succeeds; every audit of another page fails. -/
def scenarioEnv : AuditEnv where
  browser k url :=
    if url = "https://example.com" then
      if k = 0 then Except.error "Navigation timeout of 30000 ms exceeded"
      else Except.ok healthyBody
    else Except.error "net::ERR_CONNECTION_REFUSED"
  now _ := scenarioTime
  saveResults _ outputDir := Except.ok (outputDir ++ "/audit-result.json")

/-- The options of the scenario runs: `maxPages = 10`, nothing saved. -/
def scenarioOptions : Options :=
  { maxPages := 10 }

/-- The report of scenario A under `scenarioEnv`: the seed is audited on the
retry, `/a` and `/b` are recorded as errors. -/
def scenarioReport : SiteAuditReport :=
  { summary :=
      { averageScores := ⟨90, 80, 70⟩
        totalIssues := ⟨0, 0, 0⟩
        pageCount := 1
        bestPerformingPage := some ⟨"https://example.com", ⟨90, 80, 70⟩⟩
        worstPerformingPage := some ⟨"https://example.com", ⟨90, 80, 70⟩⟩ }
    auditResults := [⟨"https://example.com", ⟨90, 80, 70⟩, [], [], [], scenarioTime, 0⟩]
    errors :=
      [⟨"https://example.com/a",
          "Failed to audit https://example.com/a: net::ERR_CONNECTION_REFUSED", scenarioTime⟩,
        ⟨"https://example.com/b",
          "Failed to audit https://example.com/b: net::ERR_CONNECTION_REFUSED", scenarioTime⟩]
    metadata :=
      { startUrl := "https://example.com"
        totalPagesDiscovered := 3
        totalPagesAudited := 1
        totalErrors := 2
        auditTimestamp := scenarioTime
        options := ⟨10, false⟩ } }

/-- An audit environment in which every audit fails. -/
def downEnv : AuditEnv where
  browser _ _ := Except.error "net::ERR_NAME_NOT_RESOLVED"
  now _ := scenarioTime
  saveResults _ outputDir := Except.ok (outputDir ++ "/audit-result.json")

/-- The summary built for an empty result list. -/
def zeroSummary : Summary :=
  ⟨⟨0, 0, 0⟩, ⟨0, 0, 0⟩, 0, none, none⟩

/-- All issues of a page: its performance, accessibility and seo lists, one
after the other (the array `allIssues` of the second `reduce`). -/
def allIssues (result : PageAuditResult) : List Issue :=
  result.performance ++ result.accessibility ++ result.seo

/-- Three pages with performance scores 80, 90 and 100. -/
def risingPages : List PageAuditResult :=
  [pageWith "https://example.com" 80 70 60, pageWith "https://example.com/a" 90 70 61,
    pageWith "https://example.com/b" 100 71 61]

/-- Scenario B: three pages whose three scores all have mean 80. -/
def tiedPages : List PageAuditResult :=
  [pageWith "https://example.com" 90 80 70, pageWith "https://example.com/a" 70 90 80,
    pageWith "https://example.com/b" 80 70 90]

/-- Four pages with score sums 180, 210, 210 and 270: the two pages that tie
are neither the best nor the worst. -/
def midTiePages : List PageAuditResult :=
  [pageWith "https://example.com" 60 60 60, pageWith "https://example.com/a" 80 70 60,
    pageWith "https://example.com/b" 70 70 70, pageWith "https://example.com/c" 90 90 90]

/-- An issue with the given category and impact. -/
def issueWith (category impact : String) : Issue :=
  ⟨"title", category, "description", impact, "description", "N/A", []⟩

/-- A page with one critical issue listed under two categories, one moderate
and one minor issue. -/
def issuePage : PageAuditResult :=
  ⟨"https://example.com", ⟨50, 60, 70⟩,
    [issueWith "Performance" "Critical", issueWith "Performance" "Moderate"],
    [issueWith "Performance" "Critical"], [issueWith "SEO" "Minor"], scenarioTime, 3⟩

/-- An audit environment in which every audit fails with an HTTP/2 protocol
error of the browser. -/
def protocolEnv : AuditEnv where
  browser _ url := Except.error ("net::ERR_HTTP2_PROTOCOL_ERROR at " ++ url)
  now _ := scenarioTime
  saveResults _ outputDir := Except.ok (outputDir ++ "/audit-result.json")

/-! ## `extractIssues` (runAudit.js, lines 264-531) -/

/-- A Lighthouse audit, with the fields that `extractIssues` and `processAudit`
read.  `score` is `none` for `null` (or a missing score); `items` holds the
element identifier of every entry of `details.items`, when there are such. -/
structure LhAudit where
  id : String
  title : String
  description : String
  score : Option ℚ
  items : Option (List String)

/-- The Lighthouse result `lhr`: `audits id` is `lhr.audits[id]`. -/
structure Lhr where
  audits : String → Option LhAudit

/-- The array `accessibilityAudits`. -/
def accessibilityAudits : List String :=
  ["aria-allowed-attr", "aria-hidden-body", "aria-hidden-focus", "aria-input-field-name",
   "aria-required-attr", "aria-required-children", "aria-required-parent", "aria-roles",
   "aria-valid-attr", "aria-valid-attr-value", "button-name", "bypass", "color-contrast",
   "definition-list", "dlitem", "document-title", "duplicate-id-active", "duplicate-id-aria",
   "form-field-multiple-labels", "frame-title", "heading-order", "html-has-lang",
   "html-lang-valid", "image-alt", "input-image-alt", "label", "landmark-one-main",
   "link-name", "list", "listitem", "meta-refresh", "meta-viewport", "object-alt",
   "tabindex", "td-headers-attr", "th-has-data-cells", "valid-lang"]

/-- The array `performanceAudits`. -/
def performanceAudits : List String :=
  ["first-contentful-paint", "largest-contentful-paint", "first-meaningful-paint",
   "speed-index", "total-blocking-time", "cumulative-layout-shift", "server-response-time",
   "render-blocking-resources", "unused-css-rules", "unused-javascript",
   "modern-image-formats", "offscreen-images", "unminified-css", "unminified-javascript"]

/-- The array `seoAudits`. -/
def seoAudits : List String :=
  ["document-title", "meta-description", "http-status-code", "link-text",
   "crawlable-anchors", "is-crawlable", "robots-txt", "image-alt", "hreflang", "canonical"]

/-- The object `wcagMapping`. -/
def wcagMapping : List (String × String) :=
  [("aria-allowed-attr", "4.1.2 - Level A"), ("aria-hidden-body", "4.1.2 - Level A"),
   ("aria-hidden-focus", "4.1.2 - Level A"), ("aria-input-field-name", "4.1.2 - Level A"),
   ("aria-required-attr", "4.1.2 - Level A"), ("aria-required-children", "4.1.1 - Level A"),
   ("aria-required-parent", "4.1.1 - Level A"), ("aria-roles", "4.1.2 - Level A"),
   ("aria-valid-attr", "4.1.2 - Level A"), ("aria-valid-attr-value", "4.1.2 - Level A"),
   ("button-name", "4.1.2 - Level A"), ("bypass", "2.4.1 - Level A"),
   ("color-contrast", "1.4.3 - Level AA"), ("document-title", "2.4.2 - Level A"),
   ("duplicate-id-active", "4.1.1 - Level A"), ("duplicate-id-aria", "4.1.1 - Level A"),
   ("form-field-multiple-labels", "3.3.2 - Level A"), ("frame-title", "4.1.2 - Level A"),
   ("heading-order", "1.3.1 - Level A"), ("html-has-lang", "3.1.1 - Level A"),
   ("html-lang-valid", "3.1.1 - Level A"), ("image-alt", "1.1.1 - Level A"),
   ("input-image-alt", "1.1.1 - Level A"), ("label", "1.3.1 - Level A"),
   ("landmark-one-main", "1.3.6 - Level AAA"), ("link-name", "4.1.2 - Level A"),
   ("list", "1.3.1 - Level A"), ("listitem", "1.3.1 - Level A"),
   ("meta-refresh", "2.2.1 - Level A"), ("meta-viewport", "1.4.4 - Level AA"),
   ("object-alt", "1.1.1 - Level A"), ("tabindex", "2.4.3 - Level A"),
   ("td-headers-attr", "1.3.1 - Level A"), ("th-has-data-cells", "1.3.1 - Level A"),
   ("valid-lang", "3.1.2 - Level AA")]

/-- `getWCAGCriteria(auditId)`. -/
def getWCAGCriteria (auditId : String) : String :=
  (wcagMapping.lookup auditId).getD "General - Level A"

/-- `getImpactLevel(score)`.  (The thresholds are the numbers the source
compares with; the same numbers are used where audits are selected.) -/
def getImpactLevel (score : Option ℚ) : String :=
  match score with
  | none => "Unknown"
  | some s => if s < 1 / 2 then "Critical" else if s < 9 / 10 then "Moderate" else "Minor"

/-- `processAudit(audit, category, htmlContent)`; of each element only its
identifier is kept, the line numbers found in the HTML are left out. -/
def processAudit (audit : LhAudit) (category : String) : Issue :=
  { type := audit.title
    category := category
    description := audit.description
    impact := getImpactLevel audit.score
    suggestion := audit.description
    wcagCriteria := getWCAGCriteria audit.id
    elements := audit.items.getD [] }

/-- One `forEach` of `extractIssues`: the issue of every listed audit that is
present with a score that is not `null` and below `threshold`. -/
def auditIssues (lhr : Lhr) (auditIds : List String) (threshold : ℚ) (category : String) :
    List Issue :=
  auditIds.filterMap fun auditId =>
    match lhr.audits auditId with
    | none => none
    | some audit =>
      match audit.score with
      | none => none
      | some s => if s < threshold then some (processAudit audit category) else none

/-- `extractIssues(lhr, htmlContent)`. -/
def extractIssues (lhr : Lhr) : List Issue :=
  auditIssues lhr accessibilityAudits 1 "Accessibility" ++
    auditIssues lhr performanceAudits (9 / 10) "Performance" ++
    auditIssues lhr seoAudits 1 "SEO"

/-- The result object `runAudit` builds (runAudit.js, lines 88-96) from the
scores and the issues. -/
def resultOf (url : String) (scores : Scores) (issues : List Issue) (timestamp : String) :
    PageAuditResult :=
  { url := url
    scores := scores
    performance := issues.filter fun issue => issue.category = "Performance"
    accessibility := issues.filter fun issue => issue.category = "Accessibility"
    seo := issues.filter fun issue => issue.category = "SEO"
    timestamp := timestamp
    totalIssues := issues.length }

/-- A speed-index audit with score 0.3. -/
def slowAudit : LhAudit :=
  ⟨"speed-index", "Speed Index", "How quickly content is shown.", some (3 / 10), none⟩

/-- A Lighthouse result with a slow speed index, a failed image-alt audit and
a passed title audit. -/
def sampleLhr : Lhr where
  audits id :=
    if id = "speed-index" then some slowAudit
    else if id = "image-alt" then
      some ⟨"image-alt", "Images lack alt text", "Add alt attributes.", some 0,
        some ["img.hero"]⟩
    else if id = "document-title" then
      some ⟨"document-title", "Document has a title", "Titles help users.", some 1, none⟩
    else none

/-! ## The report cache (audit.controller.js, lines 10, 57-63 and 178) -/

/-- The `Map` `auditCache`: report ids with their reports, in insertion
order. -/
abbrev AuditCache (α : Type) := List (String × α)

/-- `auditCache.set(key, value)`: a key that is present keeps its place and
gets the new value, a new key goes to the end. -/
def cacheSet {α : Type} (cache : AuditCache α) (key : String) (value : α) : AuditCache α :=
  if cache.any (fun entry => entry.1 = key) then
    cache.map fun entry => if entry.1 = key then (key, value) else entry
  else cache ++ [(key, value)]

/-- `auditCache.delete(auditCache.keys().next().value)`: drop the entry
inserted earliest. -/
def cacheDeleteFirst {α : Type} (cache : AuditCache α) : AuditCache α :=
  cache.tail

/-- What `singlePageAudit` does to the cache (lines 57-63): store, then evict
the oldest entry if there are more than 50. -/
def singlePageAuditStore {α : Type} (cache : AuditCache α) (auditId : String)
    (auditResult : α) : AuditCache α :=
  if (cacheSet cache auditId auditResult).length > 50 then
    cacheDeleteFirst (cacheSet cache auditId auditResult)
  else cacheSet cache auditId auditResult

/-- What `multiPageAudit` does to the cache (line 178): store. -/
def multiPageAuditStore {α : Type} (cache : AuditCache α) (auditId : String)
    (auditResult : α) : AuditCache α :=
  cacheSet cache auditId auditResult

/-- Fifty-one different report ids. -/
def reportIds : List String :=
  (List.range 51).map fun i => String.mk ('r' :: List.replicate i 'x')

/-! ## Link distance -/

/-- The link graph of a deterministic extractor: the links that
`extractLinksFromPage` returns for a page. -/
def linkGraph (lib : UrlLib) (net : Network) (baseDomain : String) (url : String) :
    List String :=
  extractLinksFromPage lib (net 0 url) url baseDomain

/-- The URL can be reached from the seed by following at most `k` links. -/
def WithinLinks (edges : String → List String) (seed : String) : Nat → String → Prop
  | 0, url => url = seed
  | k + 1, url =>
    WithinLinks edges seed k url ∨ ∃ w, WithinLinks edges seed k w ∧ url ∈ edges w

/-- The link distance of `url` from the seed is `d`: `d` links are enough and
fewer are not. -/
def IsLinkDistance (edges : String → List String) (seed url : String) (d : Nat) : Prop :=
  WithinLinks edges seed d url ∧ ∀ k, WithinLinks edges seed k url → d ≤ k

/-- The URL `x` is at most as far from the seed as `y`. -/
def NotFarther (edges : String → List String) (seed x y : String) : Prop :=
  ∀ k, WithinLinks edges seed k y → WithinLinks edges seed k x

/-- The breadth-first invariant of the crawl: the history
`discoveredUrls ++ urlsToVisit` starts from the seed, is ordered by distance,
holds only reachable URLs, every URL outside it is at least as far as every
URL in it, and all links of discovered pages are in it. -/
def BfsInv (edges : String → List String) (seed : String) (st : CrawlState) : Prop :=
  CrawlInv st ∧ seed ∈ st.discoveredUrls ++ st.urlsToVisit ∧
    (st.discoveredUrls ++ st.urlsToVisit).Pairwise (NotFarther edges seed) ∧
    (∀ n, n ∉ st.discoveredUrls ++ st.urlsToVisit →
      ∀ x ∈ st.discoveredUrls ++ st.urlsToVisit, NotFarther edges seed x n) ∧
    (∀ w ∈ st.discoveredUrls, ∀ n ∈ edges w, n ∈ st.discoveredUrls ++ st.urlsToVisit) ∧
    (∀ x ∈ st.discoveredUrls ++ st.urlsToVisit, ∃ k, WithinLinks edges seed k x)

/-! ## The crawl loop: general facts -/

/-- A loop result stays the same when one more unit of fuel is given. -/
theorem crawlLoop_succ (lib : UrlLib) (net : Network) (base : String) (N : ℚ) :
    ∀ (fuel : Nat) (st : CrawlState) (r : List String),
      crawlLoop lib net base N fuel st = some r →
      crawlLoop lib net base N (fuel + 1) st = some r := by
  intro fuel
  induction fuel with
  | zero =>
    intro st r h
    obtain ⟨v, q, d⟩ := st
    cases q with
    | nil => simpa [crawlLoop] using h
    | cons c rest =>
      by_cases hc : (d.length : ℚ) < N
      · simp [crawlLoop, hc] at h
      · simpa [crawlLoop, hc] using h
  | succ n ih =>
    intro st r h
    obtain ⟨v, q, d⟩ := st
    cases q with
    | nil => simpa [crawlLoop] using h
    | cons c rest =>
      by_cases hc : (d.length : ℚ) < N
      · by_cases hv : c ∈ v
        · rw [crawlLoop] at h ⊢
          simp only [hc, hv, if_true] at h ⊢
          exact ih _ _ h
        · rw [crawlLoop] at h ⊢
          simp only [hc, hv, if_true, if_false] at h ⊢
          exact ih _ _ h
      · rw [crawlLoop] at h ⊢
        simpa [hc] using h

/-- A loop result stays the same under any amount of extra fuel. -/
theorem crawlLoop_add (lib : UrlLib) (net : Network) (base : String) (N : ℚ)
    (fuel : Nat) (st : CrawlState) (r : List String)
    (h : crawlLoop lib net base N fuel st = some r) (k : Nat) :
    crawlLoop lib net base N (fuel + k) st = some r := by
  induction k with
  | zero => simpa using h
  | succ k ih => exact crawlLoop_succ lib net base N (fuel + k) st r ih

/-- The result of the loop does not depend on the fuel that was enough. -/
theorem crawlLoop_fuel_irrelevant (lib : UrlLib) (net : Network) (base : String) (N : ℚ)
    (f₁ f₂ : Nat) (st : CrawlState) (r₁ r₂ : List String)
    (h₁ : crawlLoop lib net base N f₁ st = some r₁)
    (h₂ : crawlLoop lib net base N f₂ st = some r₂) : r₁ = r₂ := by
  have e₁ := crawlLoop_add lib net base N f₁ st r₁ h₁ f₂
  have e₂ := crawlLoop_add lib net base N f₂ st r₂ h₂ f₁
  rw [Nat.add_comm] at e₂
  rw [e₁] at e₂
  exact Option.some.inj e₂

/-- The loop test `discoveredUrls.length < maxPages` against a fractional
`maxPages` is the test against `maxPages` rounded up. -/
theorem length_lt_iff_lt_ceil (n : Nat) (N : ℚ) : (n : ℚ) < N ↔ (n : Int) < ⌈N⌉ := by
  rw [Int.lt_ceil]
  norm_cast

/-- The loop ends: from every state some amount of fuel gives a result. -/
theorem crawlLoop_terminates (lib : UrlLib) (net : Network) (base : String) (N : ℚ) :
    ∀ st : CrawlState, ∃ fuel r, crawlLoop lib net base N fuel st = some r := by
  have key : ∀ (m : Nat) (q v d : List String), (⌈N⌉ - d.length).toNat ≤ m →
      ∃ fuel r, crawlLoop lib net base N fuel ⟨v, q, d⟩ = some r := by
    intro m
    induction m with
    | zero =>
      intro q v d hm
      refine ⟨0, d, ?_⟩
      have hc : ¬ (d.length : ℚ) < N := by
        rw [length_lt_iff_lt_ceil]; omega
      cases q with
      | nil => simp [crawlLoop]
      | cons c rest => simp [crawlLoop, hc]
    | succ m ihm =>
      intro q
      induction q with
      | nil => intro v d _; exact ⟨0, d, by simp [crawlLoop]⟩
      | cons c rest ihq =>
        intro v d hm
        by_cases hc : (d.length : ℚ) < N
        · by_cases hv : c ∈ v
          · obtain ⟨fuel, r, hr⟩ := ihq v d hm
            refine ⟨fuel + 1, r, ?_⟩
            rw [crawlLoop]
            simpa only [hc, hv, if_true] using hr
          · obtain ⟨fuel, r, hr⟩ := ihm
              (enqueueLinks (c :: v) rest
                (extractLinksFromPage lib (net d.length c) c base))
              (c :: v) (d ++ [c]) (by
                have hc' := (length_lt_iff_lt_ceil d.length N).mp hc
                simp only [List.length_append, List.length_singleton]; push_cast; omega)
            refine ⟨fuel + 1, r, ?_⟩
            rw [crawlLoop]
            simpa only [hc, hv, if_true, if_false] using hr
        · exact ⟨0, d, by simp [crawlLoop, hc]⟩
  intro st
  obtain ⟨v, q, d⟩ := st
  exact key _ q v d le_rfl

/-- A valid seed makes `crawlWebsite` return, given enough fuel. -/
theorem crawlWebsite_returns (lib : UrlLib) (net : Network) (seed : String) (N : ℚ)
    (hseed : (lib.parse seed).isSome = true) :
    ∃ fuel urls, crawlWebsite lib net fuel seed N = Outcome.returned urls := by
  obtain ⟨b, hb⟩ := Option.isSome_iff_exists.mp hseed
  obtain ⟨fuel, r, hr⟩ := crawlLoop_terminates lib net (lib.hostname b) N ⟨[], [seed], []⟩
  exact ⟨fuel, r, by simp [crawlWebsite, hb, hr]⟩

/-- What `crawlWebsite` returns is the loop's result from the initial state. -/
theorem crawlWebsite_returned_iff (lib : UrlLib) (net : Network) (fuel : Nat)
    (seed : String) (N : ℚ) (urls : List String) :
    crawlWebsite lib net fuel seed N = Outcome.returned urls ↔
      ∃ b, lib.parse seed = some b ∧
        crawlLoop lib net (lib.hostname b) N fuel ⟨[], [seed], []⟩ = some urls := by
  unfold crawlWebsite
  cases hp : lib.parse seed with
  | none => simp
  | some b =>
    cases hl : crawlLoop lib net (lib.hostname b) N fuel ⟨[], [seed], []⟩ with
    | none => simp [hl]
    | some r => simp [hl]

/-- A returned crawl stays the same under any amount of extra fuel. -/
theorem crawlWebsite_add (lib : UrlLib) (net : Network) (fuel : Nat) (seed : String)
    (N : ℚ) (urls : List String)
    (h : crawlWebsite lib net fuel seed N = Outcome.returned urls) (k : Nat) :
    crawlWebsite lib net (fuel + k) seed N = Outcome.returned urls := by
  obtain ⟨b, hb, hl⟩ := (crawlWebsite_returned_iff lib net fuel seed N urls).mp h
  exact (crawlWebsite_returned_iff lib net (fuel + k) seed N urls).mpr
    ⟨b, hb, crawlLoop_add lib net (lib.hostname b) N fuel _ urls hl k⟩

/-- The discovered list only grows: the loop's result extends it. -/
theorem crawlLoop_extends (lib : UrlLib) (net : Network) (base : String) (N : ℚ) :
    ∀ (fuel : Nat) (st : CrawlState) (r : List String),
      crawlLoop lib net base N fuel st = some r → st.discoveredUrls <+: r := by
  intro fuel
  induction fuel with
  | zero =>
    intro st r h
    obtain ⟨v, q, d⟩ := st
    cases q with
    | nil => simp [crawlLoop] at h; subst h; exact List.prefix_refl _
    | cons c rest =>
      by_cases hc : (d.length : ℚ) < N
      · simp [crawlLoop, hc] at h
      · simp [crawlLoop, hc] at h; subst h; exact List.prefix_refl _
  | succ n ih =>
    intro st r h
    obtain ⟨v, q, d⟩ := st
    cases q with
    | nil => simp [crawlLoop] at h; subst h; exact List.prefix_refl _
    | cons c rest =>
      by_cases hc : (d.length : ℚ) < N
      · by_cases hv : c ∈ v
        · rw [crawlLoop] at h
          simp only [hc, hv, if_true] at h
          exact ih ⟨v, rest, d⟩ r h
        · rw [crawlLoop] at h
          simp only [hc, hv, if_true, if_false] at h
          exact (List.prefix_append d [c]).trans (ih ⟨_, _, d ++ [c]⟩ r h)
      · rw [crawlLoop] at h
        simp [hc] at h; subst h; exact List.prefix_refl _

/-- The loop never lets the discovered list grow past `maxPages` rounded up. -/
theorem crawlLoop_length_le (lib : UrlLib) (net : Network) (base : String) (N : ℚ) :
    ∀ (fuel : Nat) (st : CrawlState) (r : List String),
      crawlLoop lib net base N fuel st = some r →
      (st.discoveredUrls.length : Int) ≤ ⌈N⌉ → (r.length : Int) ≤ ⌈N⌉ := by
  intro fuel
  induction fuel with
  | zero =>
    intro st r h hd
    obtain ⟨v, q, d⟩ := st
    cases q with
    | nil => simp [crawlLoop] at h; subst h; exact hd
    | cons c rest =>
      by_cases hc : (d.length : ℚ) < N
      · simp [crawlLoop, hc] at h
      · simp [crawlLoop, hc] at h; subst h; exact hd
  | succ n ih =>
    intro st r h hd
    obtain ⟨v, q, d⟩ := st
    cases q with
    | nil => simp [crawlLoop] at h; subst h; exact hd
    | cons c rest =>
      by_cases hc : (d.length : ℚ) < N
      · by_cases hv : c ∈ v
        · rw [crawlLoop] at h
          simp only [hc, hv, if_true] at h
          exact ih ⟨v, rest, d⟩ r h hd
        · rw [crawlLoop] at h
          simp only [hc, hv, if_true, if_false] at h
          refine ih ⟨_, _, d ++ [c]⟩ r h ?_
          have hc' := (length_lt_iff_lt_ceil d.length N).mp hc
          simp only [List.length_append, List.length_singleton]
          push_cast
          omega
      · rw [crawlLoop] at h
        simp [hc] at h; subst h; exact hd

/-! ## What the link extractor and the queue can contain -/

/-- One anchor adds at most its own clean link. -/
theorem linkStep_mem (lib : UrlLib) (url base : String) (links : List String)
    (href s : String) (h : s ∈ linkStep lib url base links href) :
    s ∈ links ∨ IsCleanLink lib url base s := by
  unfold linkStep at h
  by_cases he : href = ""
  · simp [he] at h; exact Or.inl h
  · simp only [he, if_false] at h
    cases hr : lib.resolve href url with
    | none => simp [hr] at h; exact Or.inl h
    | some u =>
      simp only [hr] at h
      split_ifs at h with h1 h2
      · rcases List.mem_append.mp h with h | h
        · exact Or.inl h
        · rw [List.mem_singleton] at h
          exact Or.inr ⟨href, u, he, hr, h1.1, h1.2, h, by rw [h]; exact h2.2⟩
      · exact Or.inl h
      · exact Or.inl h

/-- Folding the anchors only adds clean links. -/
theorem foldl_linkStep_mem (lib : UrlLib) (url base : String) (hrefs : List String) :
    ∀ (links : List String) (s : String),
      s ∈ hrefs.foldl (linkStep lib url base) links →
      s ∈ links ∨ IsCleanLink lib url base s := by
  induction hrefs with
  | nil => intro links s h; exact Or.inl h
  | cons a t ih =>
    intro links s h
    rw [List.foldl_cons] at h
    rcases ih _ s h with h | h
    · exact linkStep_mem lib url base links a s h
    · exact Or.inr h

/-- Every link returned by `extractLinksFromPage` is a clean link of the page. -/
theorem extractLinksFromPage_mem (lib : UrlLib) (fetched : Option Response)
    (url base s : String) (h : s ∈ extractLinksFromPage lib fetched url base) :
    IsCleanLink lib url base s := by
  unfold extractLinksFromPage at h
  cases fetched with
  | none => simp at h
  | some response =>
    simp only at h
    split_ifs at h with hc
    · simp at h
    · rcases foldl_linkStep_mem lib url base _ _ s h with h | h
      · simp at h
      · exact h

/-- The queue after `enqueueLinks` holds old entries and links only. -/
theorem enqueueLinks_mem (visited : List String) (links : List String) :
    ∀ (queue : List String) (s : String),
      s ∈ enqueueLinks visited queue links → s ∈ queue ∨ s ∈ links := by
  induction links with
  | nil => intro queue s h; exact Or.inl h
  | cons a t ih =>
    intro queue s h
    unfold enqueueLinks at h
    rw [List.foldl_cons] at h
    rcases ih _ s h with h | h
    · split_ifs at h with hc
      · rcases List.mem_append.mp h with h | h
        · exact Or.inl h
        · rw [List.mem_singleton] at h
          exact Or.inr (h ▸ List.mem_cons_self _ _)
      · exact Or.inl h
    · exact Or.inr (List.mem_cons_of_mem _ h)

/-- A property of every clean link that also holds of everything queued and
discovered so far holds of every URL the loop returns. -/
theorem crawlLoop_forall (lib : UrlLib) (net : Network) (base : String) (N : ℚ)
    (P : String → Prop) (hP : ∀ url s, IsCleanLink lib url base s → P s) :
    ∀ (fuel : Nat) (st : CrawlState) (r : List String),
      crawlLoop lib net base N fuel st = some r →
      (∀ s ∈ st.urlsToVisit, P s) → (∀ s ∈ st.discoveredUrls, P s) →
      ∀ s ∈ r, P s := by
  intro fuel
  induction fuel with
  | zero =>
    intro st r h _ hd
    obtain ⟨v, q, d⟩ := st
    cases q with
    | nil => simp [crawlLoop] at h; subst h; exact hd
    | cons c rest =>
      by_cases hc : (d.length : ℚ) < N
      · simp [crawlLoop, hc] at h
      · simp [crawlLoop, hc] at h; subst h; exact hd
  | succ n ih =>
    intro st r h hq hd
    obtain ⟨v, q, d⟩ := st
    cases q with
    | nil => simp [crawlLoop] at h; subst h; exact hd
    | cons c rest =>
      by_cases hc : (d.length : ℚ) < N
      · by_cases hv : c ∈ v
        · rw [crawlLoop] at h
          simp only [hc, hv, if_true] at h
          exact ih ⟨v, rest, d⟩ r h (fun s hs => hq s (List.mem_cons_of_mem _ hs)) hd
        · rw [crawlLoop] at h
          simp only [hc, hv, if_true, if_false] at h
          refine ih ⟨_, _, d ++ [c]⟩ r h ?_ ?_
          · intro s hs
            rcases enqueueLinks_mem _ _ _ s hs with hs | hs
            · exact hq s (List.mem_cons_of_mem _ hs)
            · exact hP c s (extractLinksFromPage_mem lib _ c base s hs)
          · intro s hs
            rcases List.mem_append.mp hs with hs | hs
            · exact hd s hs
            · rw [List.mem_singleton] at hs
              exact hs ▸ hq c (List.mem_cons_self _ _)
      · rw [crawlLoop] at h
        simp [hc] at h; subst h; exact hd

/-- Every URL `crawlWebsite` returns is the seed string or a clean link of
some crawled page, for the seed's hostname. -/
theorem crawlWebsite_mem (lib : UrlLib) (net : Network) (fuel : Nat) (seed : String)
    (N : ℚ) (urls : List String)
    (h : crawlWebsite lib net fuel seed N = Outcome.returned urls) :
    ∃ b, lib.parse seed = some b ∧
      ∀ s ∈ urls, s = seed ∨ ∃ url, IsCleanLink lib url (lib.hostname b) s := by
  obtain ⟨b, hb, hl⟩ := (crawlWebsite_returned_iff lib net fuel seed N urls).mp h
  refine ⟨b, hb, ?_⟩
  refine crawlLoop_forall lib net (lib.hostname b) N
    (fun s => s = seed ∨ ∃ url, IsCleanLink lib url (lib.hostname b) s)
    (fun url s hs => Or.inr ⟨url, hs⟩) fuel _ urls hl ?_ ?_
  · intro s hs
    simp only [List.mem_singleton] at hs
    exact Or.inl hs
  · intro s hs
    simp at hs

/-- The loop keeps the discovered list free of repeated strings, as long as
the visited set holds exactly the discovered URLs. -/
theorem crawlLoop_nodup (lib : UrlLib) (net : Network) (base : String) (N : ℚ) :
    ∀ (fuel : Nat) (st : CrawlState) (r : List String),
      crawlLoop lib net base N fuel st = some r →
      (∀ s, s ∈ st.visitedUrls ↔ s ∈ st.discoveredUrls) → st.discoveredUrls.Nodup →
      r.Nodup := by
  intro fuel
  induction fuel with
  | zero =>
    intro st r h _ hd
    obtain ⟨v, q, d⟩ := st
    cases q with
    | nil => simp [crawlLoop] at h; subst h; exact hd
    | cons c rest =>
      by_cases hc : (d.length : ℚ) < N
      · simp [crawlLoop, hc] at h
      · simp [crawlLoop, hc] at h; subst h; exact hd
  | succ n ih =>
    intro st r h hvd hd
    obtain ⟨v, q, d⟩ := st
    cases q with
    | nil => simp [crawlLoop] at h; subst h; exact hd
    | cons c rest =>
      by_cases hc : (d.length : ℚ) < N
      · by_cases hv : c ∈ v
        · rw [crawlLoop] at h
          simp only [hc, hv, if_true] at h
          exact ih ⟨v, rest, d⟩ r h hvd hd
        · rw [crawlLoop] at h
          simp only [hc, hv, if_true, if_false] at h
          refine ih ⟨_, _, d ++ [c]⟩ r h ?_ ?_
          · intro s
            simp only [List.mem_cons, List.mem_append, List.mem_singleton]
            rw [hvd s]
            tauto
          · have hcd : c ∉ d := fun hcd => hv ((hvd c).mpr hcd)
            exact List.nodup_append.mpr ⟨hd, List.nodup_singleton c, by
              intro x hx hx'
              rw [List.mem_singleton] at hx'
              exact hcd (hx' ▸ hx)⟩
      · rw [crawlLoop] at h
        simp [hc] at h; subst h; exact hd

/-- The list `crawlWebsite` returns has no repeated string. -/
theorem crawlWebsite_nodup (lib : UrlLib) (net : Network) (fuel : Nat) (seed : String)
    (N : ℚ) (urls : List String)
    (h : crawlWebsite lib net fuel seed N = Outcome.returned urls) : urls.Nodup := by
  obtain ⟨b, _, hl⟩ := (crawlWebsite_returned_iff lib net fuel seed N urls).mp h
  exact crawlLoop_nodup lib net (lib.hostname b) N fuel _ urls hl (by simp) (by simp)

/-- An unreachable seed is still discovered: with `maxPages ≥ 1` and any fuel
for one iteration, the crawl returns the one-element list `[seed]`. -/
theorem crawlWebsite_unreachable_seed (lib : UrlLib) (net : Network) (fuel : Nat)
    (seed : String) (N : ℚ) (hseed : (lib.parse seed).isSome = true) (hN : 1 ≤ N)
    (hdead : net 0 seed = none) :
    crawlWebsite lib net (fuel + 1) seed N = Outcome.returned [seed] := by
  obtain ⟨b, hb⟩ := Option.isSome_iff_exists.mp hseed
  rw [crawlWebsite_returned_iff]
  refine ⟨b, hb, ?_⟩
  have hc : ((([] : List String).length : Nat) : ℚ) < N := by
    simp only [List.length_nil]; push_cast; linarith
  rw [crawlLoop]
  simp only [hc, List.not_mem_nil, if_true, if_false, List.nil_append, List.length_nil, hdead,
    extractLinksFromPage, enqueueLinks, List.foldl_nil]
  have h0 : ((0 : Nat) : ℚ) < N := by push_cast; linarith
  cases fuel <;> simp only [crawlLoop, h0, if_true]

/-! ## The crawl contract -/

/-- A fractional `maxPages` runs the loop exactly as `maxPages` rounded up
does. -/
theorem crawlLoop_ceil (lib : UrlLib) (net : Network) (base : String) (N : ℚ) :
    ∀ (fuel : Nat) (st : CrawlState),
      crawlLoop lib net base N fuel st = crawlLoop lib net base (⌈N⌉ : ℚ) fuel st := by
  have key : ∀ n : Nat, ((n : ℚ) < N) = ((n : ℚ) < ((⌈N⌉ : Int) : ℚ)) := by
    intro n
    apply propext
    rw [length_lt_iff_lt_ceil]
    norm_cast
  intro fuel
  induction fuel with
  | zero =>
    intro st
    obtain ⟨v, q, d⟩ := st
    cases q with
    | nil => simp [crawlLoop]
    | cons c rest => simp only [crawlLoop, key]
  | succ n ih =>
    intro st
    obtain ⟨v, q, d⟩ := st
    cases q with
    | nil => simp [crawlLoop]
    | cons c rest => simp only [crawlLoop, key, ih]

/-- A fractional `maxPages` gives the crawl of `maxPages` rounded up. -/
theorem crawlWebsite_ceil (lib : UrlLib) (net : Network) (fuel : Nat) (seed : String)
    (N : ℚ) :
    crawlWebsite lib net fuel seed N = crawlWebsite lib net fuel seed (⌈N⌉ : ℚ) := by
  simp only [crawlWebsite]
  cases lib.parse seed with
  | none => rfl
  | some b => simp only [crawlLoop_ceil lib net (lib.hostname b) N]

/-- For every `maxPages = N ≥ 0`, a returned list has at most `N` rounded up
URLs. -/
theorem crawlWebsite_length_le_ceil (lib : UrlLib) (net : Network) (fuel : Nat)
    (seed : String) (N : ℚ) (hN : 0 ≤ N) (urls : List String)
    (h : crawlWebsite lib net fuel seed N = Outcome.returned urls) :
    (urls.length : Int) ≤ ⌈N⌉ := by
  obtain ⟨b, _, hl⟩ := (crawlWebsite_returned_iff lib net fuel seed N urls).mp h
  exact crawlLoop_length_le lib net (lib.hostname b) N fuel _ urls hl
    (by simp only [List.length_nil]; push_cast; exact Int.ceil_nonneg hN)

/-- For every integer `maxPages = n ≥ 0`, a returned list has at most `n`
URLs; and for a seed that parses, the call does return a list. -/
theorem crawlWebsite_length_le_integer (lib : UrlLib) (net : Network) (seed : String)
    (n : Int) (hn : 0 ≤ n) :
    (∀ fuel urls, crawlWebsite lib net fuel seed (n : ℚ) = Outcome.returned urls →
        (urls.length : Int) ≤ n) ∧
    ((lib.parse seed).isSome = true →
        ∃ fuel urls, crawlWebsite lib net fuel seed (n : ℚ) = Outcome.returned urls) := by
  refine ⟨?_, crawlWebsite_returns lib net seed n⟩
  intro fuel urls h
  have := crawlWebsite_length_le_ceil lib net fuel seed n (by exact_mod_cast hn) urls h
  rwa [Int.ceil_intCast] at this

/-- The number 1.5 rounded up is 2. -/
theorem ceil_three_halves : ⌈(3 / 2 : ℚ)⌉ = 2 := by
  rw [Int.ceil_eq_iff]; norm_num

/-- C1, evaluation at the failing input: with `maxPages = 1.5`, a value of
`N ≥ 1`, the crawl of scenario A returns two URLs, more than `maxPages`. -/
theorem crawlWebsite_length_exceeds_fractional_maxPages :
    (1 : ℚ) ≤ 3 / 2 ∧
    crawlWebsite urlLite scenarioANet 2 "https://example.com" (3 / 2) =
      Outcome.returned ["https://example.com", "https://example.com/a"] ∧
    (3 / 2 : ℚ) <
      ((["https://example.com", "https://example.com/a"] : List String).length : ℚ) := by
  refine ⟨by norm_num, ?_, by norm_num⟩
  rw [crawlWebsite_ceil, ceil_three_halves]
  decide

/-- C2: for every valid seed and `maxPages = N ≥ 1`, whatever the network
answers, `crawlWebsite(seed, N)` returns, and every list it returns is
non-empty with the seed string itself as first element. -/
theorem crawlWebsite_seed_first (lib : UrlLib) (net : Network) (seed : String) (N : ℚ)
    (hseed : (lib.parse seed).isSome = true) (hN : 1 ≤ N) :
    (∃ fuel urls, crawlWebsite lib net fuel seed N = Outcome.returned urls) ∧
    (∀ fuel urls, crawlWebsite lib net fuel seed N = Outcome.returned urls →
        urls ≠ [] ∧ urls.head? = some seed) := by
  refine ⟨crawlWebsite_returns lib net seed N hseed, ?_⟩
  intro fuel urls h
  obtain ⟨b, _, hl⟩ := (crawlWebsite_returned_iff lib net fuel seed N urls).mp h
  have hc : ((([] : List String).length : Nat) : ℚ) < N := by
    simp only [List.length_nil]; push_cast; linarith
  cases fuel with
  | zero =>
    simp [crawlLoop] at hl
    linarith
  | succ n =>
    rw [crawlLoop] at hl
    simp only [hc, List.not_mem_nil, if_true, if_false, List.nil_append] at hl
    obtain ⟨t, ht⟩ := crawlLoop_extends lib net (lib.hostname b) N n _ urls hl
    simp only [List.singleton_append] at ht
    subst ht
    simp

/-- Witness of C2: scenario A, whose seed parses, with `maxPages = 10`. -/
theorem crawlWebsite_seed_first_witness :
    (urlLite.parse "https://example.com").isSome = true ∧ (1 : ℚ) ≤ 10 ∧
    crawlWebsite urlLite scenarioANet 4 "https://example.com" 10 =
      Outcome.returned scenarioAUrls ∧
    scenarioAUrls.head? = some "https://example.com" :=
  ⟨by decide, by decide, by decide,
    ((crawlWebsite_seed_first urlLite scenarioANet "https://example.com" 10
      (by decide) (by decide)).2 4 scenarioAUrls (by decide)).2⟩

/-! ## `urlLite` re-parses what it prints -/

/-- Splitting at the first character that fails `p`. -/
theorem span_append_stop {p : Char → Bool} (l₁ l₂ : List Char)
    (h₁ : ∀ c ∈ l₁, p c = true) (h₂ : ∀ c, l₂.head? = some c → p c = false) :
    (l₁ ++ l₂).takeWhile p = l₁ ∧ (l₁ ++ l₂).dropWhile p = l₂ := by
  induction l₁ with
  | nil =>
    cases l₂ with
    | nil => simp
    | cons c t =>
      have hc := h₂ c rfl
      simp [List.takeWhile, List.dropWhile, hc]
  | cons a t ih =>
    have ha := h₁ a (List.mem_cons_self _ _)
    have := ih (fun c hc => h₁ c (List.mem_cons_of_mem _ hc))
    simp [List.takeWhile, List.dropWhile, ha, this.1, this.2]

/-- Stripping a front that is there. -/
theorem stripFront_append (pre rest : List Char) :
    stripFront pre (pre ++ rest) = some rest := by
  induction pre with
  | nil => cases rest <;> rfl
  | cons a t ih => simp [stripFront, ih]

/-- Parsing after the scheme gives a well-formed URL with that scheme. -/
theorem parseAfterScheme_wellFormed (scheme cs : List Char) (u : LiteUrl)
    (h : parseAfterScheme scheme cs = some u) :
    u.scheme = scheme ∧ u.host ≠ [] ∧ (∀ c ∈ u.host, hostChar c = true) ∧
      tailOk u.path u.query u.fragment = true := by
  unfold parseAfterScheme at h
  simp only at h
  split_ifs at h with hc
  simp only [Option.some.injEq] at h
  subst h
  simp only [Bool.and_eq_true, Bool.not_eq_true', List.isEmpty_eq_false] at hc
  refine ⟨rfl, ?_, fun c hcm => List.mem_takeWhile_imp hcm, hc.2⟩
  intro hn
  simp only at hn
  rw [hn] at hc
  simp at hc

/-- Whatever `new URL(s)` gives is well formed. -/
theorem LiteUrl.parse_wellFormed (s : String) (u : LiteUrl)
    (h : LiteUrl.parse s = some u) : u.WellFormed := by
  unfold LiteUrl.parse at h
  cases h₁ : stripFront "https://".data s.data with
  | some cs =>
    simp only [h₁] at h
    obtain ⟨a, b, c, d⟩ := parseAfterScheme_wellFormed _ _ _ h
    exact ⟨Or.inl a, b, c, d⟩
  | none =>
    simp only [h₁] at h
    cases h₂ : stripFront "http://".data s.data with
    | some cs =>
      simp only [h₂] at h
      obtain ⟨a, b, c, d⟩ := parseAfterScheme_wellFormed _ _ _ h
      exact ⟨Or.inr a, b, c, d⟩
    | none => simp [h₂] at h

/-- The pieces of `tailOk`. -/
theorem tailOk_iff (path : List Char) (query fragment : Option (List Char)) :
    tailOk path query fragment = true ↔
      (path.head? = some '/' ∧ (∀ c ∈ path, pathChar c = true) ∧
        includesChars ['/', '.'] path = false) ∧
      (∀ c ∈ query.getD [], tailChar c = true) ∧
      (∀ c ∈ fragment.getD [], tailChar c = true) := by
  simp only [tailOk, Bool.and_eq_true, List.all_eq_true, Bool.not_eq_true', beq_iff_eq]
  tauto

/-- Whatever `new URL(href, base)` gives is well formed. -/
theorem LiteUrl.resolve_wellFormed (href base : String) (u : LiteUrl)
    (h : LiteUrl.resolve href base = some u) : u.WellFormed := by
  unfold LiteUrl.resolve at h
  cases h₂ : LiteUrl.parse base with
  | none => simp [h₂] at h
  | some b =>
    simp only [h₂] at h
    cases h₁ : LiteUrl.parse href with
    | some v =>
      simp only [h₁, Option.some.injEq] at h
      exact h ▸ LiteUrl.parse_wellFormed href v h₁
    | none =>
      obtain ⟨hs, hh, hc, ht⟩ := LiteUrl.parse_wellFormed base b h₂
      simp only [h₁, resolveRelative] at h
      split_ifs at h with h₃ hok h₄ hok
      · simp only [Option.some.injEq] at h
        subst h
        simp only [Bool.and_eq_true] at hok
        exact ⟨hs, hh, hc, hok.2⟩
      · simp only [Option.some.injEq] at h
        subst h
        refine ⟨hs, hh, hc, ?_⟩
        rw [tailOk_iff] at ht ⊢
        exact ⟨ht.1, ht.2.1, by simpa [List.all_eq_true] using hok⟩

/-- A well-formed URL with its fragment cleared prints to a string that
parses back to it. -/
theorem LiteUrl.parse_href_clearHash (u : LiteUrl) (h : u.WellFormed) :
    LiteUrl.parse (LiteUrl.href { u with fragment := none }) =
      some { u with fragment := none } := by
  obtain ⟨hs, hh, hc, ht⟩ := h
  obtain ⟨sch, host, path, query, fragment⟩ := u
  simp only at hs hh hc ht
  rw [tailOk_iff] at ht
  obtain ⟨⟨hp₁, hp₂, hp₃⟩, hq, _⟩ := ht
  obtain ⟨ptail, rfl⟩ := List.head?_eq_some_iff.mp hp₁
  -- what follows the host, and how it splits
  have hsplit : ∀ q : Option (List Char), (∀ c ∈ q.getD [], tailChar c = true) →
      splitTail (('/' :: ptail) ++ markedPart '?' q) =
        ('/' :: ptail, q, none) := by
    intro q hq
    have hstop : ∀ c ∈ '/' :: ptail, (fun c => c != '?' && c != '#') c = true := by
      intro c hcm
      have := hp₂ c hcm
      by_cases e₁ : c = '?'
      · subst e₁; revert this; decide
      · by_cases e₂ : c = '#'
        · subst e₂; revert this; decide
        · simp [e₁, e₂]
    cases q with
    | none =>
      have := span_append_stop (p := fun c => c != '?' && c != '#') ('/' :: ptail) [] hstop
        (by simp)
      simp only [List.append_nil] at this
      simp only [markedPart, List.append_nil, splitTail, this.1, this.2]
    | some q =>
      have := span_append_stop (p := fun c => c != '?' && c != '#') ('/' :: ptail) ('?' :: q)
        hstop (by intro c hc; simp at hc; subst hc; decide)
      have hq' : ∀ c ∈ q, (fun c => c != '#') c = true := by
        intro c hcm
        have := hq c (by simpa using hcm)
        by_cases e₂ : c = '#'
        · subst e₂; revert this; decide
        · simp [e₂]
      have hq₁ : q.takeWhile (fun c => c != '#') = q := List.takeWhile_eq_self_iff.mpr hq'
      have hq₂ : q.dropWhile (fun c => c != '#') = [] := List.dropWhile_eq_nil_iff.mpr hq'
      simp only [markedPart, splitTail, this.1, this.2, hq₁, hq₂]
  have hafter : ∀ scheme : List Char,
      parseAfterScheme scheme
        (host ++ (('/' :: ptail) ++ markedPart '?' query)) =
        some ⟨scheme, host, '/' :: ptail, query, none⟩ := by
    intro scheme
    have := span_append_stop (p := hostChar) host
      (('/' :: ptail) ++ markedPart '?' query) hc
      (by intro c hc; simp at hc; subst hc; decide)
    have hok : tailOk ('/' :: ptail) query none = true := by
      rw [tailOk_iff]; exact ⟨⟨rfl, hp₂, hp₃⟩, hq, by simp⟩
    have hne : host.isEmpty = false := by
      cases host with
      | nil => exact absurd rfl hh
      | cons a t => rfl
    simp only [parseAfterScheme, this.1, this.2, hsplit query hq, orRoot, List.isEmpty_cons,
      Bool.false_eq_true, if_false, hne, hok, Bool.not_false, Bool.and_self, if_true]
  rcases hs with hs | hs
  · subst hs
    have e : (LiteUrl.href ⟨"https".data, host, '/' :: ptail, query, none⟩).data =
        "https://".data ++
          (host ++ (('/' :: ptail) ++ markedPart '?' query)) := by
      simp [LiteUrl.href, markedPart]
    simp only [LiteUrl.parse, e, stripFront_append, hafter]
  · subst hs
    have e : (LiteUrl.href ⟨"http".data, host, '/' :: ptail, query, none⟩).data =
        "http://".data ++
          (host ++ (('/' :: ptail) ++ markedPart '?' query)) := by
      simp [LiteUrl.href, markedPart]
    have e' : stripFront "https://".data
        ("http://".data ++
          (host ++ (('/' :: ptail) ++ markedPart '?' query))) =
        none := by
      simp [stripFront]
    simp only [LiteUrl.parse, e, e', stripFront_append, hafter]

/-- The fragment `urlLite` keeps the hostname when a resolved URL, fragment
cleared, is printed and parsed again. -/
theorem urlLite_reparse (href page : String) (u : urlLite.Url)
    (h : urlLite.resolve href page = some u)
    (_ : urlLite.protocol u = "http:" ∨ urlLite.protocol u = "https:") :
    hostOf urlLite (urlLite.href (urlLite.clearHash u)) = some (urlLite.hostname u) := by
  have hw : LiteUrl.WellFormed u := LiteUrl.resolve_wellFormed href page u h
  have := LiteUrl.parse_href_clearHash u hw
  simp only [hostOf, urlLite, this, Option.map_some']

/-- C3: take a URL library in which a resolved http(s) URL, fragment cleared,
prints to a string that parses to the same hostname (as the platform class
does).  Then every URL in a list returned by `crawlWebsite` has exactly the
seed's hostname, whatever the pages contain. -/
theorem crawlWebsite_same_hostname (lib : UrlLib) (net : Network) (fuel : Nat)
    (seed : String) (N : ℚ) (urls : List String)
    (hlib : ∀ href page u, lib.resolve href page = some u →
      (lib.protocol u = "http:" ∨ lib.protocol u = "https:") →
      hostOf lib (lib.href (lib.clearHash u)) = some (lib.hostname u))
    (h : crawlWebsite lib net fuel seed N = Outcome.returned urls) :
    ∃ host, hostOf lib seed = some host ∧ ∀ s ∈ urls, hostOf lib s = some host := by
  obtain ⟨b, hb, hmem⟩ := crawlWebsite_mem lib net fuel seed N urls h
  have hs : hostOf lib seed = some (lib.hostname b) := by simp [hostOf, hb]
  refine ⟨lib.hostname b, hs, ?_⟩
  intro s hsm
  rcases hmem s hsm with rfl | ⟨url, href, u, _, hr, hp, hh, hsu, _⟩
  · exact hs
  · rw [hsu, hlib href url u hr hp, hh]

/-- Witness of C3: scenario A in the fragment `urlLite`. -/
theorem crawlWebsite_same_hostname_witness :
    crawlWebsite urlLite scenarioANet 3 "https://example.com" 10 =
      Outcome.returned scenarioAUrls ∧
    ∃ host, hostOf urlLite "https://example.com" = some host ∧
      ∀ s ∈ scenarioAUrls, hostOf urlLite s = some host :=
  ⟨by decide,
    crawlWebsite_same_hostname urlLite scenarioANet 3 "https://example.com" 10 scenarioAUrls
      urlLite_reparse (by decide)⟩

/-- C4, evaluation at the failing input: with the seed `https://example.com`
and pages that link to `/`, the crawl lists the seed and
`https://example.com/`, two strings with the same normal form. -/
theorem crawlWebsite_seed_listed_twice :
    crawlWebsite urlLite homeLinkNet 2 "https://example.com" 10 =
      Outcome.returned ["https://example.com", "https://example.com/"] ∧
    normalizeUrl urlLite "https://example.com" = some "https://example.com/" ∧
    normalizeUrl urlLite "https://example.com/" = some "https://example.com/" := by
  refine ⟨by decide, by decide, by decide⟩

/-- C5: scenario A.  With seed `https://example.com`, a seed page whose
anchors are `/a`, `/b`, `/a` and `https://other.com/x`, and pages `/a` and
`/b` without links, `crawlWebsite` with `maxPages = 10` returns exactly the
seed, `/a` and `/b` (three loop iterations are enough, more change nothing). -/
theorem crawlWebsite_scenarioA (extra : Nat) :
    crawlWebsite urlLite scenarioANet (3 + extra) "https://example.com" 10 =
      Outcome.returned
        ["https://example.com", "https://example.com/a", "https://example.com/b"] :=
  crawlWebsite_add urlLite scenarioANet 3 "https://example.com" 10 _ (by decide) extra

/-! ## The audit loop: general facts -/

/-- A result of `runAudit(url)` carries that URL. -/
theorem runAudit_url (env : AuditEnv) (k : Nat) (url : String) (r : PageAuditResult)
    (h : runAudit env k url = Except.ok r) : r.url = url := by
  unfold runAudit at h
  cases hb : env.browser k url with
  | ok body => simp only [hb, Except.ok.injEq] at h; subst h; rfl
  | error e => simp [hb] at h

/-- First attempt succeeds: one call, one result. -/
theorem auditPage_ok (env : AuditEnv) (st : AuditState) (url : String)
    (r : PageAuditResult) (h : runAudit env st.calls.length url = Except.ok r) :
    auditPage env st url =
      ⟨st.auditResults ++ [r], st.errors, st.completed + 1, st.calls ++ [url]⟩ := by
  simp [auditPage, h]

/-- First attempt fails, retry succeeds: two calls, one result. -/
theorem auditPage_retry_ok (env : AuditEnv) (st : AuditState) (url e : String)
    (r : PageAuditResult) (h₁ : runAudit env st.calls.length url = Except.error e)
    (h₂ : runAudit env (st.calls.length + 1) url = Except.ok r) :
    auditPage env st url =
      ⟨st.auditResults ++ [r], st.errors, st.completed + 1, st.calls ++ [url, url]⟩ := by
  simp [auditPage, h₁, h₂]

/-- Both attempts fail: two calls, one error entry, no result. -/
theorem auditPage_failed (env : AuditEnv) (st : AuditState) (url e e' : String)
    (h₁ : runAudit env st.calls.length url = Except.error e)
    (h₂ : runAudit env (st.calls.length + 1) url = Except.error e') :
    auditPage env st url =
      ⟨st.auditResults, st.errors ++ [⟨url, e', env.now (st.calls.length + 2)⟩],
        st.completed, st.calls ++ [url, url]⟩ := by
  simp [auditPage, h₁, h₂]

/-- What one page adds to the state: its calls, and one result or one error,
all carrying the page's URL. -/
theorem auditPage_extends (env : AuditEnv) (st : AuditState) (url : String) :
    ∃ rs es cs,
      (auditPage env st url).auditResults = st.auditResults ++ rs ∧
      (auditPage env st url).errors = st.errors ++ es ∧
      (auditPage env st url).calls = st.calls ++ cs ∧
      (∀ r ∈ rs, r.url = url) ∧ (∀ e ∈ es, e.url = url) ∧ (∀ c ∈ cs, c = url) ∧
      rs.length + es.length = 1 := by
  cases h₁ : runAudit env st.calls.length url with
  | ok r =>
    refine ⟨[r], [], [url], ?_⟩
    rw [auditPage_ok env st url r h₁]
    simp [runAudit_url env _ url r h₁]
  | error e =>
    cases h₂ : runAudit env (st.calls.length + 1) url with
    | ok r =>
      refine ⟨[r], [], [url, url], ?_⟩
      rw [auditPage_retry_ok env st url e r h₁ h₂]
      simp [runAudit_url env _ url r h₂]
    | error e' =>
      refine ⟨[], [⟨url, e', env.now (st.calls.length + 2)⟩], [url, url], ?_⟩
      rw [auditPage_failed env st url e e' h₁ h₂]
      simp

/-- What a run of the loop over `urls` adds to the state. -/
theorem auditFold_extends (env : AuditEnv) (urls : List String) :
    ∀ st : AuditState, ∃ rs es cs,
      (urls.foldl (auditPage env) st).auditResults = st.auditResults ++ rs ∧
      (urls.foldl (auditPage env) st).errors = st.errors ++ es ∧
      (urls.foldl (auditPage env) st).calls = st.calls ++ cs ∧
      (∀ r ∈ rs, r.url ∈ urls) ∧ (∀ e ∈ es, e.url ∈ urls) ∧ (∀ c ∈ cs, c ∈ urls) ∧
      rs.length + es.length = urls.length := by
  induction urls with
  | nil => intro st; exact ⟨[], [], [], by simp⟩
  | cons u t ih =>
    intro st
    obtain ⟨rs₁, es₁, cs₁, a₁, b₁, c₁, hr₁, he₁, hc₁, hl₁⟩ := auditPage_extends env st u
    obtain ⟨rs₂, es₂, cs₂, a₂, b₂, c₂, hr₂, he₂, hc₂, hl₂⟩ := ih (auditPage env st u)
    refine ⟨rs₁ ++ rs₂, es₁ ++ es₂, cs₁ ++ cs₂, ?_, ?_, ?_, ?_, ?_, ?_, ?_⟩
    · rw [List.foldl_cons, a₂, a₁, List.append_assoc]
    · rw [List.foldl_cons, b₂, b₁, List.append_assoc]
    · rw [List.foldl_cons, c₂, c₁, List.append_assoc]
    · intro r hr
      rcases List.mem_append.mp hr with hr | hr
      · rw [hr₁ r hr]; exact List.mem_cons_self _ _
      · exact List.mem_cons_of_mem _ (hr₂ r hr)
    · intro e he
      rcases List.mem_append.mp he with he | he
      · rw [he₁ e he]; exact List.mem_cons_self _ _
      · exact List.mem_cons_of_mem _ (he₂ e he)
    · intro c hc
      rcases List.mem_append.mp hc with hc | hc
      · rw [hc₁ c hc]; exact List.mem_cons_self _ _
      · exact List.mem_cons_of_mem _ (hc₂ c hc)
    · simp only [List.length_append, List.length_cons]
      omega

/-- The loop over `pre ++ u :: post` is the loop over `post`, started after
the page `u` was handled in the state the loop over `pre` left. -/
theorem auditLoop_split (env : AuditEnv) (pre post : List String) (u : String) :
    auditLoop env (pre ++ u :: post) =
      post.foldl (auditPage env) (auditPage env (auditLoop env pre) u) := by
  simp [auditLoop, List.foldl_append]

/-- A returned report is the one assembled from a non-empty crawl result and
the state the audit loop ends in. -/
theorem auditWholeSite_returned (lib : UrlLib) (net : Network) (fuel : Nat)
    (env : AuditEnv) (seed : String) (options : Options) (report : SiteAuditReport)
    (h : (auditWholeSite lib net fuel env seed options).outcome = Outcome.returned report) :
    ∃ urls, crawlWebsite lib net fuel seed options.maxPages = Outcome.returned urls ∧
      urls ≠ [] ∧
      report.auditResults = (auditLoop env urls).auditResults ∧
      report.errors = (auditLoop env urls).errors ∧
      report.summary =
        generateSiteSummary (auditLoop env urls).auditResults (auditLoop env urls).errors ∧
      report.metadata.totalPagesDiscovered = urls.length ∧
      report.metadata.totalPagesAudited = (auditLoop env urls).auditResults.length ∧
      report.metadata.totalErrors = (auditLoop env urls).errors.length := by
  unfold auditWholeSite at h
  cases hc : crawlWebsite lib net fuel seed options.maxPages with
  | outOfFuel => simp [hc] at h
  | threw m => simp [hc] at h
  | returned urls =>
    simp only [hc] at h
    refine ⟨urls, rfl, ?_⟩
    by_cases hz : urls.length = 0
    · simp [hz] at h
    · simp only [hz, if_false] at h
      have hne : urls ≠ [] := fun e => hz (by simp [e])
      cases hs : options.saveToFile with
      | false =>
        simp only [hs, Bool.false_eq_true, if_false, Outcome.returned.injEq] at h
        subst h
        exact ⟨hne, rfl, rfl, rfl, rfl, rfl, rfl⟩
      | true =>
        simp only [hs, if_true] at h
        split at h
        · simp at h
        · simp only [Outcome.returned.injEq] at h
          subst h
          exact ⟨hne, rfl, rfl, rfl, rfl, rfl, rfl⟩

/-- The `runAudit` calls of a run over a non-empty crawl result are those of
the audit loop. -/
theorem auditWholeSite_calls (lib : UrlLib) (net : Network) (fuel : Nat)
    (env : AuditEnv) (seed : String) (options : Options) (urls : List String)
    (hc : crawlWebsite lib net fuel seed options.maxPages = Outcome.returned urls)
    (hne : urls ≠ []) :
    (auditWholeSite lib net fuel env seed options).calls = (auditLoop env urls).calls := by
  have hz : ¬ urls.length = 0 := fun e => hne (List.length_eq_zero.mp e)
  unfold auditWholeSite
  simp only [hc, hz, if_false]
  cases hs : options.saveToFile with
  | false => simp
  | true =>
    simp only [if_true]
    split <;> rfl

/-! ## The orchestrator contract -/

/-- C6: for every run of `auditWholeSite` that returns a report,
`totalPagesAudited + totalErrors = totalPagesDiscovered`, where the three
numbers are the lengths of `auditResults`, of `errors` and of the crawl
result. -/
theorem auditWholeSite_total_accounting (lib : UrlLib) (net : Network) (fuel : Nat)
    (env : AuditEnv) (seed : String) (options : Options) (report : SiteAuditReport)
    (h : (auditWholeSite lib net fuel env seed options).outcome = Outcome.returned report) :
    report.metadata.totalPagesAudited + report.metadata.totalErrors =
      report.metadata.totalPagesDiscovered ∧
    report.metadata.totalPagesAudited = report.auditResults.length ∧
    report.metadata.totalErrors = report.errors.length ∧
    ∃ urls, crawlWebsite lib net fuel seed options.maxPages = Outcome.returned urls ∧
      report.metadata.totalPagesDiscovered = urls.length := by
  obtain ⟨urls, hc, _, hr, he, _, hd, ha, ht⟩ :=
    auditWholeSite_returned lib net fuel env seed options report h
  obtain ⟨rs, es, cs, a, b, _, _, _, _, hl⟩ := auditFold_extends env urls ⟨[], [], 0, []⟩
  have a' : (auditLoop env urls).auditResults = rs := by simpa [auditLoop] using a
  have b' : (auditLoop env urls).errors = es := by simpa [auditLoop] using b
  refine ⟨?_, ?_, ?_, urls, hc, hd⟩
  · rw [ha, ht, hd, a', b']; exact hl
  · rw [ha, hr]
  · rw [ht, he]

/-- Witness of C6: scenario A under `scenarioEnv`, one page audited and two
errors for three pages discovered. -/
theorem auditWholeSite_total_accounting_witness :
    (auditWholeSite urlLite scenarioANet 3 scenarioEnv "https://example.com"
        scenarioOptions).outcome = Outcome.returned scenarioReport ∧
    scenarioReport.metadata.totalPagesAudited + scenarioReport.metadata.totalErrors =
      scenarioReport.metadata.totalPagesDiscovered :=
  ⟨by decide,
    (auditWholeSite_total_accounting urlLite scenarioANet 3 scenarioEnv "https://example.com"
      scenarioOptions scenarioReport (by decide)).1⟩

/-- C7: let the crawl return `pre ++ u :: post`.  Then the run calls
`runAudit` on `u` exactly once when the first attempt on `u` (the call made
after all calls for `pre`) succeeds and exactly twice when it fails; never a
third time. -/
theorem auditWholeSite_attempts (lib : UrlLib) (net : Network) (fuel : Nat)
    (env : AuditEnv) (seed : String) (options : Options) (pre post : List String)
    (u : String)
    (hcrawl : crawlWebsite lib net fuel seed options.maxPages =
      Outcome.returned (pre ++ u :: post)) :
    (auditWholeSite lib net fuel env seed options).calls.count u =
      (if (runAudit env (auditLoop env pre).calls.length u).isOk = true then 1 else 2) ∧
    (auditWholeSite lib net fuel env seed options).calls.count u ≤ 2 := by
  have hnd := crawlWebsite_nodup lib net fuel seed options.maxPages _ hcrawl
  have hpre : u ∉ pre := by
    intro hm
    exact (List.nodup_append.mp hnd).2.2 hm (List.mem_cons_self _ _)
  have hpost : u ∉ post := (List.nodup_cons.mp (List.nodup_append.mp hnd).2.1).1
  have hcalls := auditWholeSite_calls lib net fuel env seed options _ hcrawl (by simp)
  obtain ⟨_, _, cs₁, _, _, c₁, _, _, hc₁, _⟩ := auditFold_extends env pre ⟨[], [], 0, []⟩
  have c₁' : (auditLoop env pre).calls = cs₁ := by simpa [auditLoop] using c₁
  obtain ⟨_, _, cs₃, _, _, c₃, _, _, hc₃, _⟩ :=
    auditFold_extends env post (auditPage env (auditLoop env pre) u)
  have z₁ : cs₁.count u = 0 := List.count_eq_zero.mpr fun hm => hpre (hc₁ u hm)
  have z₃ : cs₃.count u = 0 := List.count_eq_zero.mpr fun hm => hpost (hc₃ u hm)
  rw [hcalls, auditLoop_split, c₃]
  cases h₁ : runAudit env (auditLoop env pre).calls.length u with
  | ok r =>
    rw [auditPage_ok env _ u r h₁]
    simp [List.count_append, c₁', z₁, z₃, Except.isOk, Except.toBool]
  | error e =>
    cases h₂ : runAudit env ((auditLoop env pre).calls.length + 1) u with
    | ok r =>
      rw [auditPage_retry_ok env _ u e r h₁ h₂]
      simp [List.count_append, c₁', z₁, z₃, Except.isOk, Except.toBool]
    | error e' =>
      rw [auditPage_failed env _ u e e' h₁ h₂]
      simp [List.count_append, c₁', z₁, z₃, Except.isOk, Except.toBool]

/-- Witness of C7: in scenario A the first audit of the seed fails, so the
seed is audited twice. -/
theorem auditWholeSite_attempts_witness :
    crawlWebsite urlLite scenarioANet 3 "https://example.com" scenarioOptions.maxPages =
      Outcome.returned ([] ++ "https://example.com" ::
        ["https://example.com/a", "https://example.com/b"]) ∧
    (runAudit scenarioEnv (auditLoop scenarioEnv []).calls.length
      "https://example.com").isOk = false ∧
    (auditWholeSite urlLite scenarioANet 3 scenarioEnv "https://example.com"
      scenarioOptions).calls.count "https://example.com" = 2 :=
  ⟨by decide, by decide,
    (auditWholeSite_attempts urlLite scenarioANet 3 scenarioEnv "https://example.com"
      scenarioOptions [] ["https://example.com/a", "https://example.com/b"]
      "https://example.com" (by decide)).1⟩

/-- C8: let the crawl return `pre ++ u :: post` (so `u` occurs once) and let
both the first attempt on `u` and its retry fail.  Then a returned report has
exactly one entry of `errors` with url `u`, and no entry of `auditResults`
with url `u`. -/
theorem auditWholeSite_double_failure (lib : UrlLib) (net : Network) (fuel : Nat)
    (env : AuditEnv) (seed : String) (options : Options) (pre post : List String)
    (u e e' : String) (report : SiteAuditReport)
    (hcrawl : crawlWebsite lib net fuel seed options.maxPages =
      Outcome.returned (pre ++ u :: post))
    (h₁ : runAudit env (auditLoop env pre).calls.length u = Except.error e)
    (h₂ : runAudit env ((auditLoop env pre).calls.length + 1) u = Except.error e')
    (h : (auditWholeSite lib net fuel env seed options).outcome = Outcome.returned report) :
    report.errors.countP (fun entry => entry.url = u) = 1 ∧
    ∀ r ∈ report.auditResults, r.url ≠ u := by
  have hnd := crawlWebsite_nodup lib net fuel seed options.maxPages _ hcrawl
  have hpre : u ∉ pre := by
    intro hm
    exact (List.nodup_append.mp hnd).2.2 hm (List.mem_cons_self _ _)
  have hpost : u ∉ post := (List.nodup_cons.mp (List.nodup_append.mp hnd).2.1).1
  obtain ⟨urls, hc, _, hr, he, _⟩ :=
    auditWholeSite_returned lib net fuel env seed options report h
  rw [hcrawl] at hc
  have hu : urls = pre ++ u :: post := (Outcome.returned.inj hc).symm
  subst hu
  obtain ⟨rs₁, es₁, _, a₁, b₁, _, hr₁, he₁, _, _⟩ :=
    auditFold_extends env pre ⟨[], [], 0, []⟩
  have a₁' : (auditLoop env pre).auditResults = rs₁ := by simpa [auditLoop] using a₁
  have b₁' : (auditLoop env pre).errors = es₁ := by simpa [auditLoop] using b₁
  obtain ⟨rs₃, es₃, _, a₃, b₃, _, hr₃, he₃, _, _⟩ :=
    auditFold_extends env post (auditPage env (auditLoop env pre) u)
  rw [auditLoop_split] at hr he
  rw [a₃] at hr
  rw [b₃] at he
  rw [auditPage_failed env _ u e e' h₁ h₂] at hr he
  simp only [a₁', b₁'] at hr he
  constructor
  · rw [he]
    have z₁ : es₁.countP (fun entry => entry.url = u) = 0 := by
      rw [List.countP_eq_zero]
      intro x hx
      have := he₁ x hx
      simp only [decide_eq_true_eq]
      intro hxu
      exact hpre (hxu ▸ this)
    have z₃ : es₃.countP (fun entry => entry.url = u) = 0 := by
      rw [List.countP_eq_zero]
      intro x hx
      have := he₃ x hx
      simp only [decide_eq_true_eq]
      intro hxu
      exact hpost (hxu ▸ this)
    simp [List.countP_append, z₁, z₃]
  · intro r hrm hru
    rw [hr] at hrm
    rcases List.mem_append.mp hrm with hm | hm
    · exact hpre (hru ▸ hr₁ r hm)
    · exact hpost (hru ▸ hr₃ r hm)

/-- Witness of C8: in scenario A both audits of `/a` fail. -/
theorem auditWholeSite_double_failure_witness :
    crawlWebsite urlLite scenarioANet 3 "https://example.com" scenarioOptions.maxPages =
      Outcome.returned (["https://example.com"] ++ "https://example.com/a" ::
        ["https://example.com/b"]) ∧
    scenarioReport.errors.countP (fun entry => entry.url = "https://example.com/a") = 1 ∧
    ∀ r ∈ scenarioReport.auditResults, r.url ≠ "https://example.com/a" :=
  ⟨by decide,
    auditWholeSite_double_failure urlLite scenarioANet 3 scenarioEnv "https://example.com"
      scenarioOptions ["https://example.com"] ["https://example.com/b"]
      "https://example.com/a"
      "Failed to audit https://example.com/a: net::ERR_CONNECTION_REFUSED"
      "Failed to audit https://example.com/a: net::ERR_CONNECTION_REFUSED"
      scenarioReport (by decide) rfl rfl (by decide)⟩

/-- With a non-empty crawl result and nothing to save, the run returns the
compiled report. -/
theorem auditWholeSite_unsaved (lib : UrlLib) (net : Network) (fuel : Nat)
    (env : AuditEnv) (seed : String) (options : Options) (urls : List String)
    (hcrawl : crawlWebsite lib net fuel seed options.maxPages = Outcome.returned urls)
    (hne : urls ≠ []) (hsave : options.saveToFile = false) :
    (auditWholeSite lib net fuel env seed options).outcome =
      Outcome.returned (finalResults env seed options urls (auditLoop env urls)) := by
  have hz : ¬ urls.length = 0 := fun e => hne (List.length_eq_zero.mp e)
  unfold auditWholeSite
  simp only [hcrawl, hz, if_false, hsave, Bool.false_eq_true]

/-- When every audit fails, the loop records one error per URL, in order,
and no result. -/
theorem auditFold_all_failed (env : AuditEnv)
    (hfail : ∀ k u, ∃ e, runAudit env k u = Except.error e) (urls : List String) :
    ∀ st : AuditState,
      (urls.foldl (auditPage env) st).auditResults = st.auditResults ∧
      (urls.foldl (auditPage env) st).errors.map (fun entry => entry.url) =
        st.errors.map (fun entry => entry.url) ++ urls := by
  induction urls with
  | nil => intro st; simp
  | cons u t ih =>
    intro st
    obtain ⟨e, h₁⟩ := hfail st.calls.length u
    obtain ⟨e', h₂⟩ := hfail (st.calls.length + 1) u
    obtain ⟨a, b⟩ := ih (auditPage env st u)
    rw [List.foldl_cons, a, b, auditPage_failed env st u e e' h₁ h₂]
    simp

/-- C9: whenever the crawl returns at least one page and `saveToFile` is
false, `auditWholeSite` returns a report; and if every `runAudit` call fails,
that report has no audit result, one error entry per discovered page (in crawl
order) and the all-zero summary. -/
theorem auditWholeSite_returns_report (lib : UrlLib) (net : Network) (fuel : Nat)
    (env : AuditEnv) (seed : String) (options : Options) (urls : List String)
    (hcrawl : crawlWebsite lib net fuel seed options.maxPages = Outcome.returned urls)
    (hne : urls ≠ []) (hsave : options.saveToFile = false) :
    ∃ report,
      (auditWholeSite lib net fuel env seed options).outcome = Outcome.returned report ∧
      ((∀ k u, ∃ e, runAudit env k u = Except.error e) →
        report.auditResults = [] ∧
        report.errors.map (fun entry => entry.url) = urls ∧
        report.summary = zeroSummary) := by
  refine ⟨finalResults env seed options urls (auditLoop env urls),
    auditWholeSite_unsaved lib net fuel env seed options urls hcrawl hne hsave, ?_⟩
  intro hfail
  obtain ⟨a, b⟩ := auditFold_all_failed env hfail urls ⟨[], [], 0, []⟩
  have a' : (auditLoop env urls).auditResults = [] := a
  have b' : (auditLoop env urls).errors.map (fun entry => entry.url) = urls := by
    simpa [auditLoop] using b
  refine ⟨a', b', ?_⟩
  simp only [finalResults, a']
  rfl

/-- Witness of C9: scenario A with every audit failing. -/
theorem auditWholeSite_returns_report_witness :
    crawlWebsite urlLite scenarioANet 3 "https://example.com" scenarioOptions.maxPages =
      Outcome.returned scenarioAUrls ∧
    ∃ report,
      (auditWholeSite urlLite scenarioANet 3 downEnv "https://example.com"
        scenarioOptions).outcome = Outcome.returned report ∧
      ((∀ k u, ∃ e, runAudit downEnv k u = Except.error e) →
        report.auditResults = [] ∧
        report.errors.map (fun entry => entry.url) = scenarioAUrls ∧
        report.summary = zeroSummary) :=
  ⟨by decide,
    auditWholeSite_returns_report urlLite scenarioANet 3 downEnv "https://example.com"
      scenarioOptions scenarioAUrls (by decide) (by decide) rfl⟩

/-- C10, counterexample: on a network where nothing can be fetched, with
audits that always fail, the run for `https://example.com` is not rejected
with the no-pages error, and `runAudit` is called twice on the seed. -/
theorem auditWholeSite_unreachable_seed_audited :
    deadNet 0 "https://example.com" = none ∧
    extractLinksFromPage urlLite (deadNet 0 "https://example.com") "https://example.com"
      "example.com" = [] ∧
    (auditWholeSite urlLite deadNet 1 downEnv "https://example.com" {}).outcome ≠
      Outcome.threw noPagesMessage ∧
    (auditWholeSite urlLite deadNet 1 downEnv "https://example.com" {}).calls =
      ["https://example.com", "https://example.com"] := by
  refine ⟨rfl, rfl, by decide, by decide⟩

/-- C10 as amended: when the crawl returns no URL, `auditWholeSite` rejects
with the no-pages error and calls `runAudit` not at all; but an unreachable
seed with `maxPages ≥ 1` gives the crawl result `[seed]`, and then `runAudit`
is called on the seed (once or twice) and a run that saves nothing returns a
report. -/
theorem auditWholeSite_no_pages (lib : UrlLib) (net : Network) (fuel : Nat)
    (env : AuditEnv) (seed : String) (options : Options) :
    (crawlWebsite lib net fuel seed options.maxPages = Outcome.returned [] →
      auditWholeSite lib net fuel env seed options = ⟨Outcome.threw noPagesMessage, []⟩) ∧
    ((lib.parse seed).isSome = true → 1 ≤ options.maxPages → net 0 seed = none →
      crawlWebsite lib net (fuel + 1) seed options.maxPages = Outcome.returned [seed] ∧
      ((auditWholeSite lib net (fuel + 1) env seed options).calls = [seed] ∨
        (auditWholeSite lib net (fuel + 1) env seed options).calls = [seed, seed]) ∧
      (options.saveToFile = false →
        ∃ report, (auditWholeSite lib net (fuel + 1) env seed options).outcome =
          Outcome.returned report)) := by
  constructor
  · intro hc
    unfold auditWholeSite
    simp [hc]
  · intro hseed hN hdead
    have hc := crawlWebsite_unreachable_seed lib net fuel seed options.maxPages hseed hN hdead
    refine ⟨hc, ?_, ?_⟩
    · rw [auditWholeSite_calls lib net (fuel + 1) env seed options [seed] hc (by simp)]
      cases h₁ : runAudit env 0 seed with
      | ok r =>
        left
        simp [auditLoop, auditPage, h₁]
      | error e =>
        right
        cases h₂ : runAudit env 1 seed with
        | ok r => simp [auditLoop, auditPage, h₁, h₂]
        | error e' => simp [auditLoop, auditPage, h₁, h₂]
    · intro hsave
      exact ⟨_, auditWholeSite_unsaved lib net (fuel + 1) env seed options [seed] hc
        (by simp) hsave⟩

/-- Witness of C10 as amended: `maxPages = 0` gives an empty crawl and the
no-pages error; the dead network with the default options gives `[seed]`. -/
theorem auditWholeSite_no_pages_witness :
    crawlWebsite urlLite deadNet 0 "https://example.com" 0 = Outcome.returned [] ∧
    auditWholeSite urlLite deadNet 0 downEnv "https://example.com" { maxPages := 0 } =
      ⟨Outcome.threw noPagesMessage, []⟩ ∧
    (urlLite.parse "https://example.com").isSome = true ∧
    crawlWebsite urlLite deadNet 1 "https://example.com" 50 =
      Outcome.returned ["https://example.com"] :=
  ⟨by decide,
    (auditWholeSite_no_pages urlLite deadNet 0 downEnv "https://example.com"
      { maxPages := 0 }).1 (by decide),
    by decide,
    ((auditWholeSite_no_pages urlLite deadNet 0 downEnv "https://example.com" {}).2
      (by decide) (by decide) rfl).1⟩

/-! ## Unreachable pages -/

/-- The result of `crawlWebsite` does not depend on the fuel that was enough. -/
theorem crawlWebsite_fuel_irrelevant (lib : UrlLib) (net : Network) (f₁ f₂ : Nat)
    (seed : String) (N : ℚ) (r₁ r₂ : List String)
    (h₁ : crawlWebsite lib net f₁ seed N = Outcome.returned r₁)
    (h₂ : crawlWebsite lib net f₂ seed N = Outcome.returned r₂) : r₁ = r₂ := by
  have e₁ := crawlWebsite_add lib net f₁ seed N r₁ h₁ f₂
  have e₂ := crawlWebsite_add lib net f₂ seed N r₂ h₂ f₁
  rw [Nat.add_comm] at e₂
  rw [e₁] at e₂
  exact Outcome.returned.inj e₂

/-- C11: for every valid seed whose fetch fails and every `maxPages ≥ 1`,
`crawlWebsite` returns the one-element list `[seed]`: one loop iteration is
enough for it to return, and whatever it returns is `[seed]`. -/
theorem crawlWebsite_failed_seed_singleton (lib : UrlLib) (net : Network) (seed : String)
    (N : ℚ) (hseed : (lib.parse seed).isSome = true) (hN : 1 ≤ N)
    (hdead : net 0 seed = none) :
    (∀ fuel, crawlWebsite lib net (fuel + 1) seed N = Outcome.returned [seed]) ∧
    (∀ fuel urls, crawlWebsite lib net fuel seed N = Outcome.returned urls →
      urls = [seed]) := by
  refine ⟨fun fuel => crawlWebsite_unreachable_seed lib net fuel seed N hseed hN hdead, ?_⟩
  intro fuel urls h
  exact crawlWebsite_fuel_irrelevant lib net fuel 1 seed N urls [seed] h
    (crawlWebsite_unreachable_seed lib net 0 seed N hseed hN hdead)

/-- Witness of C11: the dead network, seed `https://example.com`,
`maxPages = 5`. -/
theorem crawlWebsite_failed_seed_singleton_witness :
    (urlLite.parse "https://example.com").isSome = true ∧ (1 : ℚ) ≤ 5 ∧
    deadNet 0 "https://example.com" = none ∧
    crawlWebsite urlLite deadNet 1 "https://example.com" 5 =
      Outcome.returned ["https://example.com"] :=
  ⟨by decide, by decide, rfl,
    (crawlWebsite_failed_seed_singleton urlLite deadNet "https://example.com" 5
      (by decide) (by decide) rfl).1 0⟩

/-- C18: `extractLinksFromPage` gives the empty list when the fetch or the
parsing fails and when the response is not HTML.  So `crawlWebsite` with a
valid seed never throws, whatever the network does, and returns; and after an
unreachable page the loop goes on with the rest of the queue. -/
theorem extractLinksFromPage_fails_softly (lib : UrlLib) (net : Network) (seed : String)
    (N : ℚ) :
    (∀ url base, extractLinksFromPage lib none url base = []) ∧
    (∀ response url base,
      jsIncludes (response.contentType.getD "") "text/html" = false →
      extractLinksFromPage lib (some response) url base = []) ∧
    ((lib.parse seed).isSome = true →
      (∀ fuel message, crawlWebsite lib net fuel seed N ≠ Outcome.threw message) ∧
      ∃ fuel urls, crawlWebsite lib net fuel seed N = Outcome.returned urls) ∧
    (∀ base fuel visited current rest discovered,
      ((discovered.length : Nat) : ℚ) < N → current ∉ visited →
      net discovered.length current = none →
      crawlLoop lib net base N (fuel + 1) ⟨visited, current :: rest, discovered⟩ =
        crawlLoop lib net base N fuel ⟨current :: visited, rest, discovered ++ [current]⟩) := by
  refine ⟨fun _ _ => rfl, ?_, ?_, ?_⟩
  · intro response url base h
    simp [extractLinksFromPage, h]
  · intro hseed
    refine ⟨?_, crawlWebsite_returns lib net seed N hseed⟩
    intro fuel message
    obtain ⟨b, hb⟩ := Option.isSome_iff_exists.mp hseed
    unfold crawlWebsite
    simp only [hb]
    cases crawlLoop lib net (lib.hostname b) N fuel ⟨[], [seed], []⟩ <;> simp
  · intro base fuel visited current rest discovered hc hv hdead
    rw [crawlLoop]
    simp only [hc, hv, if_true, if_false, hdead, extractLinksFromPage, enqueueLinks,
      List.foldl_nil]

/-- Witness of C18: on the dead network the crawl of `https://example.com`
returns and does not throw. -/
theorem extractLinksFromPage_fails_softly_witness :
    (urlLite.parse "https://example.com").isSome = true ∧
    (∀ fuel message,
      crawlWebsite urlLite deadNet fuel "https://example.com" 10 ≠ Outcome.threw message) ∧
    ∃ fuel urls,
      crawlWebsite urlLite deadNet fuel "https://example.com" 10 = Outcome.returned urls :=
  ⟨by decide,
    (extractLinksFromPage_fails_softly urlLite deadNet "https://example.com" 10).2.2.1
      (by decide)⟩

/-! ## The link extractor contract -/

/-- The fragment `urlLite` parses the printed form of a resolved URL, fragment
cleared, to a URL with the same protocol and hostname and without fragment. -/
theorem urlLite_reparse_clean (href page : String) (u : urlLite.Url)
    (h : urlLite.resolve href page = some u)
    (_ : urlLite.protocol u = "http:" ∨ urlLite.protocol u = "https:") :
    ∃ v, urlLite.parse (urlLite.href (urlLite.clearHash u)) = some v ∧
      urlLite.protocol v = urlLite.protocol u ∧ urlLite.hostname v = urlLite.hostname u ∧
      urlLite.href (urlLite.clearHash v) = urlLite.href (urlLite.clearHash u) :=
  ⟨{ u with fragment := none },
    LiteUrl.parse_href_clearHash u (LiteUrl.resolve_wellFormed href page u h), rfl, rfl, rfl⟩

/-- C19: take a URL library in which a resolved http(s) URL, fragment cleared,
prints to a string that parses to a URL with the same protocol and hostname
and no fragment (as the platform class does).  Then every URL returned by
`extractLinksFromPage(pageUrl, baseHost)` has scheme http or https, hostname
`baseHost`, no fragment (stripping the fragment leaves the string as it is),
and matches no pattern of `isExcludedUrl`. -/
theorem extractLinksFromPage_links_clean (lib : UrlLib) (fetched : Option Response)
    (pageUrl baseHost s : String)
    (hlib : ∀ href page u, lib.resolve href page = some u →
      (lib.protocol u = "http:" ∨ lib.protocol u = "https:") →
      ∃ v, lib.parse (lib.href (lib.clearHash u)) = some v ∧
        lib.protocol v = lib.protocol u ∧ lib.hostname v = lib.hostname u ∧
        lib.href (lib.clearHash v) = lib.href (lib.clearHash u))
    (hs : s ∈ extractLinksFromPage lib fetched pageUrl baseHost) :
    (∃ v, lib.parse s = some v ∧
      (lib.protocol v = "http:" ∨ lib.protocol v = "https:") ∧
      lib.hostname v = baseHost) ∧
    normalizeUrl lib s = some s ∧ isExcludedUrl s = false := by
  obtain ⟨href, u, _, hr, hp, hh, hsu, hex⟩ :=
    extractLinksFromPage_mem lib fetched pageUrl baseHost s hs
  obtain ⟨v, hv, hvp, hvh, hvc⟩ := hlib href pageUrl u hr hp
  subst hsu
  refine ⟨⟨v, hv, ?_, ?_⟩, ?_, hex⟩
  · rw [hvp]; exact hp
  · rw [hvh]; exact hh
  · simp [normalizeUrl, hv, hvc]

/-- Witness of C19: the link `/a#top` of the page `https://example.com`. -/
theorem extractLinksFromPage_links_clean_witness :
    "https://example.com/a" ∈ extractLinksFromPage urlLite (htmlPage ["/a#top"])
      "https://example.com" "example.com" ∧
    normalizeUrl urlLite "https://example.com/a" = some "https://example.com/a" ∧
    isExcludedUrl "https://example.com/a" = false :=
  ⟨by decide,
    (extractLinksFromPage_links_clean urlLite (htmlPage ["/a#top"]) "https://example.com"
      "example.com" "https://example.com/a" urlLite_reparse_clean (by decide)).2⟩

/-- One anchor, in the words of the specification: nothing for an anchor that
is not kept, otherwise its clean URL is pushed unless it is already there. -/
theorem linkStep_eq (lib : UrlLib) (url base : String) (links : List String)
    (href : String) :
    linkStep lib url base links href =
      match specCleanUrl lib url base href with
      | none => links
      | some c => if c ∈ links then links else links ++ [c] := by
  unfold linkStep specCleanUrl
  by_cases he : href = ""
  · simp [he]
  · simp only [he, if_false]
    cases lib.resolve href url with
    | none => rfl
    | some u =>
      simp only
      by_cases hf : (lib.protocol u = "http:" ∨ lib.protocol u = "https:") ∧
          lib.hostname u = base
      · simp only [hf, and_self, if_true]
        cases hx : isExcludedUrl (lib.href (lib.clearHash u)) with
        | true => simp
        | false =>
          by_cases hm : lib.href (lib.clearHash u) ∈ links <;> simp [hm]
      · simp only [hf, if_false]

/-- Removing repeats commutes with filtering. -/
theorem firstOccurrences_filter (p : String → Bool) (l : List String) :
    firstOccurrences (l.filter p) = (firstOccurrences l).filter p := by
  induction l with
  | nil => rfl
  | cons y t ih =>
    by_cases hp : p y = true
    · simp only [List.filter_cons, hp, if_true, firstOccurrences, ih, List.filter_filter]
      congr 1
      apply List.filter_congr
      intro x _
      exact Bool.and_comm _ _
    · have hp' : p y = false := by simpa using hp
      simp only [List.filter_cons, hp', Bool.false_eq_true, if_false, firstOccurrences,
        List.filter_filter]
      rw [ih]
      apply List.filter_congr
      intro x _
      by_cases hxy : x = y
      · subst hxy; simp [hp']
      · simp [hxy]

/-- The elements of the list with repeats removed are those of the list. -/
theorem mem_firstOccurrences (l : List String) (x : String) :
    x ∈ firstOccurrences l ↔ x ∈ l := by
  induction l with
  | nil => simp [firstOccurrences]
  | cons y t ih =>
    simp only [firstOccurrences, List.mem_cons, List.mem_filter, ih, decide_eq_true_eq]
    by_cases hxy : x = y <;> simp [hxy]

/-- The list with repeats removed has no repeats. -/
theorem firstOccurrences_nodup (l : List String) : (firstOccurrences l).Nodup := by
  induction l with
  | nil => simp [firstOccurrences]
  | cons y t ih =>
    simp only [firstOccurrences, List.nodup_cons, List.mem_filter, decide_eq_true_eq]
    exact ⟨fun h => h.2 rfl, ih.filter _⟩

/-- The anchor loop, started with `acc`, appends the new clean URLs in the
order of their first occurrence. -/
theorem foldl_linkStep_eq (lib : UrlLib) (url base : String) (hrefs : List String) :
    ∀ acc : List String,
      hrefs.foldl (linkStep lib url base) acc =
        acc ++ firstOccurrences
          ((hrefs.filterMap (specCleanUrl lib url base)).filter fun c => decide (c ∉ acc)) := by
  induction hrefs with
  | nil => intro acc; simp [firstOccurrences]
  | cons h t ih =>
    intro acc
    rw [List.foldl_cons, linkStep_eq, List.filterMap_cons]
    cases hc : specCleanUrl lib url base h with
    | none => simp only [ih]
    | some c =>
      simp only
      by_cases hm : c ∈ acc
      · simp only [hm, if_true, ih, List.filter_cons, not_true_eq_false, decide_False,
          Bool.false_eq_true, if_false]
      · simp only [hm, if_false, ih, List.filter_cons, not_false_eq_true, decide_True,
          if_true, firstOccurrences, List.append_assoc, List.singleton_append]
        congr 2
        rw [← firstOccurrences_filter, List.filter_filter]
        congr 1
        apply List.filter_congr
        intro x _
        by_cases hxc : x = c
        · subst hxc; simp
        · simp [hxc]

/-- C20: the list returned by `extractLinksFromPage` has no duplicate, and for
an HTML page it is the anchor list mapped to clean URLs, filtered, with later
repeats removed, so in the order of first occurrence. -/
theorem extractLinksFromPage_first_occurrences (lib : UrlLib) (fetched : Option Response)
    (pageUrl baseHost : String) :
    (extractLinksFromPage lib fetched pageUrl baseHost).Nodup ∧
    ∀ response, fetched = some response →
      jsIncludes (response.contentType.getD "") "text/html" = true →
      extractLinksFromPage lib fetched pageUrl baseHost =
        specExtractLinks lib pageUrl baseHost response.hrefs := by
  have key : ∀ response : Response,
      jsIncludes (response.contentType.getD "") "text/html" = true →
      extractLinksFromPage lib (some response) pageUrl baseHost =
        specExtractLinks lib pageUrl baseHost response.hrefs := by
    intro response hc
    simp only [extractLinksFromPage, hc, Bool.true_eq_false, if_false, foldl_linkStep_eq,
      specExtractLinks, List.nil_append]
    congr 1
    simp
  constructor
  · cases fetched with
    | none => simp [extractLinksFromPage]
    | some response =>
      by_cases hc : jsIncludes (response.contentType.getD "") "text/html" = true
      · rw [key response hc]
        exact firstOccurrences_nodup _
      · simp [extractLinksFromPage, hc]
  · intro response hf hc
    subst hf
    exact key response hc

/-- Witness of C20: the seed page of scenario A, whose anchors are `/a`, `/b`,
`/a` again and a link to another host. -/
theorem extractLinksFromPage_first_occurrences_witness :
    extractLinksFromPage urlLite
        (htmlPage ["/a", "/b", "/a", "https://other.com/x"]) "https://example.com"
        "example.com" =
      specExtractLinks urlLite "https://example.com" "example.com"
        ["/a", "/b", "/a", "https://other.com/x"] ∧
    specExtractLinks urlLite "https://example.com" "example.com"
        ["/a", "/b", "/a", "https://other.com/x"] =
      ["https://example.com/a", "https://example.com/b"] :=
  ⟨(extractLinksFromPage_first_occurrences urlLite
      (htmlPage ["/a", "/b", "/a", "https://other.com/x"]) "https://example.com"
      "example.com").2 ⟨some "text/html; charset=utf-8",
        ["/a", "/b", "/a", "https://other.com/x"]⟩ rfl (by decide),
    by decide⟩

/-! ## The aggregator -/

/-- The first `reduce` adds the sums of the three score columns. -/
theorem foldl_addScores (rs : List PageAuditResult) :
    ∀ acc : Scores,
      rs.foldl addScores acc =
        ⟨acc.performance + (rs.map fun r => r.scores.performance).sum,
          acc.accessibility + (rs.map fun r => r.scores.accessibility).sum,
          acc.seo + (rs.map fun r => r.scores.seo).sum⟩ := by
  induction rs with
  | nil => intro acc; simp
  | cons r t ih =>
    intro acc
    rw [List.foldl_cons, ih]
    simp only [addScores, List.map_cons, List.sum_cons, Scores.mk.injEq]
    refine ⟨?_, ?_, ?_⟩ <;> ring

/-- `roundDiv` is rounding to the nearest integer, halves upwards: the floor
of the quotient plus one half. -/
theorem roundDiv_eq_floor (total : Int) (count : Nat) (hc : 0 < count) :
    roundDiv total count = ⌊(total : ℚ) / count + 1 / 2⌋ := by
  have hq : (count : ℚ) ≠ 0 := by exact_mod_cast hc.ne'
  have e : (total : ℚ) / count + 1 / 2 = ((2 * total + count : ℤ) : ℚ) / ((2 * count : ℕ) : ℚ) := by
    push_cast
    field_simp
    ring
  rw [e, Rat.floor_intCast_div_natCast]
  simp [roundDiv]

/-- The average scores of a non-empty list, through the column sums. -/
theorem generateSiteSummary_averageScores (rs : List PageAuditResult)
    (errors : List AuditError) (hne : rs ≠ []) :
    (generateSiteSummary rs errors).averageScores =
      ⟨roundDiv (rs.map fun r => r.scores.performance).sum rs.length,
        roundDiv (rs.map fun r => r.scores.accessibility).sum rs.length,
        roundDiv (rs.map fun r => r.scores.seo).sum rs.length⟩ := by
  cases rs with
  | nil => exact absurd rfl hne
  | cons first others =>
    simp only [generateSiteSummary, foldl_addScores, zero_add]

/-- C12: for every non-empty list of page results, each average score of
`generateSiteSummary` is the arithmetic mean of that category's scores rounded
to the nearest integer, halves upwards; it is `(2 * sum + n) / (2 * n)` with
integer (floor) division. -/
theorem generateSiteSummary_average_rounded (rs : List PageAuditResult)
    (errors : List AuditError) (hne : rs ≠ []) :
    ((generateSiteSummary rs errors).averageScores.performance =
        ⌊(((rs.map fun r => r.scores.performance).sum : ℤ) : ℚ) / rs.length + 1 / 2⌋ ∧
      (generateSiteSummary rs errors).averageScores.performance =
        (2 * (rs.map fun r => r.scores.performance).sum + rs.length) / (2 * rs.length)) ∧
    ((generateSiteSummary rs errors).averageScores.accessibility =
        ⌊(((rs.map fun r => r.scores.accessibility).sum : ℤ) : ℚ) / rs.length + 1 / 2⌋ ∧
      (generateSiteSummary rs errors).averageScores.accessibility =
        (2 * (rs.map fun r => r.scores.accessibility).sum + rs.length) / (2 * rs.length)) ∧
    ((generateSiteSummary rs errors).averageScores.seo =
        ⌊(((rs.map fun r => r.scores.seo).sum : ℤ) : ℚ) / rs.length + 1 / 2⌋ ∧
      (generateSiteSummary rs errors).averageScores.seo =
        (2 * (rs.map fun r => r.scores.seo).sum + rs.length) / (2 * rs.length)) := by
  have hn : 0 < rs.length := List.length_pos.mpr hne
  rw [generateSiteSummary_averageScores rs errors hne]
  refine ⟨⟨roundDiv_eq_floor _ _ hn, rfl⟩, ⟨roundDiv_eq_floor _ _ hn, rfl⟩,
    ⟨roundDiv_eq_floor _ _ hn, rfl⟩⟩

/-- Witness of C12: performance scores 80, 90 and 100 give the average 90. -/
theorem generateSiteSummary_average_rounded_witness :
    risingPages ≠ [] ∧
    (risingPages.map fun r => r.scores.performance) = [80, 90, 100] ∧
    (generateSiteSummary risingPages []).averageScores.performance = 90 ∧
    (generateSiteSummary risingPages []).averageScores.performance =
      (2 * (risingPages.map fun r => r.scores.performance).sum + risingPages.length) /
        (2 * risingPages.length) :=
  ⟨by decide, by decide, by decide,
    (generateSiteSummary_average_rounded risingPages [] (by decide)).1.2⟩

/-- The third `reduce`, continued from `acc`: if `acc` is strictly better than
everything before it in `seen` and at least as good as everything after it,
the final page splits `seen ++ rest` the same way. -/
theorem foldl_pickBest_split (rest : List PageAuditResult) :
    ∀ (pre : List PageAuditResult) (acc : PageAuditResult) (post : List PageAuditResult),
      (∀ y ∈ pre, meanScore y < meanScore acc) →
      (∀ y ∈ post, meanScore y ≤ meanScore acc) →
      ∃ pre' b post', pre ++ acc :: post ++ rest = pre' ++ b :: post' ∧
        (∀ y ∈ pre', meanScore y < meanScore b) ∧
        (∀ y ∈ post', meanScore y ≤ meanScore b) ∧
        rest.foldl pickBest acc = b := by
  induction rest with
  | nil =>
    intro pre acc post h₁ h₂
    exact ⟨pre, acc, post, by simp, h₁, h₂, rfl⟩
  | cons x t ih =>
    intro pre acc post h₁ h₂
    rw [List.foldl_cons]
    by_cases hx : meanScore x > meanScore acc
    · obtain ⟨pre', b, post', e, a₁, a₂, a₃⟩ := ih (pre ++ acc :: post) x [] (by
        intro y hy
        rcases List.mem_append.mp hy with hy | hy
        · exact lt_trans (h₁ y hy) hx
        · rcases List.mem_cons.mp hy with hy | hy
          · rw [hy]; exact hx
          · exact lt_of_le_of_lt (h₂ y hy) hx) (by simp)
      refine ⟨pre', b, post', ?_, a₁, a₂, ?_⟩
      · rw [← e]; simp
      · simpa [pickBest, hx] using a₃
    · obtain ⟨pre', b, post', e, a₁, a₂, a₃⟩ := ih pre acc (post ++ [x]) h₁ (by
        intro y hy
        rcases List.mem_append.mp hy with hy | hy
        · exact h₂ y hy
        · rw [List.mem_singleton] at hy
          rw [hy]; exact not_lt.mp hx)
      refine ⟨pre', b, post', ?_, a₁, a₂, ?_⟩
      · rw [← e]; simp
      · simpa [pickBest, hx] using a₃

/-- The fourth `reduce`, continued from `acc`: the mirror image of
`foldl_pickBest_split`. -/
theorem foldl_pickWorst_split (rest : List PageAuditResult) :
    ∀ (pre : List PageAuditResult) (acc : PageAuditResult) (post : List PageAuditResult),
      (∀ y ∈ pre, meanScore acc < meanScore y) →
      (∀ y ∈ post, meanScore acc ≤ meanScore y) →
      ∃ pre' w post', pre ++ acc :: post ++ rest = pre' ++ w :: post' ∧
        (∀ y ∈ pre', meanScore w < meanScore y) ∧
        (∀ y ∈ post', meanScore w ≤ meanScore y) ∧
        rest.foldl pickWorst acc = w := by
  induction rest with
  | nil =>
    intro pre acc post h₁ h₂
    exact ⟨pre, acc, post, by simp, h₁, h₂, rfl⟩
  | cons x t ih =>
    intro pre acc post h₁ h₂
    rw [List.foldl_cons]
    by_cases hx : meanScore x < meanScore acc
    · obtain ⟨pre', b, post', e, a₁, a₂, a₃⟩ := ih (pre ++ acc :: post) x [] (by
        intro y hy
        rcases List.mem_append.mp hy with hy | hy
        · exact lt_trans hx (h₁ y hy)
        · rcases List.mem_cons.mp hy with hy | hy
          · rw [hy]; exact hx
          · exact lt_of_lt_of_le hx (h₂ y hy)) (by simp)
      refine ⟨pre', b, post', ?_, a₁, a₂, ?_⟩
      · rw [← e]; simp
      · simpa [pickWorst, hx] using a₃
    · obtain ⟨pre', b, post', e, a₁, a₂, a₃⟩ := ih pre acc (post ++ [x]) h₁ (by
        intro y hy
        rcases List.mem_append.mp hy with hy | hy
        · exact h₂ y hy
        · rw [List.mem_singleton] at hy
          rw [hy]; exact not_lt.mp hx)
      refine ⟨pre', b, post', ?_, a₁, a₂, ?_⟩
      · rw [← e]; simp
      · simpa [pickWorst, hx] using a₃

/-- The best page of a non-empty list: the first page of maximal mean. -/
theorem generateSiteSummary_best (rs : List PageAuditResult) (errors : List AuditError)
    (hne : rs ≠ []) :
    ∃ pre b post, rs = pre ++ b :: post ∧
      (∀ y ∈ pre, meanScore y < meanScore b) ∧ (∀ y ∈ post, meanScore y ≤ meanScore b) ∧
      (generateSiteSummary rs errors).bestPerformingPage = some ⟨b.url, b.scores⟩ := by
  cases rs with
  | nil => exact absurd rfl hne
  | cons first others =>
    obtain ⟨pre, b, post, e, a₁, a₂, a₃⟩ :=
      foldl_pickBest_split others [] first [] (by simp) (by simp)
    refine ⟨pre, b, post, by simpa using e, a₁, a₂, ?_⟩
    simp only [generateSiteSummary, a₃]

/-- The worst page of a non-empty list: the first page of minimal mean. -/
theorem generateSiteSummary_worst (rs : List PageAuditResult) (errors : List AuditError)
    (hne : rs ≠ []) :
    ∃ pre w post, rs = pre ++ w :: post ∧
      (∀ y ∈ pre, meanScore w < meanScore y) ∧ (∀ y ∈ post, meanScore w ≤ meanScore y) ∧
      (generateSiteSummary rs errors).worstPerformingPage = some ⟨w.url, w.scores⟩ := by
  cases rs with
  | nil => exact absurd rfl hne
  | cons first others =>
    obtain ⟨pre, w, post, e, a₁, a₂, a₃⟩ :=
      foldl_pickWorst_split others [] first [] (by simp) (by simp)
    refine ⟨pre, w, post, by simpa using e, a₁, a₂, ?_⟩
    simp only [generateSiteSummary, a₃]

/-- The means of two pages are ordered as the sums of their three scores. -/
theorem meanScore_lt_iff (x y : PageAuditResult) :
    meanScore x < meanScore y ↔
      x.scores.performance + x.scores.accessibility + x.scores.seo <
        y.scores.performance + y.scores.accessibility + y.scores.seo := by
  unfold meanScore
  rw [div_lt_div_iff_of_pos_right (by norm_num : (0 : ℚ) < 3)]
  exact Int.cast_lt

/-- The means of two pages are ordered as the sums of their three scores. -/
theorem meanScore_le_iff (x y : PageAuditResult) :
    meanScore x ≤ meanScore y ↔
      x.scores.performance + x.scores.accessibility + x.scores.seo ≤
        y.scores.performance + y.scores.accessibility + y.scores.seo := by
  unfold meanScore
  rw [div_le_div_iff_of_pos_right (by norm_num : (0 : ℚ) < 3)]
  exact Int.cast_le

/-- A list has at most one element that is strictly above everything before
it and not below anything after it. -/
theorem first_max_unique {α : Type} (f : α → Int) (pre post pre' post' : List α) (b b' : α)
    (e : pre ++ b :: post = pre' ++ b' :: post')
    (h₁ : ∀ y ∈ pre, f y < f b) (h₂ : ∀ y ∈ post, f y ≤ f b)
    (h₁' : ∀ y ∈ pre', f y < f b') (h₂' : ∀ y ∈ post', f y ≤ f b') : b = b' := by
  rcases List.append_eq_append_iff.mp e with ⟨a, ea, eb⟩ | ⟨c, ec, eb⟩
  · cases a with
    | nil =>
      simp only [List.nil_append, List.cons.injEq] at eb
      exact eb.1
    | cons x t =>
      simp only [List.cons_append, List.cons.injEq] at eb
      have hb : f b < f b' := h₁' b (by rw [ea, ← eb.1]; simp)
      have hb' : f b' ≤ f b := h₂ b' (by rw [eb.2]; simp)
      omega
  · cases c with
    | nil =>
      simp only [List.nil_append, List.cons.injEq] at eb
      exact eb.1.symm
    | cons x t =>
      simp only [List.cons_append, List.cons.injEq] at eb
      have hb : f b' < f b := h₁ b' (by rw [ec, ← eb.1]; simp)
      have hb' : f b ≤ f b' := h₂' b (by rw [eb.2]; simp)
      omega

/-- The best page is the first page whose score sum is maximal. -/
theorem generateSiteSummary_best_of_sums (rs : List PageAuditResult)
    (errors : List AuditError) (pre post : List PageAuditResult) (b : PageAuditResult)
    (e : rs = pre ++ b :: post)
    (h₁ : ∀ y ∈ pre, y.scores.performance + y.scores.accessibility + y.scores.seo <
      b.scores.performance + b.scores.accessibility + b.scores.seo)
    (h₂ : ∀ y ∈ post, y.scores.performance + y.scores.accessibility + y.scores.seo ≤
      b.scores.performance + b.scores.accessibility + b.scores.seo) :
    (generateSiteSummary rs errors).bestPerformingPage = some ⟨b.url, b.scores⟩ := by
  have hne : rs ≠ [] := by rw [e]; simp
  obtain ⟨pre', b', post', e', a₁, a₂, a₃⟩ := generateSiteSummary_best rs errors hne
  have hb : b = b' :=
    first_max_unique
      (fun y => y.scores.performance + y.scores.accessibility + y.scores.seo)
      pre post pre' post' b b' (e ▸ e') h₁ h₂
      (fun y hy => (meanScore_lt_iff y b').mp (a₁ y hy))
      (fun y hy => (meanScore_le_iff y b').mp (a₂ y hy))
  rw [a₃, hb]

/-- The worst page is the first page whose score sum is minimal. -/
theorem generateSiteSummary_worst_of_sums (rs : List PageAuditResult)
    (errors : List AuditError) (pre post : List PageAuditResult) (w : PageAuditResult)
    (e : rs = pre ++ w :: post)
    (h₁ : ∀ y ∈ pre, w.scores.performance + w.scores.accessibility + w.scores.seo <
      y.scores.performance + y.scores.accessibility + y.scores.seo)
    (h₂ : ∀ y ∈ post, w.scores.performance + w.scores.accessibility + w.scores.seo ≤
      y.scores.performance + y.scores.accessibility + y.scores.seo) :
    (generateSiteSummary rs errors).worstPerformingPage = some ⟨w.url, w.scores⟩ := by
  have hne : rs ≠ [] := by rw [e]; simp
  obtain ⟨pre', w', post', e', a₁, a₂, a₃⟩ := generateSiteSummary_worst rs errors hne
  have hw : w = w' :=
    first_max_unique
      (fun y => -(y.scores.performance + y.scores.accessibility + y.scores.seo))
      pre post pre' post' w w' (e ▸ e')
      (fun y hy => by have := h₁ y hy; simp only; omega)
      (fun y hy => by have := h₂ y hy; simp only; omega)
      (fun y hy => by have := (meanScore_lt_iff w' y).mp (a₁ y hy); simp only; omega)
      (fun y hy => by have := (meanScore_le_iff w' y).mp (a₂ y hy); simp only; omega)
  rw [a₃, hw]

/-- C13: for every non-empty list of page results, `bestPerformingPage` is the
first page whose mean score is maximal and `worstPerformingPage` is the first
page whose mean is minimal; so when all pages tie, the page at index 0 is both.
The mean of a page is the sum of its three scores over 3, so means are
compared here as the sums are.  Such a first page exists (every page before
it has a strictly smaller sum, every page after it a sum not larger), and
whichever page splits the list in that way is the one reported. -/
theorem generateSiteSummary_best_worst_first (rs : List PageAuditResult)
    (errors : List AuditError) (hne : rs ≠ []) :
    (∃ pre b post, rs = pre ++ b :: post ∧
      (∀ y ∈ pre, y.scores.performance + y.scores.accessibility + y.scores.seo <
        b.scores.performance + b.scores.accessibility + b.scores.seo) ∧
      (∀ y ∈ post, y.scores.performance + y.scores.accessibility + y.scores.seo ≤
        b.scores.performance + b.scores.accessibility + b.scores.seo) ∧
      (generateSiteSummary rs errors).bestPerformingPage = some ⟨b.url, b.scores⟩) ∧
    (∃ pre w post, rs = pre ++ w :: post ∧
      (∀ y ∈ pre, w.scores.performance + w.scores.accessibility + w.scores.seo <
        y.scores.performance + y.scores.accessibility + y.scores.seo) ∧
      (∀ y ∈ post, w.scores.performance + w.scores.accessibility + w.scores.seo ≤
        y.scores.performance + y.scores.accessibility + y.scores.seo) ∧
      (generateSiteSummary rs errors).worstPerformingPage = some ⟨w.url, w.scores⟩) ∧
    (∀ pre b post, rs = pre ++ b :: post →
      (∀ y ∈ pre, y.scores.performance + y.scores.accessibility + y.scores.seo <
        b.scores.performance + b.scores.accessibility + b.scores.seo) →
      (∀ y ∈ post, y.scores.performance + y.scores.accessibility + y.scores.seo ≤
        b.scores.performance + b.scores.accessibility + b.scores.seo) →
      (generateSiteSummary rs errors).bestPerformingPage = some ⟨b.url, b.scores⟩) ∧
    (∀ pre w post, rs = pre ++ w :: post →
      (∀ y ∈ pre, w.scores.performance + w.scores.accessibility + w.scores.seo <
        y.scores.performance + y.scores.accessibility + y.scores.seo) →
      (∀ y ∈ post, w.scores.performance + w.scores.accessibility + w.scores.seo ≤
        y.scores.performance + y.scores.accessibility + y.scores.seo) →
      (generateSiteSummary rs errors).worstPerformingPage = some ⟨w.url, w.scores⟩) ∧
    (∀ first others, rs = first :: others →
      (∀ y ∈ others, y.scores.performance + y.scores.accessibility + y.scores.seo =
        first.scores.performance + first.scores.accessibility + first.scores.seo) →
      (generateSiteSummary rs errors).bestPerformingPage = some ⟨first.url, first.scores⟩ ∧
      (generateSiteSummary rs errors).worstPerformingPage =
        some ⟨first.url, first.scores⟩) := by
  refine ⟨?_, ?_, ?_, ?_, ?_⟩
  · obtain ⟨pre, b, post, e, a₁, a₂, a₃⟩ := generateSiteSummary_best rs errors hne
    exact ⟨pre, b, post, e, fun y hy => (meanScore_lt_iff y b).mp (a₁ y hy),
      fun y hy => (meanScore_le_iff y b).mp (a₂ y hy), a₃⟩
  · obtain ⟨pre, w, post, e, a₁, a₂, a₃⟩ := generateSiteSummary_worst rs errors hne
    exact ⟨pre, w, post, e, fun y hy => (meanScore_lt_iff w y).mp (a₁ y hy),
      fun y hy => (meanScore_le_iff w y).mp (a₂ y hy), a₃⟩
  · intro pre b post e h₁ h₂
    exact generateSiteSummary_best_of_sums rs errors pre post b e h₁ h₂
  · intro pre w post e h₁ h₂
    exact generateSiteSummary_worst_of_sums rs errors pre post w e h₁ h₂
  · intro first others e htie
    exact ⟨generateSiteSummary_best_of_sums rs errors [] others first e (by simp)
        (fun y hy => le_of_eq (htie y hy)),
      generateSiteSummary_worst_of_sums rs errors [] others first e (by simp)
        (fun y hy => le_of_eq (htie y hy).symm)⟩

/-- Witness of C13: the three tied pages of scenario B, where index 0 is both
best and worst; the rising pages, whose best page is the last one; and the
rising pages in reverse order, whose worst page is the last one. -/
theorem generateSiteSummary_best_worst_first_witness :
    tiedPages ≠ [] ∧
    ((generateSiteSummary tiedPages []).bestPerformingPage =
        some ⟨"https://example.com", ⟨90, 80, 70⟩⟩ ∧
      (generateSiteSummary tiedPages []).worstPerformingPage =
        some ⟨"https://example.com", ⟨90, 80, 70⟩⟩) ∧
    (generateSiteSummary tiedPages []).averageScores = ⟨80, 80, 80⟩ ∧
    (generateSiteSummary risingPages []).bestPerformingPage =
      some ⟨"https://example.com/b", ⟨100, 71, 61⟩⟩ ∧
    (generateSiteSummary risingPages.reverse []).worstPerformingPage =
      some ⟨"https://example.com", ⟨80, 70, 60⟩⟩ :=
  ⟨by decide,
    (generateSiteSummary_best_worst_first tiedPages [] (by decide)).2.2.2.2
      (pageWith "https://example.com" 90 80 70)
      [pageWith "https://example.com/a" 70 90 80, pageWith "https://example.com/b" 80 70 90]
      rfl (by decide),
    by decide,
    (generateSiteSummary_best_worst_first risingPages [] (by decide)).2.2.1
      [pageWith "https://example.com" 80 70 60, pageWith "https://example.com/a" 90 70 61]
      (pageWith "https://example.com/b" 100 71 61) [] rfl (by decide) (by decide),
    (generateSiteSummary_best_worst_first risingPages.reverse [] (by decide)).2.2.2.1
      [pageWith "https://example.com/b" 100 71 61, pageWith "https://example.com/a" 90 70 61]
      (pageWith "https://example.com" 80 70 60) [] rfl (by decide) (by decide)⟩

/-- C14: `generateSiteSummary([], errors)` is, for every `errors`, the summary
with all averages 0, all issue counts 0, page count 0 and neither a best nor a
worst page; and both page fields are present for every non-empty result
list. -/
theorem generateSiteSummary_empty_safe :
    (∀ errors : List AuditError,
      generateSiteSummary [] errors = ⟨⟨0, 0, 0⟩, ⟨0, 0, 0⟩, 0, none, none⟩) ∧
    (∀ (rs : List PageAuditResult) (errors : List AuditError), rs ≠ [] →
      (generateSiteSummary rs errors).bestPerformingPage.isSome = true ∧
      (generateSiteSummary rs errors).worstPerformingPage.isSome = true) := by
  refine ⟨fun _ => rfl, ?_⟩
  intro rs errors hne
  cases rs with
  | nil => exact absurd rfl hne
  | cons first others => exact ⟨rfl, rfl⟩

/-- Witness of C14: an empty result list with two errors, and the one-page
list of the scenario report. -/
theorem generateSiteSummary_empty_safe_witness :
    generateSiteSummary [] scenarioReport.errors = ⟨⟨0, 0, 0⟩, ⟨0, 0, 0⟩, 0, none, none⟩ ∧
    scenarioReport.auditResults ≠ [] ∧
    (generateSiteSummary scenarioReport.auditResults []).bestPerformingPage.isSome = true ∧
    (generateSiteSummary scenarioReport.auditResults []).worstPerformingPage.isSome = true :=
  ⟨generateSiteSummary_empty_safe.1 scenarioReport.errors, by decide,
    generateSiteSummary_empty_safe.2 scenarioReport.auditResults [] (by decide)⟩

/-- The `forEach` of the second `reduce` adds, per impact level, the number of
issues with that impact. -/
theorem foldl_countIssue (issues : List Issue) :
    ∀ acc : IssueCounts,
      issues.foldl countIssue acc =
        ⟨acc.critical + issues.countP (fun i => i.impact = "Critical"),
          acc.moderate + issues.countP (fun i => i.impact = "Moderate"),
          acc.minor + issues.countP (fun i => i.impact = "Minor")⟩ := by
  induction issues with
  | nil => intro acc; simp
  | cons i t ih =>
    intro acc
    rw [List.foldl_cons, ih]
    unfold countIssue
    by_cases h₁ : i.impact = "Critical"
    · simp [h₁, List.countP_cons, Nat.add_assoc, Nat.add_comm]
    · by_cases h₂ : i.impact = "Moderate"
      · simp [h₁, h₂, List.countP_cons, Nat.add_assoc, Nat.add_comm]
      · by_cases h₃ : i.impact = "Minor"
        · simp [h₁, h₂, h₃, List.countP_cons, Nat.add_assoc, Nat.add_comm]
        · simp [h₁, h₂, h₃, List.countP_cons]

/-- The second `reduce` adds the counts over all issues of all pages. -/
theorem foldl_addIssues (rs : List PageAuditResult) :
    ∀ acc : IssueCounts,
      rs.foldl addIssues acc =
        ⟨acc.critical + (rs.flatMap allIssues).countP (fun i => i.impact = "Critical"),
          acc.moderate + (rs.flatMap allIssues).countP (fun i => i.impact = "Moderate"),
          acc.minor + (rs.flatMap allIssues).countP (fun i => i.impact = "Minor")⟩ := by
  induction rs with
  | nil => intro acc; simp
  | cons r t ih =>
    intro acc
    rw [List.foldl_cons, ih, addIssues, foldl_countIssue]
    simp only [List.flatMap_cons, List.countP_append, allIssues, IssueCounts.mk.injEq]
    refine ⟨?_, ?_, ?_⟩ <;> omega

/-- The issue counts of any result list, through the issues of all pages. -/
theorem generateSiteSummary_totalIssues (rs : List PageAuditResult)
    (errors : List AuditError) :
    (generateSiteSummary rs errors).totalIssues =
      ⟨(rs.flatMap allIssues).countP (fun i => i.impact = "Critical"),
        (rs.flatMap allIssues).countP (fun i => i.impact = "Moderate"),
        (rs.flatMap allIssues).countP (fun i => i.impact = "Minor")⟩ := by
  cases rs with
  | nil => simp [generateSiteSummary]
  | cons first others =>
    simp only [generateSiteSummary, foldl_addIssues, Nat.zero_add]

/-- C15: `totalIssues.critical`, `.moderate` and `.minor` of
`generateSiteSummary` are the numbers of issues with impact `Critical`,
`Moderate` and `Minor` in the concatenation of the performance, accessibility
and seo lists of all pages; an issue listed under two categories counts
twice. -/
theorem generateSiteSummary_issue_counts (rs : List PageAuditResult)
    (errors : List AuditError) :
    (generateSiteSummary rs errors).totalIssues.critical =
      (rs.flatMap fun r => r.performance ++ r.accessibility ++ r.seo).countP
        (fun i => i.impact = "Critical") ∧
    (generateSiteSummary rs errors).totalIssues.moderate =
      (rs.flatMap fun r => r.performance ++ r.accessibility ++ r.seo).countP
        (fun i => i.impact = "Moderate") ∧
    (generateSiteSummary rs errors).totalIssues.minor =
      (rs.flatMap fun r => r.performance ++ r.accessibility ++ r.seo).countP
        (fun i => i.impact = "Minor") := by
  rw [generateSiteSummary_totalIssues]
  exact ⟨rfl, rfl, rfl⟩

/-- The summary does not depend on the order of the results in its averages,
issue counts and page count. -/
theorem generateSiteSummary_perm_totals (l₁ l₂ : List PageAuditResult)
    (errors₁ errors₂ : List AuditError) (hperm : l₁.Perm l₂) :
    (generateSiteSummary l₁ errors₁).averageScores =
      (generateSiteSummary l₂ errors₂).averageScores ∧
    (generateSiteSummary l₁ errors₁).totalIssues =
      (generateSiteSummary l₂ errors₂).totalIssues ∧
    (generateSiteSummary l₁ errors₁).pageCount =
      (generateSiteSummary l₂ errors₂).pageCount := by
  refine ⟨?_, ?_, ?_⟩
  · by_cases h₁ : l₁ = []
    · subst h₁
      have e := List.Perm.nil_eq hperm
      subst e
      rfl
    · have h₂ : l₂ ≠ [] := fun e => h₁ (List.Perm.eq_nil (e ▸ hperm))
      rw [generateSiteSummary_averageScores l₁ errors₁ h₁,
        generateSiteSummary_averageScores l₂ errors₂ h₂, hperm.length_eq,
        (hperm.map fun r => r.scores.performance).sum_eq,
        (hperm.map fun r => r.scores.accessibility).sum_eq,
        (hperm.map fun r => r.scores.seo).sum_eq]
  · rw [generateSiteSummary_totalIssues, generateSiteSummary_totalIssues,
      (hperm.flatMap_right allIssues).countP_eq, (hperm.flatMap_right allIssues).countP_eq,
      (hperm.flatMap_right allIssues).countP_eq]
  · cases l₁ with
    | nil =>
      have e := List.Perm.nil_eq hperm
      subst e
      rfl
    | cons a t =>
      cases l₂ with
      | nil => exact absurd (List.Perm.eq_nil hperm) (by simp)
      | cons b u =>
        simp only [generateSiteSummary]
        exact hperm.length_eq

/-- C16, counterexample: the three tied pages of scenario B and the same
pages in reverse order are permutations of each other with different
summaries (the best page is the one listed first). -/
theorem generateSiteSummary_order_dependent :
    tiedPages.Perm tiedPages.reverse ∧
    (generateSiteSummary tiedPages []).bestPerformingPage =
      some ⟨"https://example.com", ⟨90, 80, 70⟩⟩ ∧
    (generateSiteSummary tiedPages.reverse []).bestPerformingPage =
      some ⟨"https://example.com/b", ⟨80, 70, 90⟩⟩ ∧
    generateSiteSummary tiedPages [] ≠ generateSiteSummary tiedPages.reverse [] := by
  have h₁ : (generateSiteSummary tiedPages []).bestPerformingPage =
      some ⟨"https://example.com", ⟨90, 80, 70⟩⟩ := by
    simp [generateSiteSummary, tiedPages, pickBest, meanScore, pageWith]
  have h₂ : (generateSiteSummary tiedPages.reverse []).bestPerformingPage =
      some ⟨"https://example.com/b", ⟨80, 70, 90⟩⟩ := by
    simp [generateSiteSummary, tiedPages, pickBest, meanScore, pageWith]
  refine ⟨(List.reverse_perm tiedPages).symm, h₁, h₂, ?_⟩
  intro h
  rw [h] at h₁
  rw [h₁] at h₂
  simp at h₂

/-- The page reported as best has the greatest score sum of the list. -/
theorem generateSiteSummary_best_mem (rs : List PageAuditResult) (errors : List AuditError)
    (hne : rs ≠ []) :
    ∃ b ∈ rs, (∀ z ∈ rs, z.scores.performance + z.scores.accessibility + z.scores.seo ≤
        b.scores.performance + b.scores.accessibility + b.scores.seo) ∧
      (generateSiteSummary rs errors).bestPerformingPage = some ⟨b.url, b.scores⟩ := by
  obtain ⟨pre, b, post, e, a₁, a₂, a₃⟩ := generateSiteSummary_best rs errors hne
  refine ⟨b, by rw [e]; simp, ?_, a₃⟩
  intro z hz
  rw [e] at hz
  rcases List.mem_append.mp hz with h | h
  · exact le_of_lt ((meanScore_lt_iff z b).mp (a₁ z h))
  · rcases List.mem_cons.mp h with h | h
    · rw [h]
    · exact (meanScore_le_iff z b).mp (a₂ z h)

/-- The page reported as worst has the least score sum of the list. -/
theorem generateSiteSummary_worst_mem (rs : List PageAuditResult) (errors : List AuditError)
    (hne : rs ≠ []) :
    ∃ w ∈ rs, (∀ z ∈ rs, w.scores.performance + w.scores.accessibility + w.scores.seo ≤
        z.scores.performance + z.scores.accessibility + z.scores.seo) ∧
      (generateSiteSummary rs errors).worstPerformingPage = some ⟨w.url, w.scores⟩ := by
  obtain ⟨pre, w, post, e, a₁, a₂, a₃⟩ := generateSiteSummary_worst rs errors hne
  refine ⟨w, by rw [e]; simp, ?_, a₃⟩
  intro z hz
  rw [e] at hz
  rcases List.mem_append.mp hz with h | h
  · exact le_of_lt ((meanScore_lt_iff w z).mp (a₁ z h))
  · rcases List.mem_cons.mp h with h | h
    · rw [h]
    · exact (meanScore_le_iff w z).mp (a₂ z h)

/-- A page whose score sum is the greatest can be listed first, and is then
the one reported as best. -/
theorem generateSiteSummary_best_listed_first (rs : List PageAuditResult)
    (errors : List AuditError) (x : PageAuditResult) (hx : x ∈ rs)
    (hmax : ∀ z ∈ rs, z.scores.performance + z.scores.accessibility + z.scores.seo ≤
      x.scores.performance + x.scores.accessibility + x.scores.seo) :
    rs.Perm (x :: rs.erase x) ∧
    (generateSiteSummary (x :: rs.erase x) errors).bestPerformingPage =
      some ⟨x.url, x.scores⟩ :=
  ⟨List.perm_cons_erase hx,
    generateSiteSummary_best_of_sums _ errors [] (rs.erase x) x rfl (by simp)
      (fun y hy => hmax y (List.mem_of_mem_erase hy))⟩

/-- A page whose score sum is the least can be listed first, and is then the
one reported as worst. -/
theorem generateSiteSummary_worst_listed_first (rs : List PageAuditResult)
    (errors : List AuditError) (x : PageAuditResult) (hx : x ∈ rs)
    (hmin : ∀ z ∈ rs, x.scores.performance + x.scores.accessibility + x.scores.seo ≤
      z.scores.performance + z.scores.accessibility + z.scores.seo) :
    rs.Perm (x :: rs.erase x) ∧
    (generateSiteSummary (x :: rs.erase x) errors).worstPerformingPage =
      some ⟨x.url, x.scores⟩ :=
  ⟨List.perm_cons_erase hx,
    generateSiteSummary_worst_of_sums _ errors [] (rs.erase x) x rfl (by simp)
      (fun y hy => hmin y (List.mem_of_mem_erase hy))⟩

/-- C16 as amended: for every permutation of the result list the summary has
the same `averageScores`, `totalIssues` and `pageCount`.  It has the same
`bestPerformingPage` when all results of maximal mean (of greatest score sum)
have the same url and scores, and the same `worstPerformingPage` when all
results of minimal mean have the same url and scores.  When two results of
maximal (minimal) mean differ in url or scores, two orders of the list report
different best (worst) pages. -/
theorem generateSiteSummary_perm (l₁ l₂ : List PageAuditResult)
    (errors₁ errors₂ : List AuditError) (hperm : l₁.Perm l₂) :
    (generateSiteSummary l₁ errors₁).averageScores =
      (generateSiteSummary l₂ errors₂).averageScores ∧
    (generateSiteSummary l₁ errors₁).totalIssues =
      (generateSiteSummary l₂ errors₂).totalIssues ∧
    (generateSiteSummary l₁ errors₁).pageCount =
      (generateSiteSummary l₂ errors₂).pageCount ∧
    ((∀ x ∈ l₁, ∀ y ∈ l₁,
        (∀ z ∈ l₁, z.scores.performance + z.scores.accessibility + z.scores.seo ≤
          x.scores.performance + x.scores.accessibility + x.scores.seo) →
        (∀ z ∈ l₁, z.scores.performance + z.scores.accessibility + z.scores.seo ≤
          y.scores.performance + y.scores.accessibility + y.scores.seo) →
        (⟨x.url, x.scores⟩ : PageRef) = ⟨y.url, y.scores⟩) →
      (generateSiteSummary l₁ errors₁).bestPerformingPage =
        (generateSiteSummary l₂ errors₂).bestPerformingPage) ∧
    ((∀ x ∈ l₁, ∀ y ∈ l₁,
        (∀ z ∈ l₁, x.scores.performance + x.scores.accessibility + x.scores.seo ≤
          z.scores.performance + z.scores.accessibility + z.scores.seo) →
        (∀ z ∈ l₁, y.scores.performance + y.scores.accessibility + y.scores.seo ≤
          z.scores.performance + z.scores.accessibility + z.scores.seo) →
        (⟨x.url, x.scores⟩ : PageRef) = ⟨y.url, y.scores⟩) →
      (generateSiteSummary l₁ errors₁).worstPerformingPage =
        (generateSiteSummary l₂ errors₂).worstPerformingPage) ∧
    (∀ x ∈ l₁, ∀ y ∈ l₁,
        (∀ z ∈ l₁, z.scores.performance + z.scores.accessibility + z.scores.seo ≤
          x.scores.performance + x.scores.accessibility + x.scores.seo) →
        (∀ z ∈ l₁, z.scores.performance + z.scores.accessibility + z.scores.seo ≤
          y.scores.performance + y.scores.accessibility + y.scores.seo) →
        (⟨x.url, x.scores⟩ : PageRef) ≠ ⟨y.url, y.scores⟩ →
        ∃ m₁ m₂, l₁.Perm m₁ ∧ l₁.Perm m₂ ∧
          (generateSiteSummary m₁ errors₁).bestPerformingPage ≠
            (generateSiteSummary m₂ errors₁).bestPerformingPage) ∧
    (∀ x ∈ l₁, ∀ y ∈ l₁,
        (∀ z ∈ l₁, x.scores.performance + x.scores.accessibility + x.scores.seo ≤
          z.scores.performance + z.scores.accessibility + z.scores.seo) →
        (∀ z ∈ l₁, y.scores.performance + y.scores.accessibility + y.scores.seo ≤
          z.scores.performance + z.scores.accessibility + z.scores.seo) →
        (⟨x.url, x.scores⟩ : PageRef) ≠ ⟨y.url, y.scores⟩ →
        ∃ m₁ m₂, l₁.Perm m₁ ∧ l₁.Perm m₂ ∧
          (generateSiteSummary m₁ errors₁).worstPerformingPage ≠
            (generateSiteSummary m₂ errors₁).worstPerformingPage) := by
  obtain ⟨ha, hi, hc⟩ := generateSiteSummary_perm_totals l₁ l₂ errors₁ errors₂ hperm
  refine ⟨ha, hi, hc, ?_, ?_, ?_, ?_⟩
  · intro hsame
    by_cases h₁ : l₁ = []
    · subst h₁
      have e := List.Perm.nil_eq hperm
      subst e
      rfl
    · have h₂ : l₂ ≠ [] := fun e => h₁ (List.Perm.eq_nil (e ▸ hperm))
      obtain ⟨b₁, m₁, top₁, r₁⟩ := generateSiteSummary_best_mem l₁ errors₁ h₁
      obtain ⟨b₂, m₂, top₂, r₂⟩ := generateSiteSummary_best_mem l₂ errors₂ h₂
      rw [r₁, r₂, hsame b₁ m₁ b₂ (hperm.mem_iff.mpr m₂) top₁
        (fun z hz => top₂ z (hperm.mem_iff.mp hz))]
  · intro hsame
    by_cases h₁ : l₁ = []
    · subst h₁
      have e := List.Perm.nil_eq hperm
      subst e
      rfl
    · have h₂ : l₂ ≠ [] := fun e => h₁ (List.Perm.eq_nil (e ▸ hperm))
      obtain ⟨w₁, m₁, bot₁, r₁⟩ := generateSiteSummary_worst_mem l₁ errors₁ h₁
      obtain ⟨w₂, m₂, bot₂, r₂⟩ := generateSiteSummary_worst_mem l₂ errors₂ h₂
      rw [r₁, r₂, hsame w₁ m₁ w₂ (hperm.mem_iff.mpr m₂) bot₁
        (fun z hz => bot₂ z (hperm.mem_iff.mp hz))]
  · intro x hx y hy topx topy hne
    obtain ⟨px, rx⟩ := generateSiteSummary_best_listed_first l₁ errors₁ x hx topx
    obtain ⟨py, ry⟩ := generateSiteSummary_best_listed_first l₁ errors₁ y hy topy
    refine ⟨_, _, px, py, ?_⟩
    rw [rx, ry]
    exact fun h => hne (Option.some.inj h)
  · intro x hx y hy botx boty hne
    obtain ⟨px, rx⟩ := generateSiteSummary_worst_listed_first l₁ errors₁ x hx botx
    obtain ⟨py, ry⟩ := generateSiteSummary_worst_listed_first l₁ errors₁ y hy boty
    refine ⟨_, _, px, py, ?_⟩
    rw [rx, ry]
    exact fun h => hne (Option.some.inj h)

/-- Witness of C16 as amended: the four pages with a tie in the middle and
their reverse have the same averages, the same best and the same worst page;
the tied pages of scenario B, all of maximal mean, have two orders with
different best pages. -/
theorem generateSiteSummary_perm_witness :
    midTiePages.Perm midTiePages.reverse ∧
    (generateSiteSummary midTiePages []).averageScores =
      (generateSiteSummary midTiePages.reverse []).averageScores ∧
    (generateSiteSummary midTiePages []).bestPerformingPage =
      (generateSiteSummary midTiePages.reverse []).bestPerformingPage ∧
    (generateSiteSummary midTiePages []).worstPerformingPage =
      (generateSiteSummary midTiePages.reverse []).worstPerformingPage ∧
    ∃ m₁ m₂, tiedPages.Perm m₁ ∧ tiedPages.Perm m₂ ∧
      (generateSiteSummary m₁ []).bestPerformingPage ≠
        (generateSiteSummary m₂ []).bestPerformingPage :=
  ⟨(List.reverse_perm midTiePages).symm,
    (generateSiteSummary_perm midTiePages midTiePages.reverse [] []
      (List.reverse_perm midTiePages).symm).1,
    (generateSiteSummary_perm midTiePages midTiePages.reverse [] []
      (List.reverse_perm midTiePages).symm).2.2.2.1 (by decide),
    (generateSiteSummary_perm midTiePages midTiePages.reverse [] []
      (List.reverse_perm midTiePages).symm).2.2.2.2.1 (by decide),
    (generateSiteSummary_perm tiedPages tiedPages [] [] (List.Perm.refl _)).2.2.2.2.2.1
      (pageWith "https://example.com" 90 80 70) (by decide)
      (pageWith "https://example.com/a" 70 90 80) (by decide)
      (by decide) (by decide) (by decide)⟩

/-- Witness of C15: a page whose critical issue is listed under two
categories counts it twice. -/
theorem generateSiteSummary_issue_counts_witness :
    (generateSiteSummary [issuePage] []).totalIssues = ⟨2, 1, 1⟩ ∧
    (generateSiteSummary [issuePage] []).totalIssues.critical =
      ([issuePage].flatMap fun r => r.performance ++ r.accessibility ++ r.seo).countP
        (fun i => i.impact = "Critical") :=
  ⟨by decide, (generateSiteSummary_issue_counts [issuePage] []).1⟩

/-! ## The retry policy and the kind of error -/

/-- Every URL of the list is passed to `runAudit`, and earlier calls stay in
the log. -/
theorem auditFold_calls_mem (env : AuditEnv) (urls : List String) :
    ∀ st : AuditState,
      (∀ c ∈ st.calls, c ∈ (urls.foldl (auditPage env) st).calls) ∧
      (∀ v ∈ urls, v ∈ (urls.foldl (auditPage env) st).calls) := by
  induction urls with
  | nil => intro st; simp
  | cons u t ih =>
    intro st
    obtain ⟨keep, fresh⟩ := ih (auditPage env st u)
    have hstep : (∀ c ∈ st.calls, c ∈ (auditPage env st u).calls) ∧
        u ∈ (auditPage env st u).calls := by
      cases h₁ : runAudit env st.calls.length u with
      | ok r =>
        rw [auditPage_ok env st u r h₁]
        simp only [List.mem_append, List.mem_singleton, or_true, and_true]
        exact fun c hc => Or.inl hc
      | error e =>
        cases h₂ : runAudit env (st.calls.length + 1) u with
        | ok r =>
          rw [auditPage_retry_ok env st u e r h₁ h₂]
          simp only [List.mem_append, List.mem_cons, true_or, or_true, and_true]
          exact fun c hc => Or.inl hc
        | error e' =>
          rw [auditPage_failed env st u e e' h₁ h₂]
          simp only [List.mem_append, List.mem_cons, true_or, or_true, and_true]
          exact fun c hc => Or.inl hc
    rw [List.foldl_cons]
    refine ⟨fun c hc => keep c (hstep.1 c hc), ?_⟩
    intro v hv
    rcases List.mem_cons.mp hv with hv | hv
    · rw [hv]; exact keep u hstep.2
    · exact fresh v hv

/-- The calls and the error entries for a URL that occurs once in the list:
one call if the first attempt succeeds, two otherwise; one error entry if both
attempts fail, none otherwise. -/
theorem auditLoop_counts (env : AuditEnv) (pre post : List String) (u : String)
    (hpre : u ∉ pre) (hpost : u ∉ post) :
    (auditLoop env (pre ++ u :: post)).calls.count u =
      (if (runAudit env (auditLoop env pre).calls.length u).isOk = true then 1 else 2) ∧
    (auditLoop env (pre ++ u :: post)).errors.countP (fun entry => entry.url = u) =
      (if (runAudit env (auditLoop env pre).calls.length u).isOk = true then 0
        else if (runAudit env ((auditLoop env pre).calls.length + 1) u).isOk = true then 0
        else 1) := by
  obtain ⟨_, es₁, cs₁, _, b₁, c₁, _, he₁, hc₁, _⟩ := auditFold_extends env pre ⟨[], [], 0, []⟩
  have b₁' : (auditLoop env pre).errors = es₁ := by simpa [auditLoop] using b₁
  have c₁' : (auditLoop env pre).calls = cs₁ := by simpa [auditLoop] using c₁
  obtain ⟨_, es₃, cs₃, _, b₃, c₃, _, he₃, hc₃, _⟩ :=
    auditFold_extends env post (auditPage env (auditLoop env pre) u)
  have z₁ : cs₁.count u = 0 := List.count_eq_zero.mpr fun hm => hpre (hc₁ u hm)
  have z₃ : cs₃.count u = 0 := List.count_eq_zero.mpr fun hm => hpost (hc₃ u hm)
  have y₁ : es₁.countP (fun entry => entry.url = u) = 0 := by
    rw [List.countP_eq_zero]
    intro x hx
    simp only [decide_eq_true_eq]
    intro hxu
    exact hpre (hxu ▸ he₁ x hx)
  have y₃ : es₃.countP (fun entry => entry.url = u) = 0 := by
    rw [List.countP_eq_zero]
    intro x hx
    simp only [decide_eq_true_eq]
    intro hxu
    exact hpost (hxu ▸ he₃ x hx)
  rw [auditLoop_split, c₃, b₃]
  cases h₁ : runAudit env (auditLoop env pre).calls.length u with
  | ok r =>
    rw [auditPage_ok env _ u r h₁]
    simp [List.count_append, List.countP_append, c₁', b₁', z₁, z₃, y₁, y₃, Except.isOk,
      Except.toBool]
  | error e =>
    cases h₂ : runAudit env ((auditLoop env pre).calls.length + 1) u with
    | ok r =>
      rw [auditPage_retry_ok env _ u e r h₁ h₂]
      simp [List.count_append, List.countP_append, c₁', b₁', z₁, z₃, y₁, y₃, Except.isOk,
        Except.toBool]
    | error e' =>
      rw [auditPage_failed env _ u e e' h₁ h₂]
      simp [List.count_append, List.countP_append, c₁', b₁', z₁, z₃, y₁, y₃, Except.isOk,
        Except.toBool]

/-- C17, counterexample: every audit fails with an HTTP/2 protocol error, the
crawl result is the seed alone, and `runAudit` is called on the seed twice,
not once. -/
theorem auditWholeSite_protocol_error_two_calls :
    protocolEnv.browser 0 "https://example.com" =
      Except.error "net::ERR_HTTP2_PROTOCOL_ERROR at https://example.com" ∧
    runAudit protocolEnv 0 "https://example.com" =
      Except.error (protocolMessage "https://example.com") ∧
    (auditWholeSite urlLite deadNet 1 protocolEnv "https://example.com" {}).calls =
      ["https://example.com", "https://example.com"] ∧
    (auditWholeSite urlLite deadNet 1 protocolEnv "https://example.com" {}).calls.count
      "https://example.com" ≠ 1 := by
  refine ⟨rfl, rfl, by decide, by decide⟩

/-- C17 as amended: let the crawl return `pre ++ u :: post` and let the first
attempt on `u` fail in the browser with a protocol-class message.  Then
`runAudit` throws (the HTTP/2 message, unless the text is that of a launch
failure), the run still makes the second attempt, so `runAudit` is called
exactly twice on `u`; every later URL is audited; and a returned report has
one error entry for `u` if the retry fails too and none if it succeeds. -/
theorem auditWholeSite_protocol_error_retried (lib : UrlLib) (net : Network) (fuel : Nat)
    (env : AuditEnv) (seed : String) (options : Options) (pre post : List String)
    (u m : String)
    (hcrawl : crawlWebsite lib net fuel seed options.maxPages =
      Outcome.returned (pre ++ u :: post))
    (hfirst : env.browser (auditLoop env pre).calls.length u = Except.error m)
    (hproto : jsIncludes m "ERR_HTTP2_PROTOCOL_ERROR" = true ∨
      jsIncludes m "ERR_SPDY_PROTOCOL_ERROR" = true ∨ jsIncludes m "Protocol error" = true) :
    runAudit env (auditLoop env pre).calls.length u =
      Except.error (if jsIncludes m "Failed to launch the browser process" = true then
        browserLaunchMessage m else protocolMessage u) ∧
    (auditWholeSite lib net fuel env seed options).calls.count u = 2 ∧
    (∀ v ∈ post, v ∈ (auditWholeSite lib net fuel env seed options).calls) ∧
    (∀ report,
      (auditWholeSite lib net fuel env seed options).outcome = Outcome.returned report →
      report.errors.countP (fun entry => entry.url = u) =
        (if (runAudit env ((auditLoop env pre).calls.length + 1) u).isOk = true then 0
          else 1)) := by
  have hnd := crawlWebsite_nodup lib net fuel seed options.maxPages _ hcrawl
  have hpre : u ∉ pre := by
    intro hm
    exact (List.nodup_append.mp hnd).2.2 hm (List.mem_cons_self _ _)
  have hpost : u ∉ post := (List.nodup_cons.mp (List.nodup_append.mp hnd).2.1).1
  have hcalls := auditWholeSite_calls lib net fuel env seed options _ hcrawl (by simp)
  have hrun : runAudit env (auditLoop env pre).calls.length u =
      Except.error (if jsIncludes m "Failed to launch the browser process" = true then
        browserLaunchMessage m else protocolMessage u) := by
    have hp : (jsIncludes m "ERR_HTTP2_PROTOCOL_ERROR" ||
        jsIncludes m "ERR_SPDY_PROTOCOL_ERROR" || jsIncludes m "Protocol error") = true := by
      rcases hproto with h | h | h <;> simp [h]
    simp only [runAudit, hfirst, auditFailureMessage, hp, if_true]
  obtain ⟨hcount, herr⟩ := auditLoop_counts env pre post u hpre hpost
  simp only [hrun, Except.isOk, Except.toBool, Bool.false_eq_true, if_false] at hcount herr
  refine ⟨hrun, ?_, ?_, ?_⟩
  · rw [hcalls]; exact hcount
  · intro v hv
    rw [hcalls, auditLoop_split]
    exact (auditFold_calls_mem env post _).2 v hv
  · intro report hrep
    obtain ⟨urls, hc, _, _, he, _⟩ :=
      auditWholeSite_returned lib net fuel env seed options report hrep
    rw [hcrawl] at hc
    have hu : urls = pre ++ u :: post := (Outcome.returned.inj hc).symm
    subst hu
    rw [he]
    simpa [Except.isOk, Except.toBool] using herr

/-- Witness of C17 as amended: the dead network and `protocolEnv`. -/
theorem auditWholeSite_protocol_error_retried_witness :
    crawlWebsite urlLite deadNet 1 "https://example.com" scenarioOptions.maxPages =
      Outcome.returned ([] ++ "https://example.com" :: []) ∧
    jsIncludes "net::ERR_HTTP2_PROTOCOL_ERROR at https://example.com"
      "ERR_HTTP2_PROTOCOL_ERROR" = true ∧
    (auditWholeSite urlLite deadNet 1 protocolEnv "https://example.com"
      scenarioOptions).calls.count "https://example.com" = 2 :=
  ⟨by decide, by decide,
    (auditWholeSite_protocol_error_retried urlLite deadNet 1 protocolEnv "https://example.com"
      scenarioOptions [] [] "https://example.com"
      "net::ERR_HTTP2_PROTOCOL_ERROR at https://example.com" (by decide) rfl
      (Or.inl (by decide))).2.1⟩

/-! ## The extension patterns and query strings -/

/-- C30: the extension patterns of `isExcludedUrl` look at the end of the whole
URL string.  The same-host link `https://example.com/file.pdf?v=1` has a path
ending in a listed extension and a query string: `isExcludedUrl` is false on
it (and true on the same URL without query), and `extractLinksFromPage`
returns it. -/
theorem isExcludedUrl_extension_with_query :
    isExcludedUrl "https://example.com/file.pdf?v=1" = false ∧
    isExcludedUrl "https://example.com/file.pdf" = true ∧
    extractLinksFromPage urlLite (htmlPage ["/file.pdf?v=1", "/file.pdf"])
      "https://example.com" "example.com" = ["https://example.com/file.pdf?v=1"] ∧
    hostOf urlLite "https://example.com/file.pdf?v=1" = some "example.com" := by
  refine ⟨by decide, by decide, by decide, by decide⟩

/-! ## When the crawl is empty -/

/-- With `maxPages > 0`, a returned crawl is not empty. -/
theorem crawlWebsite_ne_nil (lib : UrlLib) (net : Network) (fuel : Nat) (seed : String)
    (N : ℚ) (urls : List String) (hN : 0 < N)
    (h : crawlWebsite lib net fuel seed N = Outcome.returned urls) : urls ≠ [] := by
  obtain ⟨b, _, hl⟩ := (crawlWebsite_returned_iff lib net fuel seed N urls).mp h
  have hc : ((([] : List String).length : Nat) : ℚ) < N := by
    simp only [List.length_nil]; push_cast; linarith
  cases fuel with
  | zero =>
    simp [crawlLoop] at hl
    linarith
  | succ n =>
    rw [crawlLoop] at hl
    simp only [hc, List.not_mem_nil, if_true, if_false, List.nil_append] at hl
    obtain ⟨t, ht⟩ := crawlLoop_extends lib net (lib.hostname b) N n _ urls hl
    simp only [List.singleton_append] at ht
    subst ht
    simp

/-- With `maxPages ≤ 0` and a valid seed, the crawl returns the empty list
without any iteration. -/
theorem crawlWebsite_nil_of_le_zero (lib : UrlLib) (net : Network) (fuel : Nat)
    (seed : String) (N : ℚ) (hseed : (lib.parse seed).isSome = true) (hN : N ≤ 0) :
    crawlWebsite lib net fuel seed N = Outcome.returned [] := by
  obtain ⟨b, hb⟩ := Option.isSome_iff_exists.mp hseed
  rw [crawlWebsite_returned_iff]
  refine ⟨b, hb, ?_⟩
  have hc : ¬ ((([] : List String).length : Nat) : ℚ) < N := by
    simp only [List.length_nil]; push_cast; linarith
  cases fuel with
  | zero => simp only [crawlLoop, hc, if_false]
  | succ n => simp only [crawlLoop, hc, if_false]

/-- With a valid seed, `crawlWebsite` does not throw. -/
theorem crawlWebsite_ne_threw (lib : UrlLib) (net : Network) (fuel : Nat) (seed : String)
    (N : ℚ) (hseed : (lib.parse seed).isSome = true) (message : String) :
    crawlWebsite lib net fuel seed N ≠ Outcome.threw message := by
  obtain ⟨b, hb⟩ := Option.isSome_iff_exists.mp hseed
  unfold crawlWebsite
  simp only [hb]
  cases crawlLoop lib net (lib.hostname b) N fuel ⟨[], [seed], []⟩ <;> simp

/-- For a valid seed and every `maxPages`, a list returned by `crawlWebsite`
is empty if and only if `maxPages ≤ 0`; with `maxPages ≤ 0` the crawl does
return the empty list, and with `0 < maxPages` it does return (given enough
fuel) a list that is not empty; so `auditWholeSite` ends in its no-pages
error, without any `runAudit` call, exactly when `maxPages ≤ 0`, whatever the
network does. -/
theorem crawlWebsite_empty_iff_le_zero (lib : UrlLib) (net : Network) (fuel : Nat)
    (env : AuditEnv) (seed : String) (options : Options)
    (hseed : (lib.parse seed).isSome = true) :
    (∀ urls, crawlWebsite lib net fuel seed options.maxPages = Outcome.returned urls →
      (urls = [] ↔ options.maxPages ≤ 0)) ∧
    (options.maxPages ≤ 0 →
      crawlWebsite lib net fuel seed options.maxPages = Outcome.returned []) ∧
    (0 < options.maxPages →
      ∃ enough urls, crawlWebsite lib net enough seed options.maxPages =
        Outcome.returned urls ∧ urls ≠ []) ∧
    (auditWholeSite lib net fuel env seed options = ⟨Outcome.threw noPagesMessage, []⟩ ↔
      options.maxPages ≤ 0) := by
  refine ⟨?_, crawlWebsite_nil_of_le_zero lib net fuel seed options.maxPages hseed, ?_, ?_⟩
  rotate_left
  · intro hN
    obtain ⟨b, hb⟩ := Option.isSome_iff_exists.mp hseed
    obtain ⟨enough, r, hr⟩ := crawlLoop_terminates lib net (lib.hostname b)
      options.maxPages ⟨[], [seed], []⟩
    have hret := (crawlWebsite_returned_iff lib net enough seed options.maxPages r).mpr
      ⟨b, hb, hr⟩
    exact ⟨enough, r, hret,
      crawlWebsite_ne_nil lib net enough seed options.maxPages r hN hret⟩
  rotate_left
  · intro urls h
    constructor
    · intro he
      by_contra hN
      exact crawlWebsite_ne_nil lib net fuel seed options.maxPages urls
        (lt_of_not_ge hN) h he
    · intro hN
      have := crawlWebsite_nil_of_le_zero lib net fuel seed options.maxPages hseed hN
      rw [h] at this
      exact Outcome.returned.inj this
  · constructor
    · intro hrun
      by_contra hN
      cases hc : crawlWebsite lib net fuel seed options.maxPages with
      | outOfFuel =>
        simp [auditWholeSite, hc] at hrun
      | threw m =>
        exact crawlWebsite_ne_threw lib net fuel seed options.maxPages hseed m hc
      | returned urls =>
        have hne := crawlWebsite_ne_nil lib net fuel seed options.maxPages urls
          (lt_of_not_ge hN) hc
        have hcalls := auditWholeSite_calls lib net fuel env seed options urls hc hne
        rw [hrun] at hcalls
        cases urls with
        | nil => exact hne rfl
        | cons u t =>
          have := (auditFold_calls_mem env (u :: t) ⟨[], [], 0, []⟩).2 u
            (List.mem_cons_self _ _)
          simp only [auditLoop] at hcalls
          rw [← hcalls] at this
          simp at this
    · intro hN
      have hc := crawlWebsite_nil_of_le_zero lib net fuel seed options.maxPages hseed hN
      simp [auditWholeSite, hc]

/-- The number 0.5 rounded up is 1. -/
theorem ceil_one_half : ⌈(1 / 2 : ℚ)⌉ = 1 := by
  rw [Int.ceil_eq_iff]; norm_num

/-- C25, evaluation at the failing input: with `maxPages = 0.5`, which is below
1, the crawl of scenario A returns the seed, not the empty list; and
`auditWholeSite` does not end in its no-pages error: it audits the seed (a
first attempt and the retry). -/
theorem crawlWebsite_half_page_not_empty :
    (1 / 2 : ℚ) < 1 ∧
    crawlWebsite urlLite scenarioANet 1 "https://example.com" (1 / 2) =
      Outcome.returned ["https://example.com"] ∧
    (auditWholeSite urlLite scenarioANet 1 scenarioEnv "https://example.com"
      { maxPages := 1 / 2 }).outcome ≠ Outcome.threw noPagesMessage ∧
    (auditWholeSite urlLite scenarioANet 1 scenarioEnv "https://example.com"
      { maxPages := 1 / 2 }).calls = ["https://example.com", "https://example.com"] := by
  have hc : crawlWebsite urlLite scenarioANet 1 "https://example.com" (1 / 2) =
      Outcome.returned ["https://example.com"] := by
    rw [crawlWebsite_ceil, ceil_one_half]
    decide
  refine ⟨by norm_num, hc, ?_, ?_⟩
  · rw [auditWholeSite_unsaved urlLite scenarioANet 1 scenarioEnv "https://example.com"
      { maxPages := 1 / 2 } ["https://example.com"] hc (by decide) rfl]
    exact fun h => Outcome.noConfusion h
  · rw [auditWholeSite_calls urlLite scenarioANet 1 scenarioEnv "https://example.com"
      { maxPages := 1 / 2 } ["https://example.com"] hc (by decide)]
    decide

/-! ## Which message an error entry carries -/

/-- C26: let the crawl return `pre ++ u :: post` and let both attempts on `u`
fail, the first with message `e`, the retry with message `e'`.  Then every
error entry of a returned report with url `u` carries `e'`; and the first
message is not used at all: the state after the page is the same for any two
environments whose first attempts fail (with whatever messages) and whose
retries and clocks agree. -/
theorem auditWholeSite_error_message_of_retry (lib : UrlLib) (net : Network) (fuel : Nat)
    (env : AuditEnv) (seed : String) (options : Options) (pre post : List String)
    (u e e' : String) (report : SiteAuditReport)
    (hcrawl : crawlWebsite lib net fuel seed options.maxPages =
      Outcome.returned (pre ++ u :: post))
    (h₁ : runAudit env (auditLoop env pre).calls.length u = Except.error e)
    (h₂ : runAudit env ((auditLoop env pre).calls.length + 1) u = Except.error e')
    (h : (auditWholeSite lib net fuel env seed options).outcome = Outcome.returned report) :
    (∃ entry ∈ report.errors, entry.url = u ∧ entry.error = e') ∧
    (∀ entry ∈ report.errors, entry.url = u → entry.error = e') ∧
    (∀ (env₁ env₂ : AuditEnv) (st : AuditState) (e₁ e₂ : String),
      env₁.now = env₂.now →
      runAudit env₁ st.calls.length u = Except.error e₁ →
      runAudit env₂ st.calls.length u = Except.error e₂ →
      runAudit env₁ (st.calls.length + 1) u = runAudit env₂ (st.calls.length + 1) u →
      auditPage env₁ st u = auditPage env₂ st u) := by
  have hnd := crawlWebsite_nodup lib net fuel seed options.maxPages _ hcrawl
  have hpre : u ∉ pre := by
    intro hm
    exact (List.nodup_append.mp hnd).2.2 hm (List.mem_cons_self _ _)
  have hpost : u ∉ post := (List.nodup_cons.mp (List.nodup_append.mp hnd).2.1).1
  obtain ⟨urls, hc, _, _, he, _⟩ :=
    auditWholeSite_returned lib net fuel env seed options report h
  rw [hcrawl] at hc
  have hu : urls = pre ++ u :: post := (Outcome.returned.inj hc).symm
  subst hu
  obtain ⟨_, es₁, _, _, b₁, _, _, he₁, _, _⟩ := auditFold_extends env pre ⟨[], [], 0, []⟩
  have b₁' : (auditLoop env pre).errors = es₁ := by simpa [auditLoop] using b₁
  obtain ⟨_, es₃, _, _, b₃, _, _, he₃, _, _⟩ :=
    auditFold_extends env post (auditPage env (auditLoop env pre) u)
  rw [auditLoop_split, b₃, auditPage_failed env _ u e e' h₁ h₂] at he
  simp only [b₁'] at he
  refine ⟨⟨⟨u, e', env.now ((auditLoop env pre).calls.length + 2)⟩, ?_, rfl, rfl⟩, ?_, ?_⟩
  · rw [he]; simp
  · intro entry hmem hurl
    rw [he] at hmem
    rcases List.mem_append.mp hmem with hm | hm
    · rcases List.mem_append.mp hm with hm | hm
      · exact absurd (hurl ▸ he₁ entry hm) hpre
      · rw [List.mem_singleton] at hm
        rw [hm]
    · exact absurd (hurl ▸ he₃ entry hm) hpost
  · intro env₁ env₂ st e₁ e₂ hnow a₁ a₂ hretry
    cases hr : runAudit env₂ (st.calls.length + 1) u with
    | ok r =>
      rw [auditPage_retry_ok env₁ st u e₁ r a₁ (hretry.trans hr),
        auditPage_retry_ok env₂ st u e₂ r a₂ hr]
    | error m =>
      rw [auditPage_failed env₁ st u e₁ m a₁ (hretry.trans hr),
        auditPage_failed env₂ st u e₂ m a₂ hr, hnow]

/-- Witness of C26: in scenario A both audits of `/a` fail. -/
theorem auditWholeSite_error_message_of_retry_witness :
    crawlWebsite urlLite scenarioANet 3 "https://example.com" scenarioOptions.maxPages =
      Outcome.returned (["https://example.com"] ++ "https://example.com/a" ::
        ["https://example.com/b"]) ∧
    ∀ entry ∈ scenarioReport.errors, entry.url = "https://example.com/a" →
      entry.error = "Failed to audit https://example.com/a: net::ERR_CONNECTION_REFUSED" :=
  ⟨by decide,
    (auditWholeSite_error_message_of_retry urlLite scenarioANet 3 scenarioEnv
      "https://example.com" scenarioOptions ["https://example.com"]
      ["https://example.com/b"] "https://example.com/a"
      "Failed to audit https://example.com/a: net::ERR_CONNECTION_REFUSED"
      "Failed to audit https://example.com/a: net::ERR_CONNECTION_REFUSED"
      scenarioReport (by decide) rfl rfl (by decide)).2.1⟩

/-! ## Bounds on the average scores -/

/-- A list of integers that are all at least `lo` sums to at least
`length * lo`, and likewise from above. -/
theorem sum_bounds (l : List Int) (lo hi : Int) (h : ∀ x ∈ l, lo ≤ x ∧ x ≤ hi) :
    (l.length : Int) * lo ≤ l.sum ∧ l.sum ≤ (l.length : Int) * hi := by
  induction l with
  | nil => simp
  | cons a t ih =>
    obtain ⟨h₁, h₂⟩ := ih fun x hx => h x (List.mem_cons_of_mem _ hx)
    obtain ⟨a₁, a₂⟩ := h a (List.mem_cons_self _ _)
    simp only [List.length_cons, List.sum_cons]
    push_cast
    constructor <;> nlinarith

/-- Rounding the mean of integers between `lo` and `hi` stays between `lo`
and `hi`. -/
theorem roundDiv_bounds (l : List Int) (lo hi : Int) (hne : l ≠ [])
    (h : ∀ x ∈ l, lo ≤ x ∧ x ≤ hi) :
    lo ≤ roundDiv l.sum l.length ∧ roundDiv l.sum l.length ≤ hi := by
  have hn : 0 < (l.length : Int) := by exact_mod_cast List.length_pos.mpr hne
  obtain ⟨h₁, h₂⟩ := sum_bounds l lo hi h
  have hpos : 0 < 2 * (l.length : Int) := by omega
  unfold roundDiv
  constructor
  · rw [Int.le_ediv_iff_mul_le hpos]
    nlinarith
  · rw [← Int.lt_add_one_iff, Int.ediv_lt_iff_lt_mul hpos]
    nlinarith

/-- A non-empty list has an element of least and one of greatest value. -/
theorem exists_least_greatest (f : PageAuditResult → Int) (rs : List PageAuditResult)
    (hne : rs ≠ []) :
    ∃ a ∈ rs, ∃ b ∈ rs, ∀ r ∈ rs, f a ≤ f r ∧ f r ≤ f b := by
  induction rs with
  | nil => exact absurd rfl hne
  | cons x t ih =>
    by_cases ht : t = []
    · subst ht
      exact ⟨x, by simp, x, by simp, by simp⟩
    · obtain ⟨a, ha, b, hb, hab⟩ := ih ht
      refine ⟨if f x ≤ f a then x else a, ?_, if f b ≤ f x then x else b, ?_, ?_⟩
      · split_ifs <;> simp [ha]
      · split_ifs <;> simp [hb]
      · intro r hr
        rcases List.mem_cons.mp hr with hr | hr
        · subst hr
          constructor <;> split_ifs <;> omega
        · obtain ⟨h₁, h₂⟩ := hab r hr
          constructor <;> split_ifs <;> omega

/-- The average of one score column lies between the least and the greatest
score of the column. -/
theorem roundDiv_between (f : PageAuditResult → Int) (rs : List PageAuditResult)
    (hne : rs ≠ []) :
    ∃ a ∈ rs, ∃ b ∈ rs, (∀ r ∈ rs, f a ≤ f r ∧ f r ≤ f b) ∧
      f a ≤ roundDiv (rs.map f).sum rs.length ∧ roundDiv (rs.map f).sum rs.length ≤ f b := by
  obtain ⟨a, ha, b, hb, hab⟩ := exists_least_greatest f rs hne
  refine ⟨a, ha, b, hb, hab, ?_⟩
  have := roundDiv_bounds (rs.map f) (f a) (f b) (by simpa using hne) (by
    intro x hx
    obtain ⟨r, hr, rfl⟩ := List.mem_map.mp hx
    exact hab r hr)
  simpa using this

/-- C27: for every non-empty list of page results with all scores in 0..100,
each average score of `generateSiteSummary` is an integer in 0..100, and it
lies between the least and the greatest page score of its category. -/
theorem generateSiteSummary_average_bounds (rs : List PageAuditResult)
    (errors : List AuditError) (hne : rs ≠ [])
    (hrange : ∀ r ∈ rs,
      (0 ≤ r.scores.performance ∧ r.scores.performance ≤ 100) ∧
      (0 ≤ r.scores.accessibility ∧ r.scores.accessibility ≤ 100) ∧
      (0 ≤ r.scores.seo ∧ r.scores.seo ≤ 100)) :
    ((0 ≤ (generateSiteSummary rs errors).averageScores.performance ∧
        (generateSiteSummary rs errors).averageScores.performance ≤ 100) ∧
      ∃ a ∈ rs, ∃ b ∈ rs,
        (∀ r ∈ rs, a.scores.performance ≤ r.scores.performance ∧
          r.scores.performance ≤ b.scores.performance) ∧
        a.scores.performance ≤ (generateSiteSummary rs errors).averageScores.performance ∧
        (generateSiteSummary rs errors).averageScores.performance ≤ b.scores.performance) ∧
    ((0 ≤ (generateSiteSummary rs errors).averageScores.accessibility ∧
        (generateSiteSummary rs errors).averageScores.accessibility ≤ 100) ∧
      ∃ a ∈ rs, ∃ b ∈ rs,
        (∀ r ∈ rs, a.scores.accessibility ≤ r.scores.accessibility ∧
          r.scores.accessibility ≤ b.scores.accessibility) ∧
        a.scores.accessibility ≤ (generateSiteSummary rs errors).averageScores.accessibility ∧
        (generateSiteSummary rs errors).averageScores.accessibility ≤
          b.scores.accessibility) ∧
    ((0 ≤ (generateSiteSummary rs errors).averageScores.seo ∧
        (generateSiteSummary rs errors).averageScores.seo ≤ 100) ∧
      ∃ a ∈ rs, ∃ b ∈ rs,
        (∀ r ∈ rs, a.scores.seo ≤ r.scores.seo ∧ r.scores.seo ≤ b.scores.seo) ∧
        a.scores.seo ≤ (generateSiteSummary rs errors).averageScores.seo ∧
        (generateSiteSummary rs errors).averageScores.seo ≤ b.scores.seo) := by
  rw [generateSiteSummary_averageScores rs errors hne]
  have key : ∀ f : PageAuditResult → Int, (∀ r ∈ rs, 0 ≤ f r ∧ f r ≤ 100) →
      (0 ≤ roundDiv (rs.map f).sum rs.length ∧ roundDiv (rs.map f).sum rs.length ≤ 100) ∧
      ∃ a ∈ rs, ∃ b ∈ rs, (∀ r ∈ rs, f a ≤ f r ∧ f r ≤ f b) ∧
        f a ≤ roundDiv (rs.map f).sum rs.length ∧
        roundDiv (rs.map f).sum rs.length ≤ f b := by
    intro f hf
    obtain ⟨a, ha, b, hb, hab, h₁, h₂⟩ := roundDiv_between f rs hne
    exact ⟨⟨le_trans (hf a ha).1 h₁, le_trans h₂ (hf b hb).2⟩, a, ha, b, hb, hab, h₁, h₂⟩
  exact ⟨key (fun r => r.scores.performance) fun r hr => (hrange r hr).1,
    key (fun r => r.scores.accessibility) fun r hr => (hrange r hr).2.1,
    key (fun r => r.scores.seo) fun r hr => (hrange r hr).2.2⟩

/-- Witness of C27: the rising pages, whose performance scores 80, 90, 100
average to 90. -/
theorem generateSiteSummary_average_bounds_witness :
    risingPages ≠ [] ∧
    (0 ≤ (generateSiteSummary risingPages []).averageScores.performance ∧
      (generateSiteSummary risingPages []).averageScores.performance ≤ 100) :=
  ⟨by decide,
    (generateSiteSummary_average_bounds risingPages [] (by decide) (by decide)).1.1⟩

/-! ## The frontier invariant and termination -/

/-- The loop run with fuel is the iteration of `crawlStep` while
`crawlContinues` holds. -/
theorem crawlLoop_eq_stateAt (lib : UrlLib) (net : Network) (base : String) (N : ℚ) :
    ∀ (fuel : Nat) (st : CrawlState),
      crawlLoop lib net base N fuel st =
        if crawlContinues N (crawlStateAt lib net base N fuel st) = true then none
        else some (crawlStateAt lib net base N fuel st).discoveredUrls := by
  intro fuel
  induction fuel with
  | zero =>
    intro st
    obtain ⟨v, q, d⟩ := st
    cases q with
    | nil => simp [crawlLoop, crawlStateAt, crawlContinues]
    | cons c rest =>
      by_cases hc : (d.length : ℚ) < N <;> simp [crawlLoop, crawlStateAt, crawlContinues, hc]
  | succ n ih =>
    intro st
    obtain ⟨v, q, d⟩ := st
    cases q with
    | nil => simp [crawlLoop, crawlStateAt, crawlContinues]
    | cons c rest =>
      by_cases hc : (d.length : ℚ) < N
      · have hcont : crawlContinues N ⟨v, c :: rest, d⟩ = true := by
          simp [crawlContinues, hc]
        by_cases hv : c ∈ v
        · rw [crawlLoop]
          simp only [hc, hv, if_true]
          rw [ih]
          simp only [crawlStateAt, hcont, if_true, crawlStep, hv]
        · rw [crawlLoop]
          simp only [hc, hv, if_true, if_false]
          rw [ih]
          simp only [crawlStateAt, hcont, if_true, crawlStep, hv, if_false]
      · have hcont : crawlContinues N ⟨v, c :: rest, d⟩ = false := by
          simp [crawlContinues, hc]
        rw [crawlLoop]
        simp [hc, crawlStateAt, hcont]

/-- What `enqueueLinks` appends: the links that are neither visited nor queued,
each once. -/
theorem enqueueLinks_spec (visited : List String) (links : List String) :
    ∀ queue : List String, ∃ added : List String,
      enqueueLinks visited queue links = queue ++ added ∧ added.Nodup ∧
      (∀ n ∈ added, n ∈ links ∧ n ∉ visited ∧ n ∉ queue) ∧
      (∀ l ∈ links, l ∈ visited ∨ l ∈ queue ∨ l ∈ added) := by
  induction links with
  | nil => intro queue; exact ⟨[], by simp [enqueueLinks]⟩
  | cons a t ih =>
    intro queue
    by_cases hc : ¬ a ∈ visited ∧ ¬ a ∈ queue
    · obtain ⟨added, e, hnd, hin, hall⟩ := ih (queue ++ [a])
      refine ⟨a :: added, ?_, ?_, ?_, ?_⟩
      · have : enqueueLinks visited queue (a :: t) = enqueueLinks visited (queue ++ [a]) t := by
          simp only [enqueueLinks, List.foldl_cons, hc, not_false_eq_true, and_self, if_true]
        rw [this, e]
        simp
      · refine List.nodup_cons.mpr ⟨?_, hnd⟩
        intro ha
        exact (hin a ha).2.2 (by simp)
      · intro n hn
        rcases List.mem_cons.mp hn with hn | hn
        · subst hn
          exact ⟨List.mem_cons_self _ _, hc.1, hc.2⟩
        · obtain ⟨h₁, h₂, h₃⟩ := hin n hn
          exact ⟨List.mem_cons_of_mem _ h₁, h₂, fun h => h₃ (List.mem_append_left _ h)⟩
      · intro l hl
        rcases List.mem_cons.mp hl with hl | hl
        · subst hl
          exact Or.inr (Or.inr (List.mem_cons_self _ _))
        · rcases hall l hl with h | h | h
          · exact Or.inl h
          · rcases List.mem_append.mp h with h | h
            · exact Or.inr (Or.inl h)
            · rw [List.mem_singleton] at h
              exact Or.inr (Or.inr (h ▸ List.mem_cons_self _ _))
          · exact Or.inr (Or.inr (List.mem_cons_of_mem _ h))
    · obtain ⟨added, e, hnd, hin, hall⟩ := ih queue
      refine ⟨added, ?_, hnd, ?_, ?_⟩
      · have : enqueueLinks visited queue (a :: t) = enqueueLinks visited queue t := by
          simp only [enqueueLinks, List.foldl_cons, hc, if_false]
        rw [this, e]
      · intro n hn
        obtain ⟨h₁, h₂, h₃⟩ := hin n hn
        exact ⟨List.mem_cons_of_mem _ h₁, h₂, h₃⟩
      · intro l hl
        rcases List.mem_cons.mp hl with hl | hl
        · subst hl
          by_cases hv : l ∈ visited
          · exact Or.inl hv
          · by_cases hq : l ∈ queue
            · exact Or.inr (Or.inl hq)
            · exact absurd ⟨hv, hq⟩ hc
        · exact hall l hl

/-- Under the invariant, an iteration never takes the `already visited`
branch: it discovers the head of the queue and appends new URLs to the
history `discoveredUrls ++ urlsToVisit`. -/
theorem crawlStep_spec (lib : UrlLib) (net : Network) (base : String)
    (v : List String) (c : String) (rest d : List String)
    (hinv : CrawlInv ⟨v, c :: rest, d⟩) :
    c ∉ v ∧ ∃ added : List String,
      crawlStep lib net base ⟨v, c :: rest, d⟩ = ⟨c :: v, rest ++ added, d ++ [c]⟩ ∧
      added.Nodup ∧
      (∀ n ∈ added, n ∈ extractLinksFromPage lib (net d.length c) c base ∧
        n ∉ d ++ c :: rest) ∧
      (∀ l ∈ extractLinksFromPage lib (net d.length c) c base,
        l ∈ d ++ c :: rest ++ added) := by
  obtain ⟨hnd, hvd⟩ := hinv
  simp only at hnd hvd
  have hcd : c ∉ d := fun h => (List.nodup_append.mp hnd).2.2 h (List.mem_cons_self _ _)
  have hcv : c ∉ v := fun h => hcd ((hvd c).mp h)
  refine ⟨hcv, ?_⟩
  obtain ⟨added, e, hn, hin, hall⟩ := enqueueLinks_spec (c :: v)
    (extractLinksFromPage lib (net d.length c) c base) rest
  refine ⟨added, ?_, hn, ?_, ?_⟩
  · simp only [crawlStep, hcv, if_false, e]
  · intro n hnm
    obtain ⟨h₁, h₂, h₃⟩ := hin n hnm
    refine ⟨h₁, ?_⟩
    intro hmem
    rcases List.mem_append.mp hmem with h | h
    · exact h₂ (List.mem_cons_of_mem _ ((hvd n).mpr h))
    · rcases List.mem_cons.mp h with h | h
      · exact h₂ (h ▸ List.mem_cons_self _ _)
      · exact h₃ h
  · intro l hl
    rcases hall l hl with h | h | h
    · rcases List.mem_cons.mp h with h | h
      · subst h; simp
      · have := (hvd l).mp h
        simp [this]
    · simp [h]
    · simp [h]

/-- An iteration keeps the invariant. -/
theorem crawlStep_inv (lib : UrlLib) (net : Network) (base : String) (st : CrawlState)
    (hinv : CrawlInv st) : CrawlInv (crawlStep lib net base st) := by
  obtain ⟨v, q, d⟩ := st
  cases q with
  | nil => simpa [crawlStep] using hinv
  | cons c rest =>
    obtain ⟨_, added, e, hn, hin, _⟩ := crawlStep_spec lib net base v c rest d hinv
    obtain ⟨hnd, hvd⟩ := hinv
    simp only at hnd hvd
    rw [e]
    refine ⟨?_, ?_⟩
    · simp only [List.append_assoc, List.singleton_append]
      have : (d ++ c :: rest ++ added).Nodup := by
        refine List.nodup_append.mpr ⟨hnd, hn, ?_⟩
        intro x hx hx'
        exact (hin x hx').2 hx
      simpa using this
    · intro s
      simp only [List.mem_cons, List.mem_append, List.mem_singleton]
      rw [hvd s]
      tauto

/-- Every state of the loop satisfies the invariant. -/
theorem crawlStateAt_inv (lib : UrlLib) (net : Network) (base : String) (N : ℚ) :
    ∀ (n : Nat) (st : CrawlState), CrawlInv st →
      CrawlInv (crawlStateAt lib net base N n st) := by
  intro n
  induction n with
  | zero => intro st h; exact h
  | succ n ih =>
    intro st h
    simp only [crawlStateAt]
    split_ifs
    · exact ih _ (crawlStep_inv lib net base st h)
    · exact h

/-- The initial state satisfies the invariant. -/
theorem crawlInv_init (seed : String) : CrawlInv ⟨[], [seed], []⟩ := by
  simp [CrawlInv]

/-- C21: at every step of every crawl, the frontier has no duplicates and is
disjoint from the visited set; the discovered list (the URLs passed to the
link extractor, one call each) has no duplicates; and the history
`discoveredUrls ++ urlsToVisit` of all URLs ever enqueued has no duplicates
and only grows at its end, so each URL is enqueued at most once.  The states
are those of the loop of `crawlWebsite`. -/
theorem crawl_frontier_invariant (lib : UrlLib) (net : Network) (base seed : String)
    (N : ℚ) (n : Nat) :
    (crawlStateAt lib net base N n ⟨[], [seed], []⟩).urlsToVisit.Nodup ∧
    List.Disjoint (crawlStateAt lib net base N n ⟨[], [seed], []⟩).urlsToVisit
      (crawlStateAt lib net base N n ⟨[], [seed], []⟩).visitedUrls ∧
    (crawlStateAt lib net base N n ⟨[], [seed], []⟩).discoveredUrls.Nodup ∧
    ((crawlStateAt lib net base N n ⟨[], [seed], []⟩).discoveredUrls ++
      (crawlStateAt lib net base N n ⟨[], [seed], []⟩).urlsToVisit).Nodup ∧
    (∃ added,
      (crawlStep lib net base (crawlStateAt lib net base N n ⟨[], [seed], []⟩)).discoveredUrls ++
        (crawlStep lib net base (crawlStateAt lib net base N n ⟨[], [seed], []⟩)).urlsToVisit =
      (crawlStateAt lib net base N n ⟨[], [seed], []⟩).discoveredUrls ++
        (crawlStateAt lib net base N n ⟨[], [seed], []⟩).urlsToVisit ++ added) ∧
    crawlLoop lib net base N n ⟨[], [seed], []⟩ =
      (if crawlContinues N (crawlStateAt lib net base N n ⟨[], [seed], []⟩) = true then none
        else some (crawlStateAt lib net base N n ⟨[], [seed], []⟩).discoveredUrls) := by
  have hinv := crawlStateAt_inv lib net base N n _ (crawlInv_init seed)
  have hloop := crawlLoop_eq_stateAt lib net base N n ⟨[], [seed], []⟩
  generalize crawlStateAt lib net base N n ⟨[], [seed], []⟩ = st at hinv hloop ⊢
  obtain ⟨hnd, hvd⟩ := id hinv
  obtain ⟨hd, hq, hdis⟩ := List.nodup_append.mp hnd
  refine ⟨hq, ?_, hd, hnd, ?_, hloop⟩
  · intro x hx hv
    exact hdis ((hvd x).mp hv) hx
  · obtain ⟨v, q, d⟩ := st
    cases q with
    | nil => exact ⟨[], by simp [crawlStep]⟩
    | cons c rest =>
      obtain ⟨_, added, e, _⟩ := crawlStep_spec lib net base v c rest d hinv
      exact ⟨added, by rw [e]; simp⟩

/-- Under the invariant, as many iterations as pages are still allowed are
enough for the loop to end. -/
theorem crawlLoop_enough_fuel (lib : UrlLib) (net : Network) (base : String) (N : ℚ) :
    ∀ (fuel : Nat) (st : CrawlState), CrawlInv st →
      (⌈N⌉ - st.discoveredUrls.length).toNat ≤ fuel →
      ∃ r, crawlLoop lib net base N fuel st = some r := by
  intro fuel
  induction fuel with
  | zero =>
    intro st _ hm
    obtain ⟨v, q, d⟩ := st
    simp only at hm
    have hc : ¬ (d.length : ℚ) < N := by
      rw [length_lt_iff_lt_ceil]; omega
    cases q with
    | nil => exact ⟨d, by simp [crawlLoop]⟩
    | cons c rest => exact ⟨d, by simp [crawlLoop, hc]⟩
  | succ n ih =>
    intro st hinv hm
    obtain ⟨v, q, d⟩ := st
    simp only at hm
    cases q with
    | nil => exact ⟨d, by simp [crawlLoop]⟩
    | cons c rest =>
      by_cases hc : (d.length : ℚ) < N
      · obtain ⟨hcv, added, e, _⟩ := crawlStep_spec lib net base v c rest d hinv
        have hinv' := crawlStep_inv lib net base _ hinv
        obtain ⟨r, hr⟩ := ih (crawlStep lib net base ⟨v, c :: rest, d⟩) hinv' (by
          have hc' := (length_lt_iff_lt_ceil d.length N).mp hc
          rw [e]
          simp only [List.length_append, List.length_singleton]
          push_cast
          omega)
        refine ⟨r, ?_⟩
        rw [crawlLoop]
        simp only [hc, hcv, if_true, if_false]
        simpa only [crawlStep, hcv, if_false] using hr
      · exact ⟨d, by simp [crawlLoop, hc]⟩

/-- For every valid seed, every `maxPages` and every network, the loop of
`crawlWebsite` ends within `maxPages` rounded up (or 0) iterations: that much
fuel makes the call return, and the number of pages fetched, the length of the
returned list, is at most that number. -/
theorem crawlWebsite_terminates_within_ceil (lib : UrlLib) (net : Network) (seed : String)
    (N : ℚ) (hseed : (lib.parse seed).isSome = true) :
    ∃ urls, crawlWebsite lib net ⌈N⌉.toNat seed N = Outcome.returned urls ∧
      (urls.length : Int) ≤ max ⌈N⌉ 0 := by
  obtain ⟨b, hb⟩ := Option.isSome_iff_exists.mp hseed
  obtain ⟨r, hr⟩ := crawlLoop_enough_fuel lib net (lib.hostname b) N ⌈N⌉.toNat
    ⟨[], [seed], []⟩ (crawlInv_init seed) (by simp)
  refine ⟨r, (crawlWebsite_returned_iff lib net ⌈N⌉.toNat seed N r).mpr ⟨b, hb, hr⟩, ?_⟩
  by_cases hN : 0 ≤ ⌈N⌉
  · have := crawlLoop_length_le lib net (lib.hostname b) N ⌈N⌉.toNat _ r hr
      (by simpa using hN)
    rw [max_eq_left hN]
    exact this
  · have hN' : N ≤ 0 := by
      have h1 : ⌈N⌉ ≤ 0 := by omega
      exact Int.ceil_le.mp h1 |>.trans (by norm_num)
    have h0 := crawlWebsite_nil_of_le_zero lib net ⌈N⌉.toNat seed N hseed hN'
    obtain ⟨b', hb', hr'⟩ := (crawlWebsite_returned_iff lib net ⌈N⌉.toNat seed N []).mp h0
    rw [hb] at hb'
    have hbb : b = b' := Option.some.inj hb'
    subst hbb
    rw [hr] at hr'
    have : r = [] := Option.some.inj hr'
    subst this
    simp

/-- The number 2.5 rounded up is 3. -/
theorem ceil_five_halves : ⌈(5 / 2 : ℚ)⌉ = 3 := by
  rw [Int.ceil_eq_iff]; norm_num

/-- C24, evaluation at the failing input: with `maxPages = 2.5` the loop over
scenario A has not ended after two iterations, the most that `max(maxPages, 0)`
allows; it ends after the third, with three pages fetched. -/
theorem crawlWebsite_three_iterations_for_fractional_maxPages :
    crawlWebsite urlLite scenarioANet 2 "https://example.com" (5 / 2) = Outcome.outOfFuel ∧
    crawlWebsite urlLite scenarioANet 3 "https://example.com" (5 / 2) =
      Outcome.returned scenarioAUrls ∧
    max (5 / 2 : ℚ) 0 < (scenarioAUrls.length : ℚ) := by
  refine ⟨?_, ?_, ?_⟩
  · rw [crawlWebsite_ceil, ceil_five_halves]
    decide
  · rw [crawlWebsite_ceil, ceil_five_halves]
    decide
  · rw [show scenarioAUrls.length = 3 from rfl]
    norm_num

/-! ## The report cache -/

/-- The store of `singlePageAudit` keeps a cache of at most 50 entries at most
50 entries long. -/
theorem singlePageAuditStore_length_le {α : Type} (cache : AuditCache α) (auditId : String)
    (auditResult : α) (h : cache.length ≤ 50) :
    (singlePageAuditStore cache auditId auditResult).length ≤ 50 := by
  have hset : (cacheSet cache auditId auditResult).length ≤ cache.length + 1 := by
    unfold cacheSet
    split_ifs <;> simp
  unfold singlePageAuditStore
  split_ifs with hc
  · simp only [cacheDeleteFirst, List.length_tail]
    omega
  · omega

set_option maxRecDepth 100000 in
/-- C22, evaluation at the failing input: fifty-one `multiPageAudit` stores
with different ids into the empty cache leave fifty-one entries, the first one
still there; the same stores made by `singlePageAudit` leave fifty, the first
one evicted. -/
theorem multiPageAudit_cache_exceeds_bound :
    (reportIds.foldl (fun cache id => multiPageAuditStore cache id id) []).length = 51 ∧
    (reportIds.foldl (fun cache id => multiPageAuditStore cache id id) []).head? =
      some ("r", "r") ∧
    (reportIds.foldl (fun cache id => singlePageAuditStore cache id id) []).length = 50 ∧
    (reportIds.foldl (fun cache id => singlePageAuditStore cache id id) []).head? =
      some ("rx", "rx") := by
  refine ⟨by decide, by decide, by decide, by decide⟩

/-! ## Issues and their impact -/

/-- Where an issue of one `forEach` comes from: an audit with a score below
the threshold. -/
theorem mem_auditIssues (lhr : Lhr) (auditIds : List String) (threshold : ℚ)
    (category : String) (i : Issue) (h : i ∈ auditIssues lhr auditIds threshold category) :
    ∃ audit s, audit.score = some s ∧ s < threshold ∧ i = processAudit audit category := by
  unfold auditIssues at h
  obtain ⟨auditId, _, hf⟩ := List.mem_filterMap.mp h
  cases ha : lhr.audits auditId with
  | none => simp [ha] at hf
  | some audit =>
    simp only [ha] at hf
    cases hs : audit.score with
    | none => simp [hs] at hf
    | some s =>
      simp only [hs] at hf
      split_ifs at hf with hlt
      exact ⟨audit, s, hs, hlt, (Option.some.inj hf).symm⟩

/-- An audit that is listed, present and scored below the threshold gives an
issue. -/
theorem mem_auditIssues_of (lhr : Lhr) (auditIds : List String) (threshold : ℚ)
    (category auditId : String) (audit : LhAudit) (s : ℚ) (hid : auditId ∈ auditIds)
    (ha : lhr.audits auditId = some audit) (hs : audit.score = some s) (hlt : s < threshold) :
    processAudit audit category ∈ auditIssues lhr auditIds threshold category := by
  unfold auditIssues
  refine List.mem_filterMap.mpr ⟨auditId, hid, ?_⟩
  simp only [ha, hs, if_pos hlt]

/-- The impact of a score that is not `null` is one of the three levels, and
below 0.9 it is not `Minor`. -/
theorem getImpactLevel_some (s : ℚ) :
    (getImpactLevel (some s) = "Critical" ∨ getImpactLevel (some s) = "Moderate" ∨
      getImpactLevel (some s) = "Minor") ∧
    (s < 9 / 10 →
      getImpactLevel (some s) = "Critical" ∨ getImpactLevel (some s) = "Moderate") := by
  by_cases h₁ : s < 1 / 2
  · have e : getImpactLevel (some s) = "Critical" := by
      simp only [getImpactLevel, if_pos h₁]
    rw [e]
    exact ⟨Or.inl rfl, fun _ => Or.inl rfl⟩
  · by_cases h₂ : s < 9 / 10
    · have e : getImpactLevel (some s) = "Moderate" := by
        simp only [getImpactLevel, if_neg h₁, if_pos h₂]
      rw [e]
      exact ⟨Or.inr (Or.inl rfl), fun _ => Or.inr rfl⟩
    · have e : getImpactLevel (some s) = "Minor" := by
        simp only [getImpactLevel, if_neg h₁, if_neg h₂]
      rw [e]
      exact ⟨Or.inr (Or.inr rfl), fun h => absurd h h₂⟩

/-- Every issue of `extractIssues` has one of the three categories and one of
the three impact levels; a performance issue is critical or moderate. -/
theorem mem_extractIssues (lhr : Lhr) (i : Issue) (h : i ∈ extractIssues lhr) :
    (i.category = "Accessibility" ∨ i.category = "Performance" ∨ i.category = "SEO") ∧
    (i.impact = "Critical" ∨ i.impact = "Moderate" ∨ i.impact = "Minor") ∧
    (i.category = "Performance" → i.impact = "Critical" ∨ i.impact = "Moderate") := by
  unfold extractIssues at h
  rcases List.mem_append.mp h with h | h
  · rcases List.mem_append.mp h with h | h
    · obtain ⟨audit, s, hs, _, rfl⟩ := mem_auditIssues lhr _ _ _ i h
      refine ⟨Or.inl rfl, ?_, ?_⟩
      · simp only [processAudit, hs]
        exact (getImpactLevel_some s).1
      · intro hc
        simp [processAudit] at hc
    · obtain ⟨audit, s, hs, hlt, rfl⟩ := mem_auditIssues lhr _ _ _ i h
      refine ⟨Or.inr (Or.inl rfl), ?_, ?_⟩
      · simp only [processAudit, hs]
        exact (getImpactLevel_some s).1
      · intro _
        simp only [processAudit, hs]
        exact (getImpactLevel_some s).2 hlt
  · obtain ⟨audit, s, hs, _, rfl⟩ := mem_auditIssues lhr _ _ _ i h
    refine ⟨Or.inr (Or.inr rfl), ?_, ?_⟩
    · simp only [processAudit, hs]
      exact (getImpactLevel_some s).1
    · intro hc
      simp [processAudit] at hc

/-- C28: every issue produced by `extractIssues` has impact `Critical`,
`Moderate` or `Minor`, never `Unknown`; and every issue with category
`Performance` has impact `Critical` or `Moderate`, never `Minor`. -/
theorem extractIssues_impact (lhr : Lhr) (i : Issue) (h : i ∈ extractIssues lhr) :
    (i.impact = "Critical" ∨ i.impact = "Moderate" ∨ i.impact = "Minor") ∧
    i.impact ≠ "Unknown" ∧
    (i.category = "Performance" →
      (i.impact = "Critical" ∨ i.impact = "Moderate") ∧ i.impact ≠ "Minor") := by
  obtain ⟨_, himp, hperf⟩ := mem_extractIssues lhr i h
  refine ⟨himp, ?_, ?_⟩
  · rcases himp with e | e | e <;> rw [e] <;> decide
  · intro hc
    refine ⟨hperf hc, ?_⟩
    rcases hperf hc with e | e <;> rw [e] <;> decide

/-- The slow speed-index audit of the sample result gives a performance
issue. -/
theorem slowAudit_reported : processAudit slowAudit "Performance" ∈ extractIssues sampleLhr := by
  unfold extractIssues
  refine List.mem_append_left _ (List.mem_append_right _ ?_)
  exact mem_auditIssues_of sampleLhr performanceAudits (9 / 10) "Performance" "speed-index"
    slowAudit (3 / 10) (by decide) rfl rfl (by norm_num)

/-- Witness of C28: the speed-index issue of the sample Lighthouse result. -/
theorem extractIssues_impact_witness :
    processAudit slowAudit "Performance" ∈ extractIssues sampleLhr ∧
    (processAudit slowAudit "Performance").category = "Performance" ∧
    ((processAudit slowAudit "Performance").impact = "Critical" ∨
      (processAudit slowAudit "Performance").impact = "Moderate") ∧
    (processAudit slowAudit "Performance").impact ≠ "Minor" :=
  ⟨slowAudit_reported, rfl,
    ((extractIssues_impact sampleLhr (processAudit slowAudit "Performance")
      slowAudit_reported).2.2 rfl)⟩

/-! ## Issue totals -/

/-- A successful `runAudit` resolves with `resultOf` of the scores and
issues. -/
theorem runAudit_eq_resultOf (env : AuditEnv) (k : Nat) (url : String) (body : AuditBody)
    (h : env.browser k url = Except.ok body) :
    runAudit env k url = Except.ok (resultOf url body.scores body.issues (env.now k)) := by
  simp only [runAudit, h, resultOf]

/-- Issues that all have one of the three categories are split by the three
category filters. -/
theorem category_filters_length (l : List Issue)
    (h : ∀ i ∈ l, i.category = "Accessibility" ∨ i.category = "Performance" ∨
      i.category = "SEO") :
    (l.filter fun i => i.category = "Performance").length +
      (l.filter fun i => i.category = "Accessibility").length +
      (l.filter fun i => i.category = "SEO").length = l.length := by
  induction l with
  | nil => rfl
  | cons a t ih =>
    have iht := ih fun i hi => h i (List.mem_cons_of_mem _ hi)
    rcases h a (List.mem_cons_self _ _) with e | e | e <;>
      simp only [List.filter_cons, e, List.length_cons] <;> simp <;> omega

/-- Issues that all have one of the three impact levels are counted once by
the three impact counts. -/
theorem impact_counts_length (l : List Issue)
    (h : ∀ i ∈ l, i.impact = "Critical" ∨ i.impact = "Moderate" ∨ i.impact = "Minor") :
    l.countP (fun i => i.impact = "Critical") + l.countP (fun i => i.impact = "Moderate") +
      l.countP (fun i => i.impact = "Minor") = l.length := by
  induction l with
  | nil => rfl
  | cons a t ih =>
    have iht := ih fun i hi => h i (List.mem_cons_of_mem _ hi)
    rcases h a (List.mem_cons_self _ _) with e | e | e <;>
      simp only [List.countP_cons, e, List.length_cons] <;> simp <;> omega

/-- All issues of all pages are as many as the pages' category lists hold. -/
theorem length_flatMap_allIssues (rs : List PageAuditResult) :
    (rs.flatMap allIssues).length =
      (rs.map fun r => r.performance.length + r.accessibility.length + r.seo.length).sum := by
  induction rs with
  | nil => rfl
  | cons r t ih =>
    simp only [List.flatMap_cons, List.length_append, ih, allIssues, List.map_cons,
      List.sum_cons]

/-- C29: for page results built as `runAudit` builds them from the issues of
`extractIssues`, each page's `totalIssues` is the sum of the lengths of its
three category lists, and `critical + moderate + minor` of the summary is the
sum of `totalIssues` over all pages. -/
theorem runAudit_totalIssues_accounting (rs : List PageAuditResult)
    (errors : List AuditError)
    (hbuilt : ∀ r ∈ rs, ∃ url scores lhr timestamp,
      r = resultOf url scores (extractIssues lhr) timestamp) :
    (∀ r ∈ rs,
      r.totalIssues = r.performance.length + r.accessibility.length + r.seo.length) ∧
    (generateSiteSummary rs errors).totalIssues.critical +
        (generateSiteSummary rs errors).totalIssues.moderate +
        (generateSiteSummary rs errors).totalIssues.minor =
      (rs.map fun r => r.totalIssues).sum := by
  have hpage : ∀ r ∈ rs,
      r.totalIssues = r.performance.length + r.accessibility.length + r.seo.length := by
    intro r hr
    obtain ⟨url, scores, lhr, ts, rfl⟩ := hbuilt r hr
    simp only [resultOf]
    exact (category_filters_length (extractIssues lhr)
      fun i hi => (mem_extractIssues lhr i hi).1).symm
  refine ⟨hpage, ?_⟩
  rw [generateSiteSummary_totalIssues]
  simp only
  rw [impact_counts_length, length_flatMap_allIssues]
  · congr 1
    apply List.map_congr_left
    intro r hr
    exact (hpage r hr).symm
  · intro i hi
    obtain ⟨r, hr, hir⟩ := List.mem_flatMap.mp hi
    obtain ⟨url, scores, lhr, ts, rfl⟩ := hbuilt r hr
    have hmem : i ∈ extractIssues lhr := by
      simp only [allIssues, resultOf, List.mem_append, List.mem_filter] at hir
      rcases hir with (h | h) | h <;> exact h.1
    exact (mem_extractIssues lhr i hmem).2.1

/-- Witness of C29: one page built from the sample Lighthouse result. -/
theorem runAudit_totalIssues_accounting_witness :
    (∀ r ∈ [resultOf "https://example.com" ⟨50, 60, 70⟩ (extractIssues sampleLhr) scenarioTime],
      ∃ url scores lhr timestamp, r = resultOf url scores (extractIssues lhr) timestamp) ∧
    (generateSiteSummary
        [resultOf "https://example.com" ⟨50, 60, 70⟩ (extractIssues sampleLhr) scenarioTime]
        []).totalIssues.critical +
      (generateSiteSummary
        [resultOf "https://example.com" ⟨50, 60, 70⟩ (extractIssues sampleLhr) scenarioTime]
        []).totalIssues.moderate +
      (generateSiteSummary
        [resultOf "https://example.com" ⟨50, 60, 70⟩ (extractIssues sampleLhr) scenarioTime]
        []).totalIssues.minor =
      ([resultOf "https://example.com" ⟨50, 60, 70⟩ (extractIssues sampleLhr)
        scenarioTime].map fun r => r.totalIssues).sum :=
  ⟨fun _ hr => ⟨"https://example.com", ⟨50, 60, 70⟩, sampleLhr, scenarioTime,
      List.mem_singleton.mp hr⟩,
    (runAudit_totalIssues_accounting
      [resultOf "https://example.com" ⟨50, 60, 70⟩ (extractIssues sampleLhr) scenarioTime] []
      fun _ hr => ⟨"https://example.com", ⟨50, 60, 70⟩, sampleLhr, scenarioTime,
        List.mem_singleton.mp hr⟩).2⟩

/-! ## Breadth-first order -/

/-- More links reach at least as much. -/
theorem WithinLinks_succ (edges : String → List String) (seed : String) (k : Nat)
    (url : String) (h : WithinLinks edges seed k url) : WithinLinks edges seed (k + 1) url :=
  Or.inl h

/-- The seed is within every number of links. -/
theorem WithinLinks_seed (edges : String → List String) (seed : String) :
    ∀ k, WithinLinks edges seed k seed := by
  intro k
  induction k with
  | zero => rfl
  | succ k ih => exact Or.inl ih

/-- A link of a URL within `k` links is within `k + 1` links. -/
theorem WithinLinks_edge (edges : String → List String) (seed : String) (k : Nat)
    (w url : String) (hw : WithinLinks edges seed k w) (hu : url ∈ edges w) :
    WithinLinks edges seed (k + 1) url :=
  Or.inr ⟨w, hw, hu⟩

/-- Under the invariant, a URL that was never enqueued and is within `k + 1`
links has the head of the queue within `k` links: it is at least one link
farther than the page being fetched. -/
theorem bfs_front (edges : String → List String) (seed : String)
    (v : List String) (c : String) (rest d : List String)
    (hinv : BfsInv edges seed ⟨v, c :: rest, d⟩) :
    ∀ k n, n ∉ d ++ c :: rest → WithinLinks edges seed (k + 1) n →
      WithinLinks edges seed k c := by
  obtain ⟨_, hseed, hpw, hout, hclos, _⟩ := hinv
  simp only at hseed hpw hout hclos
  have hc : c ∈ d ++ c :: rest := by simp
  have hrest : ∀ w ∈ rest, NotFarther edges seed c w := by
    have := (List.pairwise_append.mp hpw).2.1
    exact (List.pairwise_cons.mp this).1
  intro k
  induction k with
  | zero =>
    intro n hn hw
    rcases hw with hw | ⟨w, hw, hnw⟩
    · exact absurd (show n ∈ d ++ c :: rest from hw ▸ hseed) hn
    · by_cases hwd : w ∈ d
      · exact absurd (hclos w hwd n hnw) hn
      · by_cases hwH : w ∈ d ++ c :: rest
        · rcases List.mem_append.mp hwH with h | h
          · exact absurd h hwd
          · rcases List.mem_cons.mp h with h | h
            · exact h ▸ hw
            · exact hrest w h 0 hw
        · exact hout w hwH c hc 0 hw
  | succ k ih =>
    intro n hn hw
    rcases hw with hw | ⟨w, hw, hnw⟩
    · exact Or.inl (ih n hn hw)
    · by_cases hwd : w ∈ d
      · exact absurd (hclos w hwd n hnw) hn
      · by_cases hwH : w ∈ d ++ c :: rest
        · rcases List.mem_append.mp hwH with h | h
          · exact absurd h hwd
          · rcases List.mem_cons.mp h with h | h
            · exact h ▸ hw
            · exact hrest w h (k + 1) hw
        · exact hout w hwH c hc (k + 1) hw

/-- An iteration of the loop keeps the breadth-first invariant, when the
extractor is deterministic. -/
theorem crawlStep_bfs (lib : UrlLib) (net : Network) (base seed : String)
    (hdet : ∀ k u, net k u = net 0 u)
    (v : List String) (c : String) (rest d : List String)
    (hinv : BfsInv (linkGraph lib net base) seed ⟨v, c :: rest, d⟩) :
    BfsInv (linkGraph lib net base) seed (crawlStep lib net base ⟨v, c :: rest, d⟩) := by
  have hfront := bfs_front (linkGraph lib net base) seed v c rest d hinv
  obtain ⟨hci, hseed, hpw, hout, hclos, hreach⟩ := id hinv
  simp only at hseed hpw hout hclos hreach
  have hci' := crawlStep_inv lib net base _ hci
  obtain ⟨_, added, e, _, hin, hall⟩ := crawlStep_spec lib net base v c rest d hci
  have hE : extractLinksFromPage lib (net d.length c) c base = linkGraph lib net base c := by
    simp only [linkGraph, hdet d.length c]
  rw [hE] at hin hall
  have hH : (d ++ [c]) ++ (rest ++ added) = (d ++ c :: rest) ++ added := by simp
  have hc : c ∈ d ++ c :: rest := by simp
  -- a new URL is at least as far as a link of the page being fetched
  have hnew : ∀ n, n ∉ d ++ c :: rest → ∀ x ∈ linkGraph lib net base c,
      NotFarther (linkGraph lib net base) seed x n := by
    intro n hn x hx k hk
    cases k with
    | zero => exact absurd (show n ∈ d ++ c :: rest from (show n = seed from hk) ▸ hseed) hn
    | succ j => exact WithinLinks_edge _ seed j c x (hfront j n hn hk) hx
  rw [e] at hci' ⊢
  refine ⟨hci', ?_, ?_, ?_, ?_, ?_⟩
  · simp only [hH]
    exact List.mem_append_left _ hseed
  · simp only [hH]
    refine List.pairwise_append.mpr ⟨hpw, ?_, ?_⟩
    · exact List.pairwise_of_forall_mem_list fun a ha b hb =>
        hnew b (hin b hb).2 a (hin a ha).1
    · intro x hx n hn
      exact hout n (hin n hn).2 x hx
  · simp only [hH]
    intro n hn x hx
    have hnH : n ∉ d ++ c :: rest := fun h => hn (List.mem_append_left _ h)
    rcases List.mem_append.mp hx with hx | hx
    · exact hout n hnH x hx
    · exact hnew n hnH x (hin x hx).1
  · simp only [hH]
    intro w hw n hn
    rcases List.mem_append.mp hw with hw | hw
    · exact List.mem_append_left _ (hclos w hw n hn)
    · rw [List.mem_singleton] at hw
      subst hw
      exact hall n hn
  · simp only [hH]
    intro x hx
    rcases List.mem_append.mp hx with hx | hx
    · exact hreach x hx
    · obtain ⟨k, hk⟩ := hreach c hc
      exact ⟨k + 1, WithinLinks_edge _ seed k c x hk (hin x hx).1⟩

/-- The initial state satisfies the breadth-first invariant. -/
theorem bfsInv_init (edges : String → List String) (seed : String) :
    BfsInv edges seed ⟨[], [seed], []⟩ := by
  refine ⟨crawlInv_init seed, by simp, by simp, ?_, by simp, ?_⟩
  · intro n _ x hx k _
    simp only [List.nil_append, List.mem_singleton] at hx
    subst hx
    exact WithinLinks_seed edges x k
  · intro x hx
    simp only [List.nil_append, List.mem_singleton] at hx
    exact ⟨0, hx⟩

/-- Every state of the loop satisfies the breadth-first invariant. -/
theorem crawlStateAt_bfs (lib : UrlLib) (net : Network) (base seed : String) (N : ℚ)
    (hdet : ∀ k u, net k u = net 0 u) :
    ∀ (n : Nat) (st : CrawlState), BfsInv (linkGraph lib net base) seed st →
      BfsInv (linkGraph lib net base) seed (crawlStateAt lib net base N n st) := by
  intro n
  induction n with
  | zero => intro st h; exact h
  | succ n ih =>
    intro st h
    simp only [crawlStateAt]
    split_ifs with hc
    · obtain ⟨v, q, d⟩ := st
      cases q with
      | nil => simp [crawlContinues] at hc
      | cons c rest => exact ih _ (crawlStep_bfs lib net base seed hdet v c rest d h)
    · exact h

/-- A list ordered by `NotFarther` is ordered by link distance. -/
theorem notFarther_distance (edges : String → List String) (seed x y : String)
    (h : NotFarther edges seed x y) (dx dy : Nat) (hx : IsLinkDistance edges seed x dx)
    (hy : IsLinkDistance edges seed y dy) : dx ≤ dy :=
  hx.2 dy (h dy hy.1)

/-- A reachable URL has a link distance. -/
theorem exists_linkDistance (edges : String → List String) (seed url : String)
    (h : ∃ k, WithinLinks edges seed k url) : ∃ d, IsLinkDistance edges seed url d := by
  classical
  exact ⟨Nat.find h, Nat.find_spec h, fun k hk => Nat.find_min' h hk⟩

/-- C23: for a deterministic link extractor, the list returned by
`crawlWebsite` is in breadth-first order.  In the graph whose edges are the
extractor's links, every listed URL has a link distance from the seed, and of
two listed URLs the one listed first has the smaller or the same distance; so
a page at distance `d + 1` is not listed before a page at distance `d`. -/
theorem crawlWebsite_breadth_first (lib : UrlLib) (net : Network) (fuel : Nat)
    (seed : String) (N : ℚ) (urls : List String) (b : lib.Url)
    (hdet : ∀ k u, net k u = net 0 u) (hb : lib.parse seed = some b)
    (h : crawlWebsite lib net fuel seed N = Outcome.returned urls) :
    (∀ x ∈ urls, ∃ d, IsLinkDistance (linkGraph lib net (lib.hostname b)) seed x d) ∧
    urls.Pairwise (fun x y => ∀ dx dy,
      IsLinkDistance (linkGraph lib net (lib.hostname b)) seed x dx →
      IsLinkDistance (linkGraph lib net (lib.hostname b)) seed y dy → dx ≤ dy) ∧
    (∀ pre x mid y post d, urls = pre ++ x :: mid ++ y :: post →
      IsLinkDistance (linkGraph lib net (lib.hostname b)) seed y d →
      ¬ IsLinkDistance (linkGraph lib net (lib.hostname b)) seed x (d + 1)) := by
  obtain ⟨b', hb', hl⟩ := (crawlWebsite_returned_iff lib net fuel seed N urls).mp h
  rw [hb] at hb'
  have hbb : b = b' := Option.some.inj hb'
  subst hbb
  have hinv := crawlStateAt_bfs lib net (lib.hostname b) seed N hdet fuel _
    (bfsInv_init (linkGraph lib net (lib.hostname b)) seed)
  rw [crawlLoop_eq_stateAt] at hl
  split_ifs at hl
  have hr : (crawlStateAt lib net (lib.hostname b) N fuel ⟨[], [seed], []⟩).discoveredUrls =
      urls := Option.some.inj hl
  obtain ⟨_, _, hpw, _, _, hreach⟩ := hinv
  rw [hr] at hpw hreach
  have hpw' : urls.Pairwise (NotFarther (linkGraph lib net (lib.hostname b)) seed) :=
    (List.pairwise_append.mp hpw).1
  have hord : urls.Pairwise (fun x y => ∀ dx dy,
      IsLinkDistance (linkGraph lib net (lib.hostname b)) seed x dx →
      IsLinkDistance (linkGraph lib net (lib.hostname b)) seed y dy → dx ≤ dy) :=
    hpw'.imp fun hxy dx dy hx hy => notFarther_distance _ seed _ _ hxy dx dy hx hy
  refine ⟨?_, hord, ?_⟩
  · intro x hx
    exact exists_linkDistance _ seed x (hreach x (List.mem_append_left _ hx))
  · intro pre x mid y post d hsplit hy hx
    rw [hsplit] at hord
    have h₁ := (List.pairwise_append.mp hord).2.2 x (by simp) y (by simp)
    have := h₁ (d + 1) d hx hy
    omega

/-- Witness of C23: scenario A, whose network does not depend on the call
number; the seed is listed before `/a`, and `/a` is one link away. -/
theorem crawlWebsite_breadth_first_witness :
    (∀ k u, scenarioANet k u = scenarioANet 0 u) ∧
    crawlWebsite urlLite scenarioANet 3 "https://example.com" 10 =
      Outcome.returned scenarioAUrls ∧
    scenarioAUrls.Pairwise (fun x y => ∀ dx dy,
      IsLinkDistance (linkGraph urlLite scenarioANet "example.com") "https://example.com" x dx →
      IsLinkDistance (linkGraph urlLite scenarioANet "example.com") "https://example.com" y dy →
      dx ≤ dy) :=
  ⟨fun _ _ => rfl, by decide,
    (crawlWebsite_breadth_first urlLite scenarioANet 3 "https://example.com" 10 scenarioAUrls
      ⟨"https".data, "example.com".data, "/".data, none, none⟩ (fun _ _ => rfl) rfl
      (by decide)).2.1⟩

end Xstreams
